import Mathlib

/-!
# Cornerstone pixel sampling and VOI lookup tables

A shallow embedding of `src/getStoredPixels.js`, `src/getPixels.js` and
`src/internal/getVOILut.js`.

Conventions of the embedding:

* Stored pixels, coordinates, slopes, intercepts and the arguments of the VOI
  functions are elements of a linearly ordered field `K` with a floor function,
  taken as given (`ℚ` is used for concrete evaluation).
* The window mappings of `getVOILut.js` compute in IEEE-754 binary64: their
  values are of type `JSNumber K` (a finite double, an infinity, or NaN) and
  every operator rounds its exact result to the nearest double, ties to even.
  The sign of a zero is not represented.
* A JavaScript value that is either a number or `undefined` is an `Option`;
  `none` is the absent value.
* A `throw` is the `error` case of `Except String`.
* The enabled-element registry and the image cache are read-only collaborators,
  passed as a `World`.
-/

namespace Cornerstone

/-! ## Data model -/

/-- The DOM element handle that callers pass; only its identity matters. -/
structure Element where
  id : Nat
deriving DecidableEq, Repr

/-- The lookup table object `LUT` (used for modality and VOI tables). -/
structure LUT where
  firstValueMapped : Int
  numBitsPerEntry : Int
  lut : List Int
deriving DecidableEq, Repr

/-- The fields of an image object that the sources and their tests read. -/
structure Image (K : Type) where
  slope : K
  intercept : K
  windowCenter : K
  windowWidth : K
  rows : Int
  columns : Int
  getPixelData : Unit → List K
  voiLUT : Option LUT
  voiLUTFunction : Option String

/-- The field of the viewport that `getPixels` reads. -/
structure Viewport where
  modalityLUT : Option LUT

/-- An enabled element together with the image it displays. -/
structure EnabledElement (K : Type) where
  image : Image K
  viewport : Viewport

/-- An entry of `imageCache.imageCache`. -/
structure CachedImage (K : Type) where
  image : Image K
  loaded : Bool

/-- The `options` argument; `none` is `hqImageId: undefined`. -/
structure Options where
  hqImageId : Option String
deriving DecidableEq, Repr

/-- The default value of the `options` parameter, `{ hqImageId: undefined }`. -/
def defaultOptions : Options := ⟨none⟩

/-- The external state the two entry points read: the registry of enabled
elements and the object `imageCache.imageCache`, keyed by image id. -/
structure World (K : Type) where
  enabledElements : Element → Option (EnabledElement K)
  imageCache : String → Option (CachedImage K)

/-! ## JavaScript primitives -/

section Primitives

variable {K : Type} [LinearOrderedField K] [FloorRing K]

/-- `Math.round`: the nearest integer, a tie going to the larger one. -/
def mathRound (t : K) : Int := ⌊t + 1 / 2⌋

/-- Reading `a[i]` at an integer index: `undefined` outside `0 .. length - 1`. -/
def jsIndex {α : Type} (a : List α) (i : Int) : Option α :=
  if 0 ≤ i then a[i.toNat]? else none

/-- The assignment `a[index] = v` on an array of possibly absent values: it
overwrites inside the array and grows the array otherwise. -/
def jsAssign {α : Type} (a : List (Option α)) (index : Nat) (v : Option α) :
    List (Option α) :=
  if index < a.length then a.set index v
  else a ++ List.replicate (index - a.length) none ++ [v]

/-- Reading `a[t]` at a numeric index: `undefined` unless `t` is an integer
inside `0 .. length - 1`. -/
def jsIndexNum {α : Type} (a : List α) (t : K) : Option α :=
  if ((⌊t⌋ : Int) : K) = t then jsIndex a ⌊t⌋ else none

/-- `Math.max(...l)` on integers; `none` is `-Infinity`, the value for no argument. -/
def mathMax (l : List Int) : Option Int := l.max?

/-- The length of `n.toString(2)`: one character for zero, otherwise the
binary digits of the magnitude, and a sign for a negative number. -/
def binaryStringLength (n : Int) : Nat :=
  if n = 0 then 1
  else (Nat.digits 2 n.natAbs).length + (if n < 0 then 1 else 0)

/-- The conversion `ToInt32` on integers: reduction modulo `2 ^ 32` into
`-2 ^ 31 .. 2 ^ 31 - 1`. -/
def toInt32 (a : Int) : Int := (a + 2 ^ 31) % 2 ^ 32 - 2 ^ 31

/-- The operator `a >> shift`: the left operand goes through `ToInt32`
(`undefined` becomes 0), the shift count is taken modulo 32, and the shift is
arithmetic. -/
def jsShiftRight (a : Option Int) (shift : Int) : Int :=
  toInt32 (a.getD 0) >>> (shift % 32).toNat

end Primitives

/-! ## JavaScript numbers

IEEE-754 binary64 with rounding to nearest, ties to even. A finite double is
given by its exact value in the field `K`. -/

section Rounding

variable {K : Type} [LinearOrderedField K] [FloorRing K]

/-- Rounding to the nearest integer, a tie going to the even one. -/
def roundHalfEven (t : K) : Int :=
  if t - ⌊t⌋ < 1 / 2 then ⌊t⌋
  else if 1 / 2 < t - ⌊t⌋ then ⌊t⌋ + 1
  else if ⌊t⌋ % 2 = 0 then ⌊t⌋ else ⌊t⌋ + 1

/-- The exponent of the binade of `q` in binary64: `⌊log₂ |q|⌋`, and -1022 for
the subnormal numbers. -/
def binade (q : K) : Int := max (Int.log 2 |q|) (-1022)

/-- The spacing of the doubles in the binade of `q`: 53 significant bits. -/
def ulp (q : K) : K := 2 ^ (binade q - 52)

/-- Rounding of a real value to binary64, to nearest, ties to even, the
exponent unbounded above. -/
def roundDouble (q : K) : K := (roundHalfEven (q / ulp q) : K) * ulp q

end Rounding

/-- A JavaScript number: a finite double, given by its exact value, one of the
two infinities, or NaN. The sign of a zero is not represented. -/
inductive JSNumber (K : Type) where
  | nan : JSNumber K
  | negInf : JSNumber K
  | posInf : JSNumber K
  | finite (value : K) : JSNumber K

namespace JSNumber

variable {K : Type} [LinearOrderedField K] [FloorRing K]

/-- The largest finite double, `(2 ^ 53 - 1) * 2 ^ 971`. -/
def maxDouble : K := (2 ^ (53 : Int) - 1) * 2 ^ (971 : Int)

/-- The double that an exact result becomes: rounded to nearest, ties to even,
and an infinity when the rounded magnitude exceeds the largest finite double. -/
def toDouble (q : K) : JSNumber K :=
  if maxDouble < roundDouble q then posInf
  else if roundDouble q < -maxDouble then negInf
  else finite (roundDouble q)

/-- The operator `-a`. -/
def neg : JSNumber K → JSNumber K
  | nan => nan
  | negInf => posInf
  | posInf => negInf
  | finite a => finite (-a)

/-- The operator `a + b`. -/
def add : JSNumber K → JSNumber K → JSNumber K
  | finite a, finite b => toDouble (a + b)
  | nan, _ => nan
  | _, nan => nan
  | posInf, negInf => nan
  | negInf, posInf => nan
  | posInf, _ => posInf
  | _, posInf => posInf
  | negInf, _ => negInf
  | _, negInf => negInf

/-- The operator `a - b`. -/
def sub (a b : JSNumber K) : JSNumber K := add a (neg b)

/-- The infinity with the sign of `a`, and NaN for zero: the product of a
finite number and `+Infinity`. -/
def signedInf (a : K) : JSNumber K :=
  if a = 0 then nan else if 0 < a then posInf else negInf

/-- The operator `a * b`. -/
def mul : JSNumber K → JSNumber K → JSNumber K
  | finite a, finite b => toDouble (a * b)
  | nan, _ => nan
  | _, nan => nan
  | finite a, posInf => signedInf a
  | finite a, negInf => signedInf (-a)
  | posInf, finite b => signedInf b
  | negInf, finite b => signedInf (-b)
  | posInf, posInf => posInf
  | negInf, negInf => posInf
  | posInf, negInf => negInf
  | negInf, posInf => negInf

/-- The operator `a / b`. A zero divisor is taken as `+0`. -/
def div : JSNumber K → JSNumber K → JSNumber K
  | finite a, finite b => if b = 0 then signedInf a else toDouble (a / b)
  | nan, _ => nan
  | _, nan => nan
  | finite _, posInf => finite 0
  | finite _, negInf => finite 0
  | posInf, finite b => if 0 ≤ b then posInf else negInf
  | negInf, finite b => if 0 ≤ b then negInf else posInf
  | posInf, posInf => nan
  | posInf, negInf => nan
  | negInf, posInf => nan
  | negInf, negInf => nan

/-- The comparison `a <= b`, false when an operand is NaN. -/
def le : JSNumber K → JSNumber K → Prop
  | finite a, finite b => a ≤ b
  | nan, _ => False
  | _, nan => False
  | negInf, _ => True
  | _, posInf => True
  | _, _ => False

/-- The comparison `a < b`, false when an operand is NaN. -/
def lt : JSNumber K → JSNumber K → Prop
  | finite a, finite b => a < b
  | nan, _ => False
  | _, nan => False
  | posInf, _ => False
  | _, negInf => False
  | _, _ => True

instance : Add (JSNumber K) := ⟨add⟩
instance : Sub (JSNumber K) := ⟨sub⟩
instance : Mul (JSNumber K) := ⟨mul⟩
instance : Div (JSNumber K) := ⟨div⟩
instance : Neg (JSNumber K) := ⟨neg⟩
instance : LE (JSNumber K) := ⟨le⟩
instance : LT (JSNumber K) := ⟨lt⟩

instance decidableLe (a b : JSNumber K) : Decidable (a ≤ b) := by
  cases a <;> cases b <;> simp only [LE.le, le] <;> infer_instance

instance decidableLt (a b : JSNumber K) : Decidable (a < b) := by
  cases a <;> cases b <;> simp only [LT.lt, lt] <;> infer_instance

/-- The value `q` is a finite double. -/
def IsDouble (q : K) : Prop := toDouble q = finite q

end JSNumber

section NumberFunctions

variable {K : Type} [LinearOrderedField K] [FloorRing K]

open JSNumber

/-- The function `Math.max (a, b)` on two numbers: NaN when an operand is NaN,
else the larger. -/
def jsMax : JSNumber K → JSNumber K → JSNumber K
  | nan, _ => nan
  | _, nan => nan
  | a, b => if a ≤ b then b else a

/-- The function `Math.min (a, b)` on two numbers: NaN when an operand is NaN,
else the smaller. -/
def jsMin : JSNumber K → JSNumber K → JSNumber K
  | nan, _ => nan
  | _, nan => nan
  | a, b => if a ≤ b then a else b

/-- The function `Math.exp` as the correctly rounded value of an exponential
`exp` of the field: NaN for NaN, `+Infinity` for `+Infinity`, 0 for
`-Infinity`. -/
def mathExp (exp : K → K) : JSNumber K → JSNumber K
  | nan => nan
  | posInf => posInf
  | negInf => finite 0
  | finite t => toDouble (exp t)

end NumberFunctions

/-! ## `internal/getVOILut.js`

The three window mappings compute on doubles. `Math.exp` is a parameter `exp`
of the sigmoid. The arguments are finite numbers, taken as given. -/

section GetVOILut

variable {K : Type} [LinearOrderedField K] [FloorRing K]

open JSNumber

/-- The function `generateLinearVOILUT (windowWidth, windowCenter)`. -/
def generateLinearVOILUT (windowWidth windowCenter : K) (modalityLutValue : K) : JSNumber K :=
  ((finite modalityLutValue - finite windowCenter) / finite windowWidth + finite 0.5)
    * finite 255.0

/-- The function `generateLinearExactVOILUT (windowWidth, windowCenter)`. -/
def generateLinearExactVOILUT (windowWidth windowCenter : K) (x : K) : JSNumber K :=
  let yMin : JSNumber K := finite 0
  let yMax : JSNumber K := finite 255
  if finite x ≤ finite windowCenter - finite windowWidth / finite 2 then yMin
  else if finite x > finite windowCenter + finite windowWidth / finite 2 then yMax
  else ((finite x - finite windowCenter) / finite windowWidth + finite 0.5) * (yMax - yMin)
    + yMin

/-- The lower bound `windowCenter - windowWidth / 2` as the code computes it. -/
def linearExactLow (windowWidth windowCenter : K) : JSNumber K :=
  finite windowCenter - finite windowWidth / finite 2

/-- The upper bound `windowCenter + windowWidth / 2` as the code computes it. -/
def linearExactHigh (windowWidth windowCenter : K) : JSNumber K :=
  finite windowCenter + finite windowWidth / finite 2

/-- The number of bits that `generateNonLinearVOILUT` derives from the table:
`Math.max(...voiLUT.lut).toString(2).length`; for an empty table the string is
`-Infinity`, of length 9. -/
def bitsPerEntry (lut : List Int) : Nat :=
  match mathMax lut with
  | some m => binaryStringLength m
  | none => 9

/-- The function `generateNonLinearVOILUT (voiLUT, roundModalityLUTValues)`. -/
def generateNonLinearVOILUT (voiLUT : LUT) (roundModalityLUTValues : Bool)
    (modalityLutValue : K) : K :=
  let shift : Int := (bitsPerEntry voiLUT.lut : Int) - 8
  let minValue := jsShiftRight (jsIndex voiLUT.lut 0) shift
  let maxValue := jsShiftRight (jsIndex voiLUT.lut ((voiLUT.lut.length : Int) - 1)) shift
  let maxValueMapped : Int := voiLUT.firstValueMapped + (voiLUT.lut.length : Int) - 1
  if modalityLutValue < (voiLUT.firstValueMapped : K) then (minValue : K)
  else if modalityLutValue ≥ (maxValueMapped : K) then (maxValue : K)
  else if roundModalityLUTValues then
    ((jsShiftRight
      (jsIndex voiLUT.lut (mathRound modalityLutValue - voiLUT.firstValueMapped)) shift : Int) : K)
  else
    ((jsShiftRight
      (jsIndexNum voiLUT.lut (modalityLutValue - (voiLUT.firstValueMapped : K))) shift : Int) : K)

/-- The function `generateSigmoidVOILUT (windowWidth, windowCenter)`. -/
def generateSigmoidVOILUT (exp : JSNumber K → JSNumber K) (windowWidth windowCenter : K)
    (modalityLutValue : K) : JSNumber K :=
  let minOutputValue : JSNumber K := finite 0
  let maxOutputValue : JSNumber K := finite 255
  ((maxOutputValue - minOutputValue)
      / (finite 1 + exp ((finite (-4) * (finite modalityLutValue - finite windowCenter))
          / finite windowWidth)))
    + minOutputValue

/-- The default export of `getVOILut.js`. A table is `none` when the argument
is absent or `null`; the function kind is `none` when it is not a string. The
value of the table-driven mapping, an integer, is a finite number. -/
def getVOILut (exp : JSNumber K → JSNumber K) (windowWidth windowCenter : K)
    (voiLUT : Option LUT) (roundModalityLUTValues : Bool) (voiLUTFunction : Option String) :
    K → JSNumber K :=
  if voiLUTFunction = some "SIGMOID" then
    generateSigmoidVOILUT exp windowWidth windowCenter
  else
    match voiLUT with
    | some table => fun v => finite (generateNonLinearVOILUT table roundModalityLUTValues v)
    | none =>
      if voiLUTFunction = some "LINEAR_EXACT" then
        generateLinearExactVOILUT windowWidth windowCenter
      else
        generateLinearVOILUT windowWidth windowCenter

end GetVOILut

/-! ## `getStoredPixels.js` -/

section GetStoredPixels

variable {K : Type}

/-- Modelled from the spec: `getEnabledElement` of `enabledElements.js` is not
among the sources; a handle that the registry does not resolve fails. -/
def getEnabledElement (w : World K) (element : Option Element) :
    Except String (EnabledElement K) :=
  match element with
  | none => .error "getEnabledElement: parameter element must not be undefined"
  | some el =>
    match w.enabledElements el with
    | some enabledElement => .ok enabledElement
    | none => .error "element not enabled"

/-- The function `getPixelData (enabledElement, hqImageId)`. -/
def getPixelData (w : World K) (enabledElement : EnabledElement K)
    (hqImageId : Option String) : List K :=
  let pixelData := enabledElement.image.getPixelData ()
  match hqImageId with
  | none => pixelData
  | some id =>
    match w.imageCache id with
    | some foundHQImage =>
      if foundHQImage.loaded then foundHQImage.image.getPixelData () else pixelData
    | none => pixelData

/-- The body of the inner loop: one read and one write, `index++`. -/
def storePixel (pixelData : List K) (columns x y : Int) (row column : Nat)
    (st : List (Option K) × Nat) : List (Option K) × Nat :=
  let spIndex := ((row : Int) + y) * columns + ((column : Int) + x)
  (jsAssign st.1 st.2 (jsIndex pixelData spIndex), st.2 + 1)

/-- The loop `for (let column = 0; column < width; column++)`. -/
def columnLoop (pixelData : List K) (columns x y : Int) (width row : Nat)
    (st : List (Option K) × Nat) : List (Option K) × Nat :=
  (List.range width).foldl (fun s column => storePixel pixelData columns x y row column s) st

/-- The loop `for (let row = 0; row < height; row++)`. -/
def rowLoop (pixelData : List K) (columns x y : Int) (width height : Nat)
    (st : List (Option K) × Nat) : List (Option K) × Nat :=
  (List.range height).foldl (fun s row => columnLoop pixelData columns x y width row s) st

/-- The default export of `getStoredPixels.js`. The extents `width` and
`height` are integer counts. -/
def getStoredPixels [LinearOrderedField K] [FloorRing K] (w : World K)
    (element : Option Element) (x y : K) (width height : Nat) (options : Options) :
    Except String (List (Option K)) :=
  match element with
  | none => .error "getStoredPixels: parameter element must not be undefined"
  | some _ =>
    let x := mathRound x
    let y := mathRound y
    match getEnabledElement w element with
    | .error e => .error e
    | .ok enabledElement =>
      let pixelData := getPixelData w enabledElement options.hqImageId
      let storedPixels : List (Option K) := []
      let index := 0
      .ok (rowLoop pixelData enabledElement.image.columns x y width height
        (storedPixels, index)).1

end GetStoredPixels

/-! ## `getPixels.js` -/

section GetPixels

variable {K : Type}

/-- The function `getSlopeAndIntercept (enabledElement, hqImageId)`; the result
is the pair `(slope, intercept)`. -/
def getSlopeAndIntercept (w : World K) (enabledElement : EnabledElement K)
    (hqImageId : Option String) : K × K :=
  let slope := enabledElement.image.slope
  let intercept := enabledElement.image.intercept
  match hqImageId with
  | none => (slope, intercept)
  | some id =>
    match w.imageCache id with
    | some foundHQImage =>
      if foundHQImage.loaded then (foundHQImage.image.slope, foundHQImage.image.intercept)
      else (slope, intercept)
    | none => (slope, intercept)

/-- The default export of `getPixels.js`. The function `getModalityLUT` of
`internal/getModalityLUT.js` is not among the sources and is a parameter: from
`slope`, `intercept` and the optional modality table it builds the function that
is mapped over the stored pixels. -/
def getPixels [LinearOrderedField K] [FloorRing K]
    (getModalityLUT : K → K → Option LUT → Option K → Option K)
    (w : World K) (element : Option Element) (x y : K) (width height : Nat)
    (options : Options) : Except String (List (Option K)) :=
  match getStoredPixels w element x y width height options with
  | .error e => .error e
  | .ok storedPixels =>
    match getEnabledElement w element with
    | .error e => .error e
    | .ok ee =>
      let (slope, intercept) := getSlopeAndIntercept w ee options.hqImageId
      let mlutfn := getModalityLUT slope intercept ee.viewport.modalityLUT
      .ok (storedPixels.map mlutfn)

/-- Modelled from the spec: the modality transform of `getModalityLUT.js` when
no modality table is given, the affine map `v * slope + intercept`; applied to
an absent sample it yields no number. -/
def linearModalityLUT [LinearOrderedField K] (slope intercept : K) (_modalityLUT : Option LUT)
    (v : Option K) : Option K :=
  v.map (fun raw => raw * slope + intercept)

end GetPixels

/-! ## Closed forms of the sampling loops -/

section ClosedForms

variable {K : Type}

/-- The sample that the loops read for `(row, column)`. -/
def sampleAt (pixelData : List K) (columns x y : Int) (row column : Nat) : Option K :=
  jsIndex pixelData (((row : Int) + y) * columns + ((column : Int) + x))

/-- The samples of one row, in column order. -/
def rowSamples (pixelData : List K) (columns x y : Int) (width row : Nat) :
    List (Option K) :=
  (List.range width).map (sampleAt pixelData columns x y row)

/-- The samples of the first `height` rows, row after row. -/
def regionSamples (pixelData : List K) (columns x y : Int) (width : Nat) :
    Nat → List (Option K)
  | 0 => []
  | height + 1 =>
    regionSamples pixelData columns x y width height
      ++ rowSamples pixelData columns x y width height

end ClosedForms

/-! ## The display pipeline as the specification words it -/

section SpecPipeline

variable {K : Type} [LinearOrderedField K] [FloorRing K]

open JSNumber

/-- The display-value pipeline of the specification, section 4.4, steps (b) to
(e): raw samples from the sampler, the resolved `(slope, intercept)`, a VOI
function built by `getVOILut` from the active image's window width, window
center, VOI table and kind, and each raw sample mapped through
`voi (raw * slope + intercept)`. -/
def displayPixelsSpec (exp : JSNumber K → JSNumber K) (roundBeforeLookup : Bool) (w : World K)
    (element : Option Element) (x y : K) (width height : Nat) (options : Options) :
    Except String (List (Option (JSNumber K))) :=
  match getStoredPixels w element x y width height options with
  | .error e => .error e
  | .ok raws =>
    match getEnabledElement w element with
    | .error e => .error e
    | .ok ee =>
      let (slope, intercept) := getSlopeAndIntercept w ee options.hqImageId
      let voi := getVOILut exp ee.image.windowWidth ee.image.windowCenter ee.image.voiLUT
        roundBeforeLookup ee.image.voiLUTFunction
      .ok (raws.map (Option.map (fun raw => voi (raw * slope + intercept))))

/-- The result of `getPixels` read as JavaScript numbers: every sample is a
finite number. -/
def asNumbers (r : Except String (List (Option K))) :
    Except String (List (Option (JSNumber K))) :=
  match r with
  | .error e => .error e
  | .ok l => .ok (l.map (Option.map finite))

/-- The linear-exact mapping as the specification words it: the unclamped
linear value clamped into the range 0 to 255. -/
def linearExactSpec (windowWidth windowCenter x : K) : JSNumber K :=
  jsMin (finite 255)
    (jsMax (finite 0)
      (((finite x - finite windowCenter) / finite windowWidth + finite 0.5) * finite 255))

/-- The enabled element `ee` with the VOI settings of its image replaced. -/
def withVOISettings (ee : EnabledElement K) (windowWidth windowCenter : K)
    (voiLUT : Option LUT) (voiLUTFunction : Option String) : EnabledElement K :=
  { ee with image := { ee.image with
      windowWidth := windowWidth, windowCenter := windowCenter,
      voiLUT := voiLUT, voiLUTFunction := voiLUTFunction } }

/-- The world `w` with the registry entry of `el` replaced by `ee`. -/
def withEnabledElement (w : World K) (el : Element) (ee : EnabledElement K) : World K :=
  { w with enabledElements := fun e => if e = el then some ee else w.enabledElements e }

/-- The shift of the table-driven VOI function as the specification words it:
`bitLength (max lut) - 8` for a table of non-negative integers, the bit length
of a natural number being `Nat.size` (0 for 0). -/
def tableShiftSpec (lut : List Int) : Int :=
  (Nat.size (lut.foldl max 0).toNat : Int) - 8

/-- The table-driven VOI value as the specification words it, on an integer
input: the entry at `v - firstValueMapped` clamped into `0 .. len - 1`, shifted
right by `bitLength (max lut) - 8`. -/
def tableVOISpec (voiLUT : LUT) (v : Int) : Int :=
  let i : Int := max 0 (min (v - voiLUT.firstValueMapped) ((voiLUT.lut.length : Int) - 1))
  jsShiftRight (jsIndex voiLUT.lut i) (tableShiftSpec voiLUT.lut)

end SpecPipeline

/-! ## Fixtures of the test files -/

section Fixtures

variable (K : Type) [LinearOrderedField K]

/-- The element of the test fixtures. -/
def testElement : Element := ⟨0⟩

/-- The 3 by 3 image of `getPixels_test.js`: samples 1 to 9, slope 3, intercept 5. -/
def testImage : Image K where
  slope := 3
  intercept := 5
  windowCenter := 127
  windowWidth := 256
  rows := 3
  columns := 3
  getPixelData := fun _ => [1, 2, 3, 4, 5, 6, 7, 8, 9]
  voiLUT := none
  voiLUTFunction := none

/-- The loaded alternate image of `getPixels_test.js`: samples 10 to 18, slope 2,
intercept -1. -/
def hqImage : Image K where
  slope := 2
  intercept := -1
  windowCenter := 127
  windowWidth := 256
  rows := 3
  columns := 3
  getPixelData := fun _ => [10, 11, 12, 13, 14, 15, 16, 17, 18]
  voiLUT := none
  voiLUTFunction := none

/-- The alternate image that is cached but not loaded: samples 100 to 108,
slope 10, intercept 1000. -/
def pendingImage : Image K where
  slope := 10
  intercept := 1000
  windowCenter := 127
  windowWidth := 256
  rows := 3
  columns := 3
  getPixelData := fun _ => [100, 101, 102, 103, 104, 105, 106, 107, 108]
  voiLUT := none
  voiLUTFunction := none

/-- The enabled element displaying `testImage`, without a modality table. -/
def testEnabledElement : EnabledElement K := ⟨testImage K, ⟨none⟩⟩

/-- The registry holding `testElement` only; the cache holds the loaded
alternate under `hq-exampleImageId` and the pending one under `hq-not-loaded`. -/
def testWorld : World K where
  enabledElements := fun el => if el = testElement then some (testEnabledElement K) else none
  imageCache := fun id =>
    if id = "hq-exampleImageId" then some ⟨hqImage K, true⟩
    else if id = "hq-not-loaded" then some ⟨pendingImage K, false⟩
    else none

/-- The table of `getVOILut_test.js`. -/
def testVoiLUT : LUT := ⟨0, 8, [0, 128, 255]⟩

/-- The table of `getVOILut_test.js` with 16 declared bits per entry, the case
the test file leaves as a note. -/
def testVoiLUT16 : LUT := ⟨0, 16, [0, 128, 255]⟩

/-- A table whose largest entry is below 128. -/
def lowVoiLUT : LUT := ⟨0, 8, [0, 64, 127]⟩

/-- A non-decreasing table whose last entry is `2 ^ 31`. -/
def wideVoiLUT : LUT := ⟨0, 32, [1, 2147483648]⟩

end Fixtures

/-! ## Lemmas about the sampler -/

section SamplerLemmas

variable {K : Type}

theorem jsAssign_at_length {α : Type} (a : List (Option α)) (v : Option α) :
    jsAssign a a.length v = a ++ [v] := by
  simp [jsAssign]

theorem columnLoop_eq (pixelData : List K) (columns x y : Int) (row : Nat)
    (width : Nat) (acc : List (Option K)) :
    columnLoop pixelData columns x y width row (acc, acc.length)
      = (acc ++ rowSamples pixelData columns x y width row, acc.length + width) := by
  induction width with
  | zero => simp [columnLoop, rowSamples]
  | succ n ih =>
    unfold columnLoop at ih ⊢
    rw [List.range_succ, List.foldl_append, ih]
    simp only [List.foldl_cons, List.foldl_nil, storePixel]
    have hlen : acc.length + n
        = (acc ++ rowSamples pixelData columns x y n row).length := by
      simp [rowSamples]
    rw [hlen, jsAssign_at_length]
    simp [rowSamples, List.range_succ, sampleAt, Nat.add_assoc]

theorem rowLoop_eq (pixelData : List K) (columns x y : Int) (width height : Nat)
    (acc : List (Option K)) :
    (rowLoop pixelData columns x y width height (acc, acc.length)).1
      = acc ++ regionSamples pixelData columns x y width height := by
  have key : rowLoop pixelData columns x y width height (acc, acc.length)
      = (acc ++ regionSamples pixelData columns x y width height,
          (acc ++ regionSamples pixelData columns x y width height).length) := by
    induction height with
    | zero => simp [rowLoop, regionSamples]
    | succ n ih =>
      unfold rowLoop at ih ⊢
      rw [List.range_succ, List.foldl_append, ih]
      simp only [List.foldl_cons, List.foldl_nil]
      rw [columnLoop_eq]
      simp [regionSamples, rowSamples, Nat.add_assoc]
  rw [key]

theorem rowSamples_length (pixelData : List K) (columns x y : Int) (width row : Nat) :
    (rowSamples pixelData columns x y width row).length = width := by
  simp [rowSamples]

theorem regionSamples_length (pixelData : List K) (columns x y : Int) (width height : Nat) :
    (regionSamples pixelData columns x y width height).length = width * height := by
  induction height with
  | zero => simp [regionSamples]
  | succ n ih => simp [regionSamples, ih, rowSamples_length, Nat.mul_succ]

theorem regionSamples_get (pixelData : List K) (columns x y : Int) (width height : Nat)
    (row column : Nat) (hrow : row < height) (hcol : column < width) :
    (regionSamples pixelData columns x y width height)[row * width + column]?
      = some (sampleAt pixelData columns x y row column) := by
  induction height with
  | zero => omega
  | succ n ih =>
    simp only [regionSamples]
    by_cases h : row < n
    · have hlt : row * width + column
          < (regionSamples pixelData columns x y width n).length := by
        rw [regionSamples_length]
        calc row * width + column < row * width + width := by omega
          _ = width * (row + 1) := by ring
          _ ≤ width * n := Nat.mul_le_mul_left _ h
      rw [List.getElem?_append_left hlt]
      exact ih h
    · have hrn : row = n := by omega
      subst hrn
      have hle : (regionSamples pixelData columns x y width row).length
          ≤ row * width + column := by
        rw [regionSamples_length, Nat.mul_comm]; omega
      rw [List.getElem?_append_right hle, regionSamples_length]
      have : row * width + column - width * row = column := by
        rw [Nat.mul_comm]; omega
      rw [this]
      simp [rowSamples, hcol]

theorem getStoredPixels_ok [LinearOrderedField K] [FloorRing K] (w : World K)
    (el : Element) (ee : EnabledElement K) (hee : w.enabledElements el = some ee)
    (x y : K) (width height : Nat) (options : Options) :
    getStoredPixels w (some el) x y width height options
      = .ok (regionSamples (getPixelData w ee options.hqImageId) ee.image.columns
          (mathRound x) (mathRound y) width height) := by
  simp only [getStoredPixels, getEnabledElement, hee]
  have h := rowLoop_eq (getPixelData w ee options.hqImageId) ee.image.columns
    (mathRound x) (mathRound y) width height []
  simp only [List.length_nil, List.nil_append] at h
  rw [h]

theorem getPixels_ok [LinearOrderedField K] [FloorRing K]
    (getModalityLUT : K → K → Option LUT → Option K → Option K) (w : World K)
    (el : Element) (ee : EnabledElement K) (hee : w.enabledElements el = some ee)
    (x y : K) (width height : Nat) (options : Options) :
    getPixels getModalityLUT w (some el) x y width height options
      = .ok ((regionSamples (getPixelData w ee options.hqImageId) ee.image.columns
          (mathRound x) (mathRound y) width height).map
            (getModalityLUT (getSlopeAndIntercept w ee options.hqImageId).1
              (getSlopeAndIntercept w ee options.hqImageId).2 ee.viewport.modalityLUT)) := by
  simp only [getPixels, getStoredPixels_ok w el ee hee, getEnabledElement, hee]

theorem getPixelData_loaded (w : World K) (ee : EnabledElement K) (id : String)
    (alt : CachedImage K) (hc : w.imageCache id = some alt) (hl : alt.loaded = true) :
    getPixelData w ee (some id) = alt.image.getPixelData () := by
  simp [getPixelData, hc, hl]

theorem getSlopeAndIntercept_loaded (w : World K) (ee : EnabledElement K) (id : String)
    (alt : CachedImage K) (hc : w.imageCache id = some alt) (hl : alt.loaded = true) :
    getSlopeAndIntercept w ee (some id) = (alt.image.slope, alt.image.intercept) := by
  simp [getSlopeAndIntercept, hc, hl]

theorem getPixelData_fallback (w : World K) (ee : EnabledElement K) (id : String)
    (h : w.imageCache id = none ∨ ∃ c, w.imageCache id = some c ∧ c.loaded = false) :
    getPixelData w ee (some id) = getPixelData w ee none := by
  rcases h with h | ⟨c, hc, hl⟩
  · simp [getPixelData, h]
  · simp [getPixelData, hc, hl]

theorem getSlopeAndIntercept_fallback (w : World K) (ee : EnabledElement K) (id : String)
    (h : w.imageCache id = none ∨ ∃ c, w.imageCache id = some c ∧ c.loaded = false) :
    getSlopeAndIntercept w ee (some id) = getSlopeAndIntercept w ee none := by
  rcases h with h | ⟨c, hc, hl⟩
  · simp [getSlopeAndIntercept, h]
  · simp [getSlopeAndIntercept, hc, hl]

theorem mathRound_intCast [LinearOrderedField K] [FloorRing K] (n : Int) :
    mathRound (n : K) = n := by
  unfold mathRound
  rw [Int.floor_eq_iff]
  constructor
  · linarith [show (0 : K) ≤ 1 / 2 by norm_num]
  · linarith [show (1 / 2 : K) < 1 by norm_num]

theorem mathRound_one [LinearOrderedField K] [FloorRing K] : mathRound (1 : K) = 1 := by
  have h := mathRound_intCast (K := K) 1
  simpa using h

theorem regionSamples_forall (pixelData : List K) (columns x y : Int) (width height : Nat)
    (P : Option K → Prop)
    (h : ∀ row column : Nat, row < height → column < width →
      P (sampleAt pixelData columns x y row column)) :
    ∀ o ∈ regionSamples pixelData columns x y width height, P o := by
  induction height with
  | zero => simp [regionSamples]
  | succ n ih =>
    intro o ho
    simp only [regionSamples, List.mem_append] at ho
    rcases ho with ho | ho
    · exact ih (fun row column hrow hcol => h row column (by omega) hcol) o ho
    · simp only [rowSamples, List.mem_map, List.mem_range] at ho
      obtain ⟨column, hcol, rfl⟩ := ho
      exact h n column (by omega) hcol

/-- Inside a buffer of `rows * columns` samples, a region that starts at a
non-negative integer corner and ends within the grid is read within bounds. -/
theorem spIndex_in_bounds (columns rows x y : Int) (width height row column : Nat)
    (hx : 0 ≤ x) (hy : 0 ≤ y) (hxw : x + (width : Int) ≤ columns)
    (hyh : y + (height : Int) ≤ rows) (hrow : row < height) (hcol : column < width) :
    0 ≤ ((row : Int) + y) * columns + ((column : Int) + x) ∧
    ((row : Int) + y) * columns + ((column : Int) + x) < rows * columns := by
  have hc : (column : Int) + x + 1 ≤ columns := by omega
  have hr : (row : Int) + y + 1 ≤ rows := by omega
  have hcpos : 0 < columns := by omega
  have h1 : 0 ≤ ((row : Int) + y) * columns := mul_nonneg (by omega) hcpos.le
  have h2 : ((row : Int) + y + 1) * columns ≤ rows * columns :=
    mul_le_mul_of_nonneg_right hr hcpos.le
  constructor
  · omega
  · have h3 : ((row : Int) + y + 1) * columns = ((row : Int) + y) * columns + columns := by
      ring
    omega

end SamplerLemmas

/-! ## Lemmas about rounding to a double -/

section RoundingLemmas

variable {K : Type} [LinearOrderedField K] [FloorRing K]

theorem roundHalfEven_of_floor (t : K) (f : Int) (h1 : (f : K) ≤ t) (h2 : t < f + 1) :
    roundHalfEven t
      = if t - f < 1 / 2 then f else if 1 / 2 < t - f then f + 1
        else if f % 2 = 0 then f else f + 1 := by
  have hf : ⌊t⌋ = f := by
    rw [Int.floor_eq_iff]
    exact ⟨h1, h2⟩
  simp only [roundHalfEven, hf]

theorem roundHalfEven_intCast (n : Int) : roundHalfEven (n : K) = n := by
  rw [roundHalfEven_of_floor (n : K) n le_rfl (by linarith)]
  simp

theorem floor_le_roundHalfEven (t : K) : ⌊t⌋ ≤ roundHalfEven t := by
  unfold roundHalfEven
  split_ifs <;> omega

theorem roundHalfEven_le_floor_add_one (t : K) : roundHalfEven t ≤ ⌊t⌋ + 1 := by
  unfold roundHalfEven
  split_ifs <;> omega

theorem roundHalfEven_mono {a b : K} (h : a ≤ b) : roundHalfEven a ≤ roundHalfEven b := by
  rcases lt_or_eq_of_le (Int.floor_mono h) with hlt | heq
  · have h1 := roundHalfEven_le_floor_add_one a
    have h2 := floor_le_roundHalfEven b
    omega
  · unfold roundHalfEven
    rw [heq]
    have hfrac : a - (⌊b⌋ : K) ≤ b - (⌊b⌋ : K) := by linarith
    split_ifs <;> first | omega | (exfalso; linarith)

theorem roundHalfEven_neg (t : K) : roundHalfEven (-t) = -roundHalfEven t := by
  by_cases hint : ((⌊t⌋ : Int) : K) = t
  · rw [← hint, ← Int.cast_neg, roundHalfEven_intCast, roundHalfEven_intCast]
  · have hlt : ((⌊t⌋ : Int) : K) < t := lt_of_le_of_ne (Int.floor_le t) hint
    have hlt2 := Int.lt_floor_add_one t
    have h1 : (((-⌊t⌋ - 1 : Int)) : K) ≤ -t := by push_cast; linarith
    have h2 : -t < (((-⌊t⌋ - 1 : Int)) : K) + 1 := by push_cast; linarith
    rw [roundHalfEven_of_floor (-t) (-⌊t⌋ - 1) h1 h2, roundHalfEven]
    push_cast
    split_ifs <;> first | omega | (exfalso; linarith)

theorem two_zpow_log_le {r : K} (hr : 0 < r) : (2 : K) ^ Int.log 2 r ≤ r := by
  have h := Int.zpow_log_le_self (R := K) (b := 2) (by norm_num) hr
  simpa using h

theorem lt_two_zpow_log (r : K) : r < (2 : K) ^ (Int.log 2 r + 1) := by
  have h := Int.lt_zpow_succ_log_self (R := K) (b := 2) (by norm_num) r
  simpa using h

theorem two_zpow_pos (e : Int) : (0 : K) < 2 ^ e := zpow_pos (by norm_num) e

theorem two_zpow_mono {m n : Int} (h : m ≤ n) : (2 : K) ^ m ≤ 2 ^ n :=
  zpow_le_zpow_right₀ (by norm_num) h

theorem two_zpow_succ (e : Int) : (2 : K) ^ (e + 1) = 2 * 2 ^ e := by
  rw [zpow_add₀ (by norm_num : (2 : K) ≠ 0), zpow_one, mul_comm]

theorem abs_mul_two_zpow (a : K) (e : Int) : |a * 2 ^ e| = |a| * 2 ^ e := by
  rw [abs_mul]
  congr 1
  exact abs_of_pos (two_zpow_pos e)

theorem ulp_pos (q : K) : 0 < ulp q := two_zpow_pos _

theorem binade_neg (q : K) : binade (-q) = binade q := by
  simp [binade]

theorem ulp_neg (q : K) : ulp (-q) = ulp q := by
  simp [ulp, binade_neg]

theorem roundDouble_neg (q : K) : roundDouble (-q) = -roundDouble q := by
  simp only [roundDouble, ulp_neg, neg_div, roundHalfEven_neg, Int.cast_neg, neg_mul]

theorem roundDouble_zero : roundDouble (0 : K) = 0 := by
  have h : roundHalfEven (0 : K) = 0 := by
    have := roundHalfEven_intCast (K := K) 0
    simpa using this
  simp [roundDouble, h]

theorem binade_ge (q : K) : -1022 ≤ binade q := le_max_right _ _

theorem abs_lt_two_zpow_binade (q : K) : |q| < 2 ^ (binade q + 1) :=
  lt_of_lt_of_le (lt_two_zpow_log |q|)
    (two_zpow_mono (by unfold binade; omega))

theorem binade_mono {a b : K} (ha : 0 < a) (h : a ≤ b) : binade a ≤ binade b := by
  unfold binade
  rw [abs_of_pos ha, abs_of_pos (lt_of_lt_of_le ha h)]
  exact max_le_max (Int.log_mono_right ha h) le_rfl

/-- ulp times `2 ^ 52` is the lower end of the binade. -/
theorem ulp_mul (q : K) : (2 : K) ^ (52 : Int) * ulp q = 2 ^ binade q := by
  rw [ulp, ← zpow_add₀ (by norm_num : (2 : K) ≠ 0)]
  congr 1
  ring

theorem ulp_mul_succ (q : K) : (2 : K) ^ (53 : Int) * ulp q = 2 ^ (binade q + 1) := by
  rw [ulp, ← zpow_add₀ (by norm_num : (2 : K) ≠ 0)]
  congr 1
  ring

theorem intCast_two_pow (n : Nat) : (((2 : Int) ^ n : Int) : K) = (2 : K) ^ (n : Int) := by
  push_cast
  rw [zpow_natCast]

/-- A positive value rounds to at most the upper end of its binade. -/
theorem roundDouble_le_top {q : K} (hq : 0 < q) : roundDouble q ≤ 2 ^ (binade q + 1) := by
  have hlt : q / ulp q ≤ (((2 : Int) ^ 53 : Int) : K) := by
    rw [intCast_two_pow, div_le_iff₀ (ulp_pos q)]
    have h := abs_lt_two_zpow_binade q
    rw [abs_of_pos hq] at h
    have h53 : ((53 : Nat) : Int) = 53 := rfl
    rw [h53, ulp_mul_succ]
    exact h.le
  have hr := roundHalfEven_mono hlt
  rw [roundHalfEven_intCast] at hr
  have hcast : ((roundHalfEven (q / ulp q) : Int) : K) ≤ (((2 : Int) ^ 53 : Int) : K) :=
    Int.cast_le.mpr hr
  calc roundDouble q = (roundHalfEven (q / ulp q) : K) * ulp q := rfl
    _ ≤ (((2 : Int) ^ 53 : Int) : K) * ulp q := mul_le_mul_of_nonneg_right hcast (ulp_pos q).le
    _ = 2 ^ (binade q + 1) := by
      rw [intCast_two_pow]
      exact ulp_mul_succ q

/-- A positive normal value rounds to at least the lower end of its binade. -/
theorem bot_le_roundDouble {q : K} (hq : 2 ^ binade q ≤ q) : 2 ^ binade q ≤ roundDouble q := by
  have hge : (((2 : Int) ^ 52 : Int) : K) ≤ q / ulp q := by
    rw [intCast_two_pow, le_div_iff₀ (ulp_pos q)]
    have h52 : ((52 : Nat) : Int) = 52 := rfl
    rw [h52, ulp_mul]
    exact hq
  have hr := roundHalfEven_mono hge
  rw [roundHalfEven_intCast] at hr
  have hcast : (((2 : Int) ^ 52 : Int) : K) ≤ ((roundHalfEven (q / ulp q) : Int) : K) :=
    Int.cast_le.mpr hr
  calc (2 : K) ^ binade q = (((2 : Int) ^ 52 : Int) : K) * ulp q := by
        rw [intCast_two_pow]
        exact (ulp_mul q).symm
    _ ≤ (roundHalfEven (q / ulp q) : K) * ulp q :=
        mul_le_mul_of_nonneg_right hcast (ulp_pos q).le
    _ = roundDouble q := rfl

theorem roundDouble_nonneg {q : K} (hq : 0 ≤ q) : 0 ≤ roundDouble q := by
  have h0 : (((0 : Int)) : K) ≤ q / ulp q := by
    simpa using div_nonneg hq (ulp_pos q).le
  have hr := roundHalfEven_mono h0
  rw [roundHalfEven_intCast] at hr
  exact mul_nonneg (by exact_mod_cast hr) (ulp_pos q).le

theorem roundDouble_nonpos {q : K} (hq : q ≤ 0) : roundDouble q ≤ 0 := by
  have h := roundDouble_nonneg (neg_nonneg.mpr hq)
  rw [roundDouble_neg] at h
  linarith

theorem roundDouble_mono_pos {a b : K} (ha : 0 < a) (h : a ≤ b) :
    roundDouble a ≤ roundDouble b := by
  have hb : 0 < b := lt_of_lt_of_le ha h
  rcases lt_or_eq_of_le (binade_mono ha h) with hlt | heq
  · have hlog : binade b = Int.log 2 |b| := by
      have hge := binade_ge a
      unfold binade at hlt ⊢
      omega
    have hbot : (2 : K) ^ binade b ≤ b := by
      rw [hlog, abs_of_pos hb]
      exact two_zpow_log_le hb
    calc roundDouble a ≤ 2 ^ (binade a + 1) := roundDouble_le_top ha
      _ ≤ 2 ^ binade b := two_zpow_mono (by omega)
      _ ≤ roundDouble b := bot_le_roundDouble hbot
  · have hu : ulp a = ulp b := by rw [ulp, ulp, heq]
    unfold roundDouble
    rw [hu]
    have hdiv : a / ulp b ≤ b / ulp b := div_le_div_of_nonneg_right h (ulp_pos b).le
    exact mul_le_mul_of_nonneg_right (Int.cast_le.mpr (roundHalfEven_mono hdiv)) (ulp_pos b).le

/-- Rounding to binary64 keeps the order. -/
theorem roundDouble_mono {a b : K} (h : a ≤ b) : roundDouble a ≤ roundDouble b := by
  rcases lt_trichotomy 0 a with ha | ha | ha
  · exact roundDouble_mono_pos ha h
  · rw [← ha, roundDouble_zero]
    exact roundDouble_nonneg (ha ▸ h)
  · rcases le_or_lt 0 b with hb | hb
    · exact le_trans (roundDouble_nonpos ha.le) (roundDouble_nonneg hb)
    · have h1 := roundDouble_mono_pos (neg_pos.mpr hb) (neg_le_neg h)
      rw [roundDouble_neg, roundDouble_neg] at h1
      linarith

theorem log_two_lt {r : K} (hr : 0 < r) {x : Int} (h : r < 2 ^ x) : Int.log 2 r < x := by
  have h2 : r < ((2 : Nat) : K) ^ x := by simpa using h
  exact (Int.lt_zpow_iff_log_lt (R := K) (b := 2) (by norm_num) hr).mp h2

theorem le_log_two {r : K} (hr : 0 < r) {x : Int} (h : 2 ^ x ≤ r) : x ≤ Int.log 2 r := by
  have h2 : ((2 : Nat) : K) ^ x ≤ r := by simpa using h
  exact (Int.zpow_le_iff_le_log (R := K) (b := 2) (by norm_num) hr).mp h2

/-- The binade of a value whose magnitude lies in `[2 ^ e, 2 ^ (e + 1))`. -/
theorem binade_eq {q : K} {e : Int} (he : -1022 ≤ e) (h1 : 2 ^ e ≤ |q|)
    (h2 : |q| < 2 ^ (e + 1)) : binade q = e := by
  have hpos : 0 < |q| := lt_of_lt_of_le (two_zpow_pos e) h1
  have ha := le_log_two hpos h1
  have hb := log_two_lt hpos h2
  unfold binade
  omega

/-- Evaluation of the rounding in the binade `[2 ^ e, 2 ^ (e + 1))`. -/
theorem roundDouble_eval {q : K} {e : Int} (he : -1022 ≤ e) (h1 : 2 ^ e ≤ |q|)
    (h2 : |q| < 2 ^ (e + 1)) :
    roundDouble q = (roundHalfEven (q / 2 ^ (e - 52)) : K) * 2 ^ (e - 52) := by
  simp only [roundDouble, ulp, binade_eq he h1 h2]

/-- A multiple `m * 2 ^ e` of a power of two with fewer than 54 bits in `m`
and `e` at least -1074 is a double: rounding leaves it unchanged. -/
theorem roundDouble_dyadic_lt (m e : Int) (hm : |m| < 2 ^ 53) (he : -1074 ≤ e) :
    roundDouble ((m : K) * 2 ^ e) = (m : K) * 2 ^ e := by
  by_cases hm0 : m = 0
  · simp [hm0, roundDouble_zero]
  have hmK : (0 : K) < |(m : K)| := abs_pos.mpr (by exact_mod_cast hm0)
  have habs : |(m : K) * 2 ^ e| = |(m : K)| * 2 ^ e := by
    rw [abs_mul]
    congr 1
    exact abs_of_pos (two_zpow_pos e)
  have hqpos : 0 < |(m : K) * 2 ^ e| := by
    rw [habs]
    exact mul_pos hmK (two_zpow_pos e)
  have hmlt : |(m : K)| < 2 ^ (53 : Int) := by
    have h : ((|m| : Int) : K) < (((2 : Int) ^ 53 : Int) : K) := Int.cast_lt.mpr hm
    rw [intCast_two_pow] at h
    simpa using h
  have hlt : |(m : K) * 2 ^ e| < 2 ^ (e + 53) := by
    rw [habs, zpow_add₀ (by norm_num : (2 : K) ≠ 0), mul_comm ((2 : K) ^ e)]
    exact mul_lt_mul_of_pos_right hmlt (two_zpow_pos e)
  have hlog := log_two_lt hqpos hlt
  have hbin : binade ((m : K) * 2 ^ e) ≤ e + 52 := by
    unfold binade
    omega
  obtain ⟨k, hk⟩ : ∃ k : Nat, (k : Int) = e + 52 - binade ((m : K) * 2 ^ e) :=
    ⟨(e + 52 - binade ((m : K) * 2 ^ e)).toNat, by omega⟩
  have hpow : (2 : K) ^ e / 2 ^ (binade ((m : K) * 2 ^ e) - 52) = 2 ^ (k : Int) := by
    rw [← zpow_sub₀ (by norm_num : (2 : K) ≠ 0), hk]
    congr 1
    ring
  have hdiv : (m : K) * 2 ^ e / ulp ((m : K) * 2 ^ e) = ((m * 2 ^ k : Int) : K) := by
    rw [ulp, mul_div_assoc, hpow, zpow_natCast]
    push_cast
    rfl
  have hround : roundHalfEven ((m : K) * 2 ^ e / ulp ((m : K) * 2 ^ e)) = m * 2 ^ k := by
    rw [hdiv, roundHalfEven_intCast]
  unfold roundDouble
  rw [hround, ← hdiv]
  exact div_mul_cancel₀ _ (ne_of_gt (ulp_pos _))

/-- The magnitude of the rounded significand is at most `2 ^ 53`. -/
theorem abs_roundHalfEven_le (q : K) : |roundHalfEven (q / ulp q)| ≤ 2 ^ 53 := by
  have habs := abs_lt_two_zpow_binade q
  rw [← ulp_mul_succ, ← div_lt_iff₀ (ulp_pos q)] at habs
  have hdiv : |q / ulp q| < 2 ^ (53 : Int) := by
    rw [abs_div, abs_of_pos (ulp_pos q)]
    exact habs
  have h53 : (2 : K) ^ (53 : Int) = (((2 : Int) ^ 53 : Int) : K) := by
    rw [intCast_two_pow]
    rfl
  rw [h53, abs_lt] at hdiv
  have h1 := roundHalfEven_mono hdiv.2.le
  have h2 := roundHalfEven_mono hdiv.1.le
  rw [roundHalfEven_intCast] at h1
  rw [← Int.cast_neg, roundHalfEven_intCast] at h2
  rw [abs_le]
  exact ⟨h2, h1⟩

/-- A multiple `m * 2 ^ e` with `|m| ≤ 2 ^ 53` and `e` at least -1074 is a
double. -/
theorem roundDouble_dyadic (m e : Int) (hm : |m| ≤ 2 ^ 53) (he : -1074 ≤ e) :
    roundDouble ((m : K) * 2 ^ e) = (m : K) * 2 ^ e := by
  rcases lt_or_eq_of_le hm with hlt | heq
  · exact roundDouble_dyadic_lt m e hlt he
  · have hcases : m = 2 ^ 53 ∨ m = -2 ^ 53 := by
      rcases abs_cases m with ⟨h, -⟩ | ⟨h, -⟩ <;> omega
    have hre : (m : K) * 2 ^ e = ((m / 2 : Int) : K) * 2 ^ (e + 1) := by
      have hm2 : m = m / 2 * 2 := by rcases hcases with h | h <;> omega
      rw [two_zpow_succ]
      conv_lhs => rw [hm2]
      push_cast
      ring
    rw [hre]
    apply roundDouble_dyadic_lt
    · rcases hcases with h | h <;> rw [h] <;> norm_num
    · omega

/-- Rounding a rounded value changes nothing. -/
theorem roundDouble_idem (q : K) : roundDouble (roundDouble q) = roundDouble q := by
  have h := roundDouble_dyadic (K := K) (roundHalfEven (q / ulp q)) (binade q - 52)
    (abs_roundHalfEven_le q) (by have := binade_ge q; omega)
  exact h

end RoundingLemmas

/-! ## Lemmas about the operators on JavaScript numbers -/

namespace JSNumber

variable {K : Type} [LinearOrderedField K] [FloorRing K]

theorem maxDouble_pos : (0 : K) < maxDouble := by
  unfold maxDouble
  apply mul_pos _ (two_zpow_pos _)
  have h : (1 : K) < 2 ^ (53 : Int) := by
    have := two_zpow_mono (K := K) (show (1 : Int) ≤ 53 by norm_num)
    rw [zpow_one] at this
    linarith
  linarith

@[simp]
theorem finite_add_finite (a b : K) : finite a + finite b = toDouble (a + b) := rfl

@[simp]
theorem finite_sub_finite (a b : K) : finite a - finite b = toDouble (a - b) := by
  show add (finite a) (neg (finite b)) = _
  simp only [neg, add, sub_eq_add_neg]

@[simp]
theorem finite_mul_finite (a b : K) : finite a * finite b = toDouble (a * b) := rfl

theorem finite_div_finite (a b : K) (hb : b ≠ 0) : finite a / finite b = toDouble (a / b) := by
  show div (finite a) (finite b) = _
  simp only [div, if_neg hb]

@[simp]
theorem finite_le_finite (a b : K) : (finite a ≤ finite b) ↔ a ≤ b := Iff.rfl

@[simp]
theorem finite_lt_finite (a b : K) : (finite a < finite b) ↔ a < b := Iff.rfl

theorem toDouble_ne_nan (q : K) : toDouble q ≠ nan := by
  unfold toDouble
  split_ifs <;> simp

/-- The conversion to a double keeps the order. -/
theorem toDouble_mono {a b : K} (h : a ≤ b) : toDouble a ≤ toDouble b := by
  have hr := roundDouble_mono h
  have hm := maxDouble_pos (K := K)
  unfold toDouble
  split_ifs <;> simp only [LE.le, le] <;> first | trivial | linarith

/-- A value that rounding leaves unchanged and that is within the finite range
is its own double. -/
theorem toDouble_of_fixed {q : K} (h1 : roundDouble q = q) (h2 : |q| ≤ maxDouble) :
    toDouble q = finite q := by
  rw [abs_le] at h2
  unfold toDouble
  rw [h1, if_neg (not_lt.mpr h2.2), if_neg (not_lt.mpr h2.1)]

theorem toDouble_dyadic (m e : Int) (hm : |m| < 2 ^ 53) (he1 : -1074 ≤ e) (he2 : e ≤ 971) :
    toDouble ((m : K) * 2 ^ e) = finite ((m : K) * 2 ^ e) := by
  apply toDouble_of_fixed (roundDouble_dyadic m e hm.le he1)
  rw [abs_mul_two_zpow]
  unfold maxDouble
  apply mul_le_mul _ (two_zpow_mono he2) (two_zpow_pos e).le
  · have h : (1 : K) ≤ 2 ^ (53 : Int) := by
      have := two_zpow_mono (K := K) (show (0 : Int) ≤ 53 by norm_num)
      rw [zpow_zero] at this
      exact this
    linarith
  · have h : ((|m| : Int) : K) ≤ (((2 : Int) ^ 53 - 1 : Int) : K) :=
      Int.cast_le.mpr (by omega)
    have h53 : (((2 : Int) ^ 53 - 1 : Int) : K) = 2 ^ (53 : Int) - 1 := by
      norm_num
    rw [h53] at h
    simpa using h

theorem toDouble_zero : toDouble (0 : K) = finite 0 := by
  have h := toDouble_dyadic (K := K) 0 0 (by norm_num) (by norm_num) (by norm_num)
  simpa using h

theorem jsLe_refl {a : JSNumber K} (h : a ≠ nan) : a ≤ a := by
  cases a <;> simp_all [LE.le, le]

theorem jsLe_trans {a b c : JSNumber K} (h1 : a ≤ b) (h2 : b ≤ c) : a ≤ c := by
  cases a <;> cases b <;> cases c <;> simp_all [LE.le, le]
  exact le_trans h1 h2

theorem ne_nan_of_le_left {a b : JSNumber K} (h : a ≤ b) : a ≠ nan := by
  cases a <;> cases b <;> simp_all [LE.le, le]

theorem ne_nan_of_le_right {a b : JSNumber K} (h : a ≤ b) : b ≠ nan := by
  cases a <;> cases b <;> simp_all [LE.le, le]

theorem jsNot_lt_of_le {a b : JSNumber K} (h : a ≤ b) : ¬ b < a := by
  cases a <;> cases b <;> simp_all [LE.le, le, LT.lt, lt]

theorem negInf_le {a : JSNumber K} (h : a ≠ nan) : negInf ≤ a := by
  cases a <;> simp_all [LE.le, le]

theorem le_posInf {a : JSNumber K} (h : a ≠ nan) : a ≤ posInf := by
  cases a <;> simp_all [LE.le, le]

theorem negInf_le_toDouble (q : K) : negInf ≤ toDouble q := negInf_le (toDouble_ne_nan q)

theorem toDouble_le_posInf (q : K) : toDouble q ≤ posInf := le_posInf (toDouble_ne_nan q)

theorem posInf_div_finite {w : K} (hw : 0 ≤ w) : (posInf : JSNumber K) / finite w = posInf := by
  show div posInf (finite w) = posInf
  simp only [div, if_pos hw]

theorem negInf_div_finite {w : K} (hw : 0 ≤ w) : (negInf : JSNumber K) / finite w = negInf := by
  show div negInf (finite w) = negInf
  simp only [div, if_pos hw]

theorem posInf_add_finite (k : K) : (posInf : JSNumber K) + finite k = posInf := rfl

theorem negInf_add_finite (k : K) : (negInf : JSNumber K) + finite k = negInf := rfl

theorem finite_add_posInf (k : K) : finite k + (posInf : JSNumber K) = posInf := rfl

theorem posInf_mul_finite {k : K} (hk : 0 < k) : (posInf : JSNumber K) * finite k = posInf := by
  show mul posInf (finite k) = posInf
  simp only [mul, signedInf, if_neg (ne_of_gt hk), if_pos hk]

theorem negInf_mul_finite {k : K} (hk : 0 < k) : (negInf : JSNumber K) * finite k = negInf := by
  show mul negInf (finite k) = negInf
  have h1 : ¬ (-k = 0) := by
    intro h
    linarith
  have h2 : ¬ (0 < -k) := by
    intro h
    linarith
  simp only [mul, signedInf, if_neg h1, if_neg h2]

theorem finite_mul_posInf_neg {k : K} (hk : k < 0) :
    finite k * (posInf : JSNumber K) = negInf := by
  show mul (finite k) posInf = negInf
  simp only [mul, signedInf, if_neg hk.ne, if_neg (not_lt.mpr hk.le)]

theorem finite_mul_negInf_neg {k : K} (hk : k < 0) :
    finite k * (negInf : JSNumber K) = posInf := by
  show mul (finite k) negInf = posInf
  have h1 : ¬ (-k = 0) := by
    intro h
    linarith
  simp only [mul, signedInf, if_neg h1, if_pos (neg_pos.mpr hk)]

theorem finite_div_posInf (k : K) : finite k / (posInf : JSNumber K) = finite 0 := rfl

/-- Subtracting a fixed finite number keeps the order. -/
theorem sub_finite_mono {x1 x2 : K} (c : K) (h : x1 ≤ x2) :
    (finite x1 - finite c : JSNumber K) ≤ finite x2 - finite c := by
  rw [finite_sub_finite, finite_sub_finite]
  exact toDouble_mono (by linarith)

/-- Dividing by a fixed positive finite number keeps the order. -/
theorem div_finite_mono {a b : JSNumber K} {w : K} (hw : 0 < w) (h : a ≤ b) :
    a / finite w ≤ b / finite w := by
  cases a <;> cases b <;> simp only [LE.le, le] at h <;>
    simp only [posInf_div_finite hw.le, negInf_div_finite hw.le, finite_div_finite _ _ (ne_of_gt hw)]
  · trivial
  · trivial
  · exact negInf_le_toDouble _
  · trivial
  · exact toDouble_le_posInf _
  · exact toDouble_mono (div_le_div_of_nonneg_right h hw.le)

/-- Adding a fixed finite number keeps the order. -/
theorem add_finite_mono {a b : JSNumber K} (k : K) (h : a ≤ b) :
    a + finite k ≤ b + finite k := by
  cases a <;> cases b <;> simp only [LE.le, le] at h <;>
    simp only [posInf_add_finite, negInf_add_finite, finite_add_finite]
  · trivial
  · trivial
  · exact negInf_le_toDouble _
  · trivial
  · exact toDouble_le_posInf _
  · exact toDouble_mono (by linarith)

/-- Multiplying by a fixed positive finite number keeps the order. -/
theorem mul_finite_mono {a b : JSNumber K} {k : K} (hk : 0 < k) (h : a ≤ b) :
    a * finite k ≤ b * finite k := by
  cases a <;> cases b <;> simp only [LE.le, le] at h <;>
    simp only [posInf_mul_finite hk, negInf_mul_finite hk, finite_mul_finite]
  · trivial
  · trivial
  · exact negInf_le_toDouble _
  · trivial
  · exact toDouble_le_posInf _
  · exact toDouble_mono (mul_le_mul_of_nonneg_right h hk.le)

theorem abs_roundDouble_le (q : K) : |roundDouble q| ≤ 2 ^ (binade q + 1) := by
  unfold roundDouble
  rw [abs_mul, abs_of_pos (ulp_pos q), ← ulp_mul_succ]
  apply mul_le_mul_of_nonneg_right _ (ulp_pos q).le
  have h := abs_roundHalfEven_le (K := K) q
  have hc : ((|roundHalfEven (q / ulp q)| : Int) : K) ≤ (((2 : Int) ^ 53 : Int) : K) :=
    Int.cast_le.mpr h
  rw [intCast_two_pow] at hc
  simpa using hc

theorem two_zpow_1023_le_maxDouble : (2 : K) ^ (1023 : Int) ≤ maxDouble := by
  unfold maxDouble
  have h : (2 : K) ^ (1023 : Int) = 2 ^ (52 : Int) * 2 ^ (971 : Int) := by
    rw [← zpow_add₀ (by norm_num : (2 : K) ≠ 0)]
    norm_num
  rw [h]
  apply mul_le_mul_of_nonneg_right _ (two_zpow_pos _).le
  have h53 : (2 : K) ^ (53 : Int) = 2 * 2 ^ (52 : Int) := by
    rw [← two_zpow_succ]
    norm_num
  have h1 : (1 : K) ≤ 2 ^ (52 : Int) := by
    have := two_zpow_mono (K := K) (show (0 : Int) ≤ 52 by norm_num)
    rw [zpow_zero] at this
    exact this
  linarith

/-- Evaluation of the conversion to a double in the binade `[2 ^ e, 2 ^ (e + 1))`:
`f` is the floor of the scaled value and `n` the rounded significand. -/
theorem toDouble_eval {q r : K} (e f n : Int) (he : -1022 ≤ e) (he2 : e ≤ 1022)
    (h1 : 2 ^ e ≤ |q|) (h2 : |q| < 2 ^ (e + 1))
    (hf1 : (f : K) ≤ q / 2 ^ (e - 52)) (hf2 : q / 2 ^ (e - 52) < f + 1)
    (hn : (if q / 2 ^ (e - 52) - f < 1 / 2 then f
      else if 1 / 2 < q / 2 ^ (e - 52) - f then f + 1
      else if f % 2 = 0 then f else f + 1) = n)
    (hr : (n : K) * 2 ^ (e - 52) = r) : toDouble q = finite r := by
  have hb := binade_eq he h1 h2
  have hround : roundDouble q = r := by
    rw [roundDouble_eval he h1 h2, roundHalfEven_of_floor _ f hf1 hf2, hn, hr]
  have hfix : roundDouble r = r := by
    rw [← hround]
    exact roundDouble_idem q
  apply (show toDouble q = toDouble r from ?_).trans
  · apply toDouble_of_fixed hfix
    have h := abs_roundDouble_le q
    rw [hround, hb] at h
    exact le_trans h (le_trans (two_zpow_mono (by omega)) two_zpow_1023_le_maxDouble)
  · unfold toDouble
    rw [hround, hfix]

theorem toDouble_half : toDouble (1 / 2 : K) = finite (1 / 2) := by
  have h := toDouble_dyadic (K := K) 1 (-1) (by norm_num) (by norm_num) (by norm_num)
  have he : ((1 : Int) : K) * 2 ^ (-1 : Int) = 1 / 2 := by norm_num
  rwa [he] at h

theorem toDouble_intCast (m : Int) (hm : |m| < 2 ^ 53) : toDouble (m : K) = finite (m : K) := by
  have h := toDouble_dyadic (K := K) m 0 hm (by norm_num) (by norm_num)
  simpa using h

theorem toDouble_one : toDouble (1 : K) = finite 1 := by
  have h := toDouble_intCast (K := K) 1 (by norm_num)
  simpa using h

theorem toDouble_255 : toDouble (255 : K) = finite 255 := by
  have h := toDouble_intCast (K := K) 255 (by norm_num)
  simpa using h

theorem toDouble_127_5 : toDouble (255 / 2 : K) = finite (255 / 2) := by
  have h := toDouble_dyadic (K := K) 255 (-1) (by norm_num) (by norm_num) (by norm_num)
  have he : ((255 : Int) : K) * 2 ^ (-1 : Int) = 255 / 2 := by norm_num
  rwa [he] at h

theorem toDouble_neg (q : K) : toDouble (-q) = -toDouble q := by
  show toDouble (-q) = neg (toDouble q)
  have hm := maxDouble_pos (K := K)
  unfold toDouble
  rw [roundDouble_neg]
  split_ifs <;> simp only [neg] <;> first | rfl | (exfalso; linarith)

theorem isDouble_neg {q : K} (h : IsDouble q) : IsDouble (-q) := by
  unfold IsDouble at h ⊢
  rw [toDouble_neg, h]
  rfl

/-- Adding `0` to a computed result changes nothing. -/
theorem toDouble_add_zero (q : K) : toDouble q + finite 0 = toDouble q := by
  unfold toDouble
  split_ifs with h1 h2
  · rfl
  · rfl
  · rw [finite_add_finite, add_zero]
    unfold toDouble
    rw [roundDouble_idem, if_neg h1, if_neg h2]

theorem signedInf_add_zero (a : K) : signedInf a + finite 0 = signedInf a := by
  unfold signedInf
  split_ifs <;> rfl

theorem mul_finite_add_zero (a : JSNumber K) (k : K) :
    a * finite k + finite 0 = a * finite k := by
  cases a
  · rfl
  · exact signedInf_add_zero _
  · exact signedInf_add_zero _
  · exact toDouble_add_zero _

/-- Multiplying by a fixed negative finite number reverses the order. -/
theorem finite_mul_anti {a b : JSNumber K} {k : K} (hk : k < 0) (h : a ≤ b) :
    finite k * b ≤ finite k * a := by
  cases a <;> cases b <;> simp only [LE.le, le] at h <;>
    simp only [finite_mul_posInf_neg hk, finite_mul_negInf_neg hk, finite_mul_finite]
  · trivial
  · trivial
  · exact toDouble_le_posInf _
  · trivial
  · exact negInf_le_toDouble _
  · exact toDouble_mono (mul_le_mul_of_nonpos_left h hk.le)

theorem finite_add_negInf (k : K) : finite k + (negInf : JSNumber K) = negInf := rfl

/-- Adding to a fixed finite number keeps the order. -/
theorem finite_add_mono {a b : JSNumber K} (k : K) (h : a ≤ b) :
    finite k + a ≤ finite k + b := by
  cases a <;> cases b <;> simp only [LE.le, le] at h <;>
    simp only [finite_add_posInf, finite_add_negInf, finite_add_finite]
  · trivial
  · trivial
  · exact negInf_le_toDouble _
  · trivial
  · exact toDouble_le_posInf _
  · exact toDouble_mono (by linarith)

/-- The denominator `1 + e` of the sigmoid is at least 1 when `e` is not
negative. -/
theorem one_le_one_add {e : JSNumber K} (he : finite 0 ≤ e) : finite 1 ≤ finite 1 + e := by
  have h := finite_add_mono (K := K) 1 he
  rw [finite_add_finite, add_zero, toDouble_one] at h
  exact h

/-- Dividing a fixed non-negative finite number by a larger denominator, both
at least 1, gives a smaller result. -/
theorem finite_div_anti {a b : JSNumber K} {k : K} (hk : 0 ≤ k) (ha : finite 1 ≤ a)
    (h : a ≤ b) : finite k / b ≤ finite k / a := by
  cases a <;> cases b <;> simp only [LE.le, le] at h ha
  · exact jsLe_refl (by simp [finite_div_posInf])
  · rename_i a
    have ha0 : a ≠ 0 := by
      intro h0
      rw [h0] at ha
      linarith
    rw [finite_div_posInf, finite_div_finite _ _ ha0, ← toDouble_zero]
    exact toDouble_mono (div_nonneg hk (by linarith))
  · rename_i a b
    have ha0 : a ≠ 0 := by
      intro h0
      rw [h0] at ha
      linarith
    have hb0 : b ≠ 0 := by
      intro h0
      rw [h0] at h
      linarith
    rw [finite_div_finite _ _ ha0, finite_div_finite _ _ hb0]
    exact toDouble_mono (div_le_div_of_nonneg_left hk (by linarith) h)

/-- A fixed non-negative finite number divided by a denominator that is at
least 1 lies between 0 and that number. -/
theorem finite_div_bounds {a : JSNumber K} {k : K} (hk : 0 ≤ k) (hkd : IsDouble k)
    (ha : finite 1 ≤ a) : finite 0 ≤ finite k / a ∧ finite k / a ≤ finite k := by
  cases a <;> simp only [LE.le, le] at ha
  · rw [finite_div_posInf]
    exact ⟨le_refl _, hk⟩
  · rename_i a
    have ha0 : a ≠ 0 := by
      intro h0
      rw [h0] at ha
      linarith
    rw [finite_div_finite _ _ ha0]
    constructor
    · rw [← toDouble_zero]
      exact toDouble_mono (div_nonneg hk (by linarith))
    · have h := toDouble_mono (K := K) (show k / a ≤ k from div_le_self hk ha)
      rwa [hkd] at h

end JSNumber

/-! ## Lemmas about the window mappings -/

section WindowLemmas

variable {K : Type} [LinearOrderedField K] [FloorRing K]

open JSNumber

/-- The linear mapping is non-decreasing in its input. -/
theorem linear_mono (windowWidth windowCenter : K) (hw : 0 < windowWidth)
    {x1 x2 : K} (hx : x1 ≤ x2) :
    generateLinearVOILUT windowWidth windowCenter x1
      ≤ generateLinearVOILUT windowWidth windowCenter x2 := by
  unfold generateLinearVOILUT
  exact mul_finite_mono (by norm_num)
    (add_finite_mono _ (div_finite_mono hw (sub_finite_mono windowCenter hx)))

theorem linear_at_center (windowWidth windowCenter : K) (hw : 0 < windowWidth) :
    generateLinearVOILUT windowWidth windowCenter windowCenter = finite 127.5 := by
  unfold generateLinearVOILUT
  rw [finite_sub_finite, sub_self, toDouble_zero, finite_div_finite _ _ (ne_of_gt hw), zero_div,
    toDouble_zero, finite_add_finite]
  norm_num
  rw [toDouble_half, finite_mul_finite]
  norm_num
  rw [toDouble_127_5]

/-- The exponent that the sigmoid passes to `Math.exp` does not increase with
the input. -/
theorem sigmoid_exponent_anti (windowWidth windowCenter : K) (hw : 0 < windowWidth)
    {x1 x2 : K} (hx : x1 ≤ x2) :
    (finite (-4) * (finite x2 - finite windowCenter)) / finite windowWidth
      ≤ (finite (-4) * (finite x1 - finite windowCenter)) / finite windowWidth :=
  div_finite_mono hw (finite_mul_anti (by norm_num) (sub_finite_mono windowCenter hx))

theorem sigmoid_span : (finite 255 - finite 0 : JSNumber K) = finite 255 := by
  rw [finite_sub_finite, sub_zero, toDouble_255]

theorem sigmoid_mono (exp : JSNumber K → JSNumber K)
    (hnonneg : ∀ a, a ≠ nan → finite 0 ≤ exp a)
    (hmono : ∀ a b, a ≤ b → exp a ≤ exp b)
    (windowWidth windowCenter : K) (hw : 0 < windowWidth) {x1 x2 : K} (hx : x1 ≤ x2) :
    generateSigmoidVOILUT exp windowWidth windowCenter x1
      ≤ generateSigmoidVOILUT exp windowWidth windowCenter x2 := by
  have ht := sigmoid_exponent_anti windowWidth windowCenter hw hx
  have he := hmono _ _ ht
  have h0 := hnonneg _ (ne_nan_of_le_left ht)
  unfold generateSigmoidVOILUT
  simp only [sigmoid_span]
  exact add_finite_mono _
    (finite_div_anti (by norm_num) (one_le_one_add h0) (finite_add_mono 1 he))

theorem sigmoid_bounds (exp : JSNumber K → JSNumber K)
    (hnonneg : ∀ a, a ≠ nan → finite 0 ≤ exp a)
    (windowWidth windowCenter : K) (hw : 0 < windowWidth) (x : K) :
    finite 0 ≤ generateSigmoidVOILUT exp windowWidth windowCenter x ∧
    generateSigmoidVOILUT exp windowWidth windowCenter x ≤ finite 255 := by
  have ht := sigmoid_exponent_anti windowWidth windowCenter hw (le_refl x)
  have h0 := hnonneg _ (ne_nan_of_le_left ht)
  obtain ⟨hlo, hhi⟩ := finite_div_bounds (K := K) (k := 255) (by norm_num) toDouble_255
    (one_le_one_add h0)
  unfold generateSigmoidVOILUT
  simp only [sigmoid_span]
  constructor
  · have h := add_finite_mono (K := K) 0 hlo
    rwa [finite_add_finite, add_zero, toDouble_zero] at h
  · have h := add_finite_mono (K := K) 0 hhi
    rwa [finite_add_finite, add_zero, toDouble_255] at h

theorem sigmoid_at_center (exp : JSNumber K → JSNumber K)
    (hexp : exp (finite 0) = finite 1) (windowWidth windowCenter : K)
    (hw : 0 < windowWidth) :
    generateSigmoidVOILUT exp windowWidth windowCenter windowCenter = finite 127.5 := by
  unfold generateSigmoidVOILUT
  simp only [sigmoid_span]
  rw [finite_sub_finite, sub_self, toDouble_zero, finite_mul_finite, mul_zero, toDouble_zero,
    finite_div_finite _ _ (ne_of_gt hw), zero_div, toDouble_zero, hexp, finite_add_finite]
  norm_num
  have h2 : toDouble (2 : K) = finite 2 := by
    have h := toDouble_intCast (K := K) 2 (by norm_num)
    simpa using h
  rw [h2, finite_div_finite _ _ (by norm_num), toDouble_127_5, finite_add_finite, add_zero,
    toDouble_127_5]

/-- The linear-exact mapping is the linear mapping between the two computed
bounds, 0 at or below the lower one and 255 above the upper one. -/
theorem linearExact_branches (windowWidth windowCenter x : K) :
    generateLinearExactVOILUT windowWidth windowCenter x
      = if finite x ≤ linearExactLow windowWidth windowCenter then finite 0
        else if linearExactHigh windowWidth windowCenter < finite x then finite 255
        else generateLinearVOILUT windowWidth windowCenter x := by
  unfold generateLinearExactVOILUT generateLinearVOILUT linearExactLow linearExactHigh
  simp only [sigmoid_span, mul_finite_add_zero, GT.gt]
  norm_num

/-- The steps of the linear mapping after the subtraction keep the order. -/
theorem linear_steps_mono (windowWidth : K) (hw : 0 < windowWidth) {d1 d2 : JSNumber K}
    (h : d1 ≤ d2) :
    (d1 / finite windowWidth + finite 0.5) * finite 255.0
      ≤ (d2 / finite windowWidth + finite 0.5) * finite 255.0 :=
  mul_finite_mono (by norm_num) (add_finite_mono _ (div_finite_mono hw h))

theorem linear_steps_half (windowWidth : K) (hw : 0 < windowWidth) :
    (finite (windowWidth / 2) / finite windowWidth + finite 0.5) * finite 255.0
      = (finite 255 : JSNumber K) := by
  have hq : windowWidth / 2 / windowWidth = 1 / 2 := by
    field_simp
    ring
  rw [finite_div_finite _ _ (ne_of_gt hw), hq, toDouble_half, finite_add_finite]
  norm_num
  rw [toDouble_one, finite_mul_finite, one_mul, toDouble_255]

theorem linear_steps_neg_half (windowWidth : K) (hw : 0 < windowWidth) :
    (finite (-(windowWidth / 2)) / finite windowWidth + finite 0.5) * finite 255.0
      = (finite 0 : JSNumber K) := by
  have hq : -(windowWidth / 2) / windowWidth = -(1 / 2) := by
    field_simp
    ring
  have hneg : toDouble (-(1 / 2) : K) = finite (-(1 / 2)) := isDouble_neg toDouble_half
  rw [finite_div_finite _ _ (ne_of_gt hw), hq, hneg, finite_add_finite]
  norm_num
  rw [toDouble_zero, finite_mul_finite, zero_mul, toDouble_zero]

/-- Around the exact thresholds `center ± width / 2`, when `width / 2` is a
double: at or above the upper threshold the value is at least 255, at or below
it at most 255, and likewise for 0 at the lower threshold. -/
theorem linear_thresholds (windowWidth windowCenter : K)
    (hw : 0 < windowWidth) (hhalf : IsDouble (windowWidth / 2)) (x : K) :
    (windowCenter + windowWidth / 2 ≤ x →
      finite 255 ≤ generateLinearVOILUT windowWidth windowCenter x) ∧
    (x ≤ windowCenter + windowWidth / 2 →
      generateLinearVOILUT windowWidth windowCenter x ≤ finite 255) ∧
    (windowCenter - windowWidth / 2 ≤ x →
      finite 0 ≤ generateLinearVOILUT windowWidth windowCenter x) ∧
    (x ≤ windowCenter - windowWidth / 2 →
      generateLinearVOILUT windowWidth windowCenter x ≤ finite 0) := by
  have hnhalf : IsDouble (-(windowWidth / 2)) := isDouble_neg hhalf
  unfold IsDouble at hhalf hnhalf
  refine ⟨?_, ?_, ?_, ?_⟩
  · intro hx
    have hd : finite (windowWidth / 2) ≤ (finite x - finite windowCenter : JSNumber K) := by
      rw [finite_sub_finite, ← hhalf]
      exact toDouble_mono (by linarith)
    have h := linear_steps_mono windowWidth hw hd
    rwa [linear_steps_half windowWidth hw] at h
  · intro hx
    have hd : (finite x - finite windowCenter : JSNumber K) ≤ finite (windowWidth / 2) := by
      rw [finite_sub_finite, ← hhalf]
      exact toDouble_mono (by linarith)
    have h := linear_steps_mono windowWidth hw hd
    rwa [linear_steps_half windowWidth hw] at h
  · intro hx
    have hd : finite (-(windowWidth / 2)) ≤ (finite x - finite windowCenter : JSNumber K) := by
      rw [finite_sub_finite, ← hnhalf]
      exact toDouble_mono (by linarith)
    have h := linear_steps_mono windowWidth hw hd
    rwa [linear_steps_neg_half windowWidth hw] at h
  · intro hx
    have hd : (finite x - finite windowCenter : JSNumber K) ≤ finite (-(windowWidth / 2)) := by
      rw [finite_sub_finite, ← hnhalf]
      exact toDouble_mono (by linarith)
    have h := linear_steps_mono windowWidth hw hd
    rwa [linear_steps_neg_half windowWidth hw] at h

theorem jsLe_antisymm {a b : JSNumber K} (h1 : a ≤ b) (h2 : b ≤ a) : a = b := by
  cases a <;> cases b <;> first
    | rfl
    | exact absurd h1 (by intro h; exact h)
    | exact absurd h2 (by intro h; exact h)
    | (rw [finite_le_finite] at h1 h2; rw [le_antisymm h1 h2])

theorem jsMax_finite_zero {a : JSNumber K} (h : finite 0 ≤ a) : jsMax (finite 0) a = a := by
  cases a with
  | nan => exact absurd h (by intro h; exact h)
  | negInf => exact absurd h (by intro h; exact h)
  | posInf => simp [jsMax, h]
  | finite v => simp [jsMax, h]

theorem jsMin_finite_of_le {a : JSNumber K} {k : K} (h : a ≤ finite k) (hk : finite 0 ≤ a) :
    jsMin (finite k) a = a := by
  cases a with
  | nan => exact absurd h (by intro h; exact h)
  | negInf => exact absurd hk (by intro h; exact h)
  | posInf => exact absurd h (by intro h; exact h)
  | finite v =>
    rw [finite_le_finite] at h
    by_cases hkv : k ≤ v
    · have : k = v := le_antisymm hkv h
      subst this
      simp [jsMin]
    · simp [jsMin, hkv]

theorem jsMin_finite_of_ge {a : JSNumber K} {k : K} (h : finite k ≤ a) :
    jsMin (finite k) a = finite k := by
  cases a with
  | nan => exact absurd h (by intro h; exact h)
  | negInf => exact absurd h (by intro h; exact h)
  | posInf => simp [jsMin, h]
  | finite v => simp [jsMin, h]

theorem mathExp_zero (exp : K → K) (h : exp 0 = 1) : mathExp exp (finite 0) = finite 1 := by
  show toDouble (exp 0) = finite 1
  rw [h, toDouble_one]

theorem mathExp_nonneg (exp : K → K) (h : ∀ t, 0 ≤ exp t) (a : JSNumber K) (ha : a ≠ nan) :
    finite 0 ≤ mathExp exp a := by
  cases a with
  | nan => exact absurd rfl ha
  | negInf => exact (finite_le_finite 0 0).mpr (le_refl 0)
  | posInf => exact le_posInf (by intro h; cases h)
  | finite t =>
    show finite 0 ≤ toDouble (exp t)
    rw [← toDouble_zero]
    exact toDouble_mono (h t)

theorem mathExp_mono (exp : K → K) (h : ∀ t, 0 ≤ exp t) (hm : ∀ s t, s ≤ t → exp s ≤ exp t)
    (a b : JSNumber K) (hab : a ≤ b) : mathExp exp a ≤ mathExp exp b := by
  cases a with
  | nan => exact absurd rfl (ne_nan_of_le_left hab)
  | negInf => exact mathExp_nonneg exp h b (ne_nan_of_le_right hab)
  | posInf =>
    cases b with
    | posInf => exact hab
    | nan => exact absurd hab (by intro h; exact h)
    | negInf => exact absurd hab (by intro h; exact h)
    | finite t => exact absurd hab (by intro h; exact h)
  | finite s =>
    cases b with
    | posInf => exact toDouble_le_posInf _
    | nan => exact absurd hab (by intro h; exact h)
    | negInf => exact absurd hab (by intro h; exact h)
    | finite t => exact toDouble_mono (hm s t ((finite_le_finite s t).mp hab))

/-- When the two bounds are computed without rounding, the clamp tests of the
linear-exact mapping are the exact comparisons. -/
theorem linearExact_exact (windowWidth windowCenter : K)
    (hhalf : IsDouble (windowWidth / 2)) (hlo : IsDouble (windowCenter - windowWidth / 2))
    (hhi : IsDouble (windowCenter + windowWidth / 2)) (x : K) :
    generateLinearExactVOILUT windowWidth windowCenter x
      = if x ≤ windowCenter - windowWidth / 2 then finite 0
        else if windowCenter + windowWidth / 2 < x then finite 255
        else generateLinearVOILUT windowWidth windowCenter x := by
  unfold IsDouble at hhalf hlo hhi
  have hdiv : (finite windowWidth / finite 2 : JSNumber K) = finite (windowWidth / 2) := by
    rw [finite_div_finite _ _ (by norm_num), hhalf]
  rw [linearExact_branches]
  unfold linearExactLow linearExactHigh
  rw [hdiv, finite_sub_finite, finite_add_finite, hlo, hhi]
  simp only [finite_le_finite, finite_lt_finite]

/-- When every intermediate result is a double, the linear mapping is the exact
formula. -/
theorem linear_exact_formula (windowWidth windowCenter x : K) (hw : windowWidth ≠ 0)
    (h1 : IsDouble (x - windowCenter)) (h2 : IsDouble ((x - windowCenter) / windowWidth))
    (h3 : IsDouble ((x - windowCenter) / windowWidth + 1 / 2))
    (h4 : IsDouble (((x - windowCenter) / windowWidth + 1 / 2) * 255)) :
    generateLinearVOILUT windowWidth windowCenter x
      = finite ((x - windowCenter) * 255 / windowWidth + 127.5) := by
  unfold IsDouble at h1 h2 h3 h4
  unfold generateLinearVOILUT
  have e1 : (0.5 : K) = 1 / 2 := by norm_num
  have e2 : (255.0 : K) = 255 := by norm_num
  rw [finite_sub_finite, h1, finite_div_finite _ _ hw, h2, finite_add_finite, e1, h3,
    finite_mul_finite, e2, h4]
  congr 1
  field_simp
  ring

/-- Under exact bounds the linear-exact mapping is the clamped linear mapping
and stays within 0 and 255. -/
theorem linearExact_clamp (windowWidth windowCenter : K)
    (hw : 0 < windowWidth)
    (hhalf : IsDouble (windowWidth / 2)) (hlo : IsDouble (windowCenter - windowWidth / 2))
    (hhi : IsDouble (windowCenter + windowWidth / 2)) (x : K) :
    generateLinearExactVOILUT windowWidth windowCenter x
      = linearExactSpec windowWidth windowCenter x ∧
    finite 0 ≤ generateLinearExactVOILUT windowWidth windowCenter x ∧
    generateLinearExactVOILUT windowWidth windowCenter x ≤ finite 255 := by
  obtain ⟨t1, t2, t3, t4⟩ :=
    linear_thresholds windowWidth windowCenter hw hhalf x
  have hspec : linearExactSpec windowWidth windowCenter x
      = jsMin (finite 255) (jsMax (finite 0) (generateLinearVOILUT windowWidth windowCenter x)) := by
    unfold linearExactSpec generateLinearVOILUT
    norm_num
  have h00 : (finite 0 : JSNumber K) ≤ finite 0 := (finite_le_finite 0 0).mpr (le_refl 0)
  have h0255 : (finite 0 : JSNumber K) ≤ finite 255 :=
    (finite_le_finite 0 255).mpr (by norm_num)
  have h255 : (finite 255 : JSNumber K) ≤ finite 255 :=
    (finite_le_finite 255 255).mpr (le_refl 255)
  rw [linearExact_exact windowWidth windowCenter hhalf hlo hhi x, hspec]
  by_cases hx1 : x ≤ windowCenter - windowWidth / 2
  · rw [if_pos hx1]
    have hle := t4 hx1
    refine ⟨?_, h00, h0255⟩
    by_cases hz : finite 0 ≤ generateLinearVOILUT windowWidth windowCenter x
    · rw [jsLe_antisymm hle hz, jsMax_finite_zero h00, jsMin_finite_of_le h0255 h00]
    · have hmax : jsMax (finite 0) (generateLinearVOILUT windowWidth windowCenter x)
          = finite 0 := by
        cases hv : generateLinearVOILUT windowWidth windowCenter x with
        | nan => rw [hv] at hle; exact absurd hle (by intro h; exact h)
        | posInf => rw [hv] at hle; exact absurd hle (by intro h; exact h)
        | negInf => simp [jsMax, show ¬ ((finite 0 : JSNumber K) ≤ negInf) from fun h => h]
        | finite v =>
          rw [hv] at hz
          simp [jsMax, hz]
      rw [hmax, jsMin_finite_of_le h0255 h00]
  · rw [if_neg hx1]
    have hge0 := t3 (le_of_lt (not_le.mp hx1))
    by_cases hx2 : windowCenter + windowWidth / 2 < x
    · rw [if_pos hx2]
      have hge := t1 (le_of_lt hx2)
      refine ⟨?_, h0255, h255⟩
      rw [jsMax_finite_zero hge0, jsMin_finite_of_ge hge]
    · rw [if_neg hx2]
      have hle := t2 (not_lt.mp hx2)
      refine ⟨?_, hge0, hle⟩
      rw [jsMax_finite_zero hge0, jsMin_finite_of_le hle hge0]

/-- A non-negative value of at most `2 ^ (-53)` added to 1 rounds back to 1. -/
theorem toDouble_one_add_small {e : K} (h0 : 0 ≤ e) (h1 : e ≤ 2 ^ (-53 : Int)) :
    toDouble (1 + e) = finite 1 := by
  have hlow : finite 1 ≤ toDouble (1 + e) := by
    rw [← toDouble_one]
    exact toDouble_mono (by linarith)
  have htie : toDouble (1 + 2 ^ (-53 : Int) : K) = finite 1 :=
    toDouble_eval 0 4503599627370496 4503599627370496 (by norm_num) (by norm_num)
      (by rw [abs_of_pos (by positivity)]; norm_num)
      (by rw [abs_of_pos (by positivity)]; norm_num)
      (by norm_num) (by norm_num) (by norm_num) (by norm_num)
  have hhigh : toDouble (1 + e) ≤ finite 1 := by
    rw [← htie]
    exact toDouble_mono (by linarith)
  exact jsLe_antisymm hhigh hlow

/-- A non-negative value of at most `2 ^ (-53)` stays one when converted. -/
theorem toDouble_small {q : K} (h0 : 0 ≤ q) (h1 : q ≤ 2 ^ (-53 : Int)) :
    ∃ e : K, toDouble q = finite e ∧ 0 ≤ e ∧ e ≤ 2 ^ (-53 : Int) := by
  have hlow : finite 0 ≤ toDouble q := by
    rw [← toDouble_zero]
    exact toDouble_mono h0
  have hd : toDouble (2 ^ (-53 : Int) : K) = finite (2 ^ (-53 : Int)) := by
    have h := toDouble_dyadic (K := K) 1 (-53) (by norm_num) (by norm_num) (by norm_num)
    simpa using h
  have hhigh : toDouble q ≤ finite (2 ^ (-53 : Int)) := by
    rw [← hd]
    exact toDouble_mono h1
  cases hq : toDouble q with
  | nan => rw [hq] at hlow; exact absurd hlow (by intro h; exact h)
  | negInf => rw [hq] at hlow; exact absurd hlow (by intro h; exact h)
  | posInf => rw [hq] at hhigh; exact absurd hhigh (by intro h; exact h)
  | finite e =>
    rw [hq] at hlow hhigh
    exact ⟨e, rfl, (finite_le_finite _ _).mp hlow, (finite_le_finite _ _).mp hhigh⟩

/-- When the exponential of the computed exponent is at most `2 ^ (-53)`, the
sigmoid mapping returns 255. -/
theorem sigmoid_saturates (exp : K → K) (windowWidth windowCenter x a : K)
    (ha : (finite (-4) * (finite x - finite windowCenter)) / finite windowWidth = finite a)
    (h0 : 0 ≤ exp a) (h1 : exp a ≤ 2 ^ (-53 : Int)) :
    generateSigmoidVOILUT (mathExp exp) windowWidth windowCenter x = finite 255 := by
  obtain ⟨e, he, he0, he1⟩ := toDouble_small h0 h1
  unfold generateSigmoidVOILUT
  simp only [sigmoid_span]
  rw [ha]
  show finite 255 / (finite 1 + toDouble (exp a)) + finite 0 = finite 255
  rw [he, finite_add_finite, toDouble_one_add_small he0 he1,
    finite_div_finite _ _ (by norm_num), div_one, toDouble_255, finite_add_finite, add_zero,
    toDouble_255]

theorem real_exp_small {a : ℝ} (ha : a ≤ -37) : Real.exp a ≤ 2 ^ (-53 : Int) := by
  have h1 : Real.exp a ≤ Real.exp (-37) := Real.exp_le_exp.mpr ha
  have h2 : Real.exp (-37) = (Real.exp 1 ^ 37)⁻¹ := by
    rw [← Real.exp_nat_mul, Real.exp_neg]
    norm_num
  have h3 : (2 : ℝ) ^ 53 ≤ Real.exp 1 ^ 37 := by
    have hb : (2.7182818283 : ℝ) ≤ Real.exp 1 := le_of_lt Real.exp_one_gt_d9
    calc (2 : ℝ) ^ 53 ≤ (2.7182818283 : ℝ) ^ 37 := by norm_num
      _ ≤ Real.exp 1 ^ 37 := pow_le_pow_left₀ (by norm_num) hb 37
  rw [h2] at h1
  refine le_trans h1 ?_
  rw [show (2 : ℝ) ^ (-53 : Int) = ((2 : ℝ) ^ 53)⁻¹ from by norm_num]
  exact inv_anti₀ (by positivity) h3

/-- A value given as `m * 2 ^ e`, with fewer than 54 bits in `m`, is a double. -/
theorem isDouble_dyadic {q : K} (m e : Int) (hm : |m| < 2 ^ 53) (he1 : -1074 ≤ e)
    (he2 : e ≤ 971) (hq : q = (m : K) * 2 ^ e) : IsDouble q := by
  unfold IsDouble
  rw [hq]
  exact toDouble_dyadic m e hm he1 he2

end WindowLemmas

/-! ## Lemmas about the VOI functions -/

section VOILemmas

variable {K : Type} [LinearOrderedField K] [FloorRing K]

theorem toInt32_zero : toInt32 0 = 0 := by
  norm_num [toInt32]

theorem jsShiftRight_zero (shift : Int) : jsShiftRight (some 0) shift = 0 := by
  simp [jsShiftRight, toInt32_zero]

theorem jsShiftRight_undefined (shift : Int) : jsShiftRight none shift = 0 := by
  simp [jsShiftRight, toInt32_zero]

theorem jsIndex_of_bounds {α : Type} (a : List α) (i : Int) (h0 : 0 ≤ i)
    (h1 : i < (a.length : Int)) : ∃ e, e ∈ a ∧ jsIndex a i = some e := by
  have hlt : i.toNat < a.length := by omega
  refine ⟨a[i.toNat], List.getElem_mem _, ?_⟩
  simp [jsIndex, h0, List.getElem?_eq_getElem hlt]

theorem jsIndex_mem {α : Type} (a : List α) (i : Int) (e : α) (h : jsIndex a i = some e) :
    e ∈ a := by
  unfold jsIndex at h
  split at h
  · obtain ⟨hlt, he⟩ := List.getElem?_eq_some.mp h
    exact he ▸ List.getElem_mem hlt
  · exact absurd h (by simp)

theorem jsIndexNum_intCast {α : Type} (a : List α) (i : Int) :
    jsIndexNum a (i : K) = jsIndex a i := by
  simp [jsIndexNum]

theorem foldl_max_le (l : List Int) (init : Int) :
    init ≤ l.foldl max init ∧ ∀ e ∈ l, e ≤ l.foldl max init := by
  induction l generalizing init with
  | nil => simp
  | cons a t ih =>
    simp only [List.foldl_cons, List.mem_cons, forall_eq_or_imp]
    obtain ⟨h1, h2⟩ := ih (max init a)
    exact ⟨le_trans (le_max_left _ _) h1, le_trans (le_max_right _ _) h1, h2⟩

theorem mathMax_eq_foldl (l : List Int) (hne : l ≠ []) (hnonneg : ∀ e ∈ l, 0 ≤ e) :
    mathMax l = some (l.foldl max 0) := by
  cases l with
  | nil => exact absurd rfl hne
  | cons a t =>
    have ha : 0 ≤ a := hnonneg a (List.mem_cons_self _ _)
    simp [mathMax, List.max?, max_eq_right ha]

theorem binaryStringLength_of_pos (m : Int) (hm : 0 < m) :
    binaryStringLength m = Nat.size m.toNat := by
  have h1 : m ≠ 0 := by omega
  have h2 : ¬ m < 0 := by omega
  have h3 : m.natAbs = m.toNat := by omega
  simp [binaryStringLength, h1, h2, h3, Nat.digits_two_eq_bits, Nat.size_eq_bits_len]

/-- On an integer input and a non-empty table, the table-driven function is the
lookup at the clamped index, with the shift the code derives. -/
theorem generateNonLinearVOILUT_intCast (voiLUT : LUT) (hne : voiLUT.lut ≠ [])
    (roundModalityLUTValues : Bool) (v : Int) :
    generateNonLinearVOILUT voiLUT roundModalityLUTValues (v : K)
      = ((jsShiftRight
          (jsIndex voiLUT.lut
            (max 0 (min (v - voiLUT.firstValueMapped) ((voiLUT.lut.length : Int) - 1))))
          ((bitsPerEntry voiLUT.lut : Int) - 8) : Int) : K) := by
  have hlen : 0 < voiLUT.lut.length := List.length_pos.mpr hne
  unfold generateNonLinearVOILUT
  simp only [ge_iff_le, Int.cast_lt, Int.cast_le]
  by_cases h1 : v < voiLUT.firstValueMapped
  · have hidx : max 0 (min (v - voiLUT.firstValueMapped) ((voiLUT.lut.length : Int) - 1))
        = 0 := by omega
    rw [if_pos h1, hidx]
  · rw [if_neg h1]
    by_cases h2 : voiLUT.firstValueMapped + (voiLUT.lut.length : Int) - 1 ≤ v
    · have hidx : max 0 (min (v - voiLUT.firstValueMapped) ((voiLUT.lut.length : Int) - 1))
          = (voiLUT.lut.length : Int) - 1 := by omega
      rw [if_pos h2, hidx]
    · have hidx : max 0 (min (v - voiLUT.firstValueMapped) ((voiLUT.lut.length : Int) - 1))
          = v - voiLUT.firstValueMapped := by omega
      rw [if_neg h2, hidx]
      cases roundModalityLUTValues with
      | true => simp [mathRound_intCast]
      | false =>
        have hc : (v : K) - (voiLUT.firstValueMapped : K)
            = ((v - voiLUT.firstValueMapped : Int) : K) := by push_cast; ring
        rw [hc, jsIndexNum_intCast]
        simp

/-- For a non-empty table of non-negative integers the shift that the code
derives and the shift of the specification give the same shifted entry: they
are equal unless every entry is 0. -/
theorem jsShiftRight_shift_eq (lut : List Int) (hne : lut ≠ [])
    (hnonneg : ∀ e ∈ lut, 0 ≤ e) (i : Int) :
    jsShiftRight (jsIndex lut i) ((bitsPerEntry lut : Int) - 8)
      = jsShiftRight (jsIndex lut i) (tableShiftSpec lut) := by
  obtain ⟨h0, hle⟩ := foldl_max_le lut 0
  have hbits : bitsPerEntry lut = binaryStringLength (lut.foldl max 0) := by
    simp [bitsPerEntry, mathMax_eq_foldl lut hne hnonneg]
  rcases lt_or_eq_of_le h0 with hpos | hzero
  · rw [hbits, binaryStringLength_of_pos _ hpos, tableShiftSpec]
  · cases hidx : jsIndex lut i with
    | none => rw [jsShiftRight_undefined, jsShiftRight_undefined]
    | some e =>
      have hmem := jsIndex_mem lut i e hidx
      have he : e = 0 := le_antisymm (hzero ▸ hle e hmem) (hnonneg e hmem)
      rw [he, jsShiftRight_zero, jsShiftRight_zero]

theorem size_255 : Nat.size (255 : Int).toNat = 8 := by
  rw [← binaryStringLength_of_pos 255 (by norm_num)]
  simp [binaryStringLength]

theorem toInt32_of_lt (e : Int) (h0 : 0 ≤ e) (h1 : e < 2 ^ 31) : toInt32 e = e := by
  unfold toInt32
  omega

theorem shiftCount_eq (bits : Nat) (hb : bits ≤ 31) :
    (((bits : Int) - 8) % 32).toNat = if 8 ≤ bits then bits - 8 else bits + 24 := by
  split <;> omega

theorem jsShiftRight_natCast (n bits : Nat) (hn : n < 2 ^ bits) (hb : bits ≤ 31) :
    jsShiftRight (some (n : Int)) ((bits : Int) - 8)
      = ((n / 2 ^ (if 8 ≤ bits then bits - 8 else bits + 24) : Nat) : Int) := by
  have h31 : n < 2 ^ 31 := lt_of_lt_of_le hn (Nat.pow_le_pow_right (by norm_num) hb)
  have hcast : ((n : Int)) < 2 ^ 31 := by exact_mod_cast h31
  simp only [jsShiftRight, Option.getD_some, toInt32_of_lt (n : Int) (by positivity) hcast,
    shiftCount_eq bits hb, Int.shiftRight_eq_div_pow]
  exact (Int.natCast_div n _).symm

/-- A natural number below `2 ^ bits`, with at most 31 bits, shifted right by
`bits - 8` in the JavaScript way lies in `0 .. 255`, and is 0 when `bits` is
below 8, the negative count wrapping modulo 32. -/
theorem jsShiftRight_natCast_bounds (n bits : Nat) (hn : n < 2 ^ bits) (hb : bits ≤ 31) :
    0 ≤ jsShiftRight (some (n : Int)) ((bits : Int) - 8) ∧
    jsShiftRight (some (n : Int)) ((bits : Int) - 8) ≤ 255 ∧
    (bits < 8 → jsShiftRight (some (n : Int)) ((bits : Int) - 8) = 0) := by
  rw [jsShiftRight_natCast n bits hn hb]
  by_cases h8 : 8 ≤ bits
  · simp only [if_pos h8]
    have hlt : n / 2 ^ (bits - 8) < 256 := by
      apply Nat.div_lt_of_lt_mul
      have hpow : 2 ^ (bits - 8) * 256 = 2 ^ bits := by
        rw [show (256 : Nat) = 2 ^ 8 by norm_num, ← pow_add]
        congr 1
        omega
      omega
    refine ⟨by positivity, by exact_mod_cast Nat.lt_succ_iff.mp hlt, fun h => by omega⟩
  · simp only [if_neg h8]
    have hzero : n / 2 ^ (bits + 24) = 0 := by
      apply Nat.div_eq_of_lt
      exact lt_of_lt_of_le hn (Nat.pow_le_pow_right (by norm_num) (by omega))
    rw [hzero]
    simp

theorem foldl_max_lt (l : List Int) (init bound : Int) (hinit : init < bound)
    (hl : ∀ e ∈ l, e < bound) : l.foldl max init < bound := by
  induction l generalizing init with
  | nil => simpa using hinit
  | cons a t ih =>
    simp only [List.foldl_cons]
    exact ih (max init a) (max_lt hinit (hl a (List.mem_cons_self _ _)))
      (fun e he => hl e (List.mem_cons_of_mem _ he))

theorem bitsPerEntry_eq (lut : List Int) (hne : lut ≠ []) (hnonneg : ∀ e ∈ lut, 0 ≤ e) :
    bitsPerEntry lut = binaryStringLength (lut.foldl max 0) := by
  simp [bitsPerEntry, mathMax_eq_foldl lut hne hnonneg]

/-- The number of bits the code derives is at most `bound` when every entry is
below `2 ^ bound`. -/
theorem bitsPerEntry_le (lut : List Int) (hne : lut ≠ []) (hnonneg : ∀ e ∈ lut, 0 ≤ e)
    (bound : Nat) (hbound : 1 ≤ bound) (hlt : ∀ e ∈ lut, e < 2 ^ bound) :
    bitsPerEntry lut ≤ bound := by
  rw [bitsPerEntry_eq lut hne hnonneg]
  obtain ⟨h0, -⟩ := foldl_max_le lut 0
  rcases lt_or_eq_of_le h0 with hpos | hzero
  · rw [binaryStringLength_of_pos _ hpos, Nat.size_le]
    have hm : lut.foldl max 0 < 2 ^ bound := foldl_max_lt lut 0 _ (by positivity) hlt
    have hcast : ((lut.foldl max 0).toNat : Int) < ((2 ^ bound : Nat) : Int) := by
      rw [Int.toNat_of_nonneg h0]
      exact_mod_cast hm
    exact_mod_cast hcast
  · rw [← hzero]
    simpa [binaryStringLength] using hbound

/-- Every entry fits in the number of bits the code derives. -/
theorem entry_lt_pow_bitsPerEntry (lut : List Int) (hne : lut ≠ [])
    (hnonneg : ∀ e ∈ lut, 0 ≤ e) (e : Int) (he : e ∈ lut) :
    e.toNat < 2 ^ bitsPerEntry lut := by
  rw [bitsPerEntry_eq lut hne hnonneg]
  obtain ⟨h0, hle⟩ := foldl_max_le lut 0
  rcases lt_or_eq_of_le h0 with hpos | hzero
  · rw [binaryStringLength_of_pos _ hpos]
    have h1 : e.toNat ≤ (lut.foldl max 0).toNat := Int.toNat_le_toNat (hle e he)
    exact lt_of_le_of_lt h1 (Nat.lt_size_self _)
  · have hez : e = 0 := le_antisymm (hzero ▸ hle e he) (hnonneg e he)
    rw [hez]
    simp

/-- The shifted table entry, or the shifted absent value, lies in `0 .. 255`
when every entry is a non-negative integer below `2 ^ bound`, `bound` at most
31; it is 0 when `bound` is below 8. -/
theorem jsShiftRight_entry_bounds (lut : List Int) (hnonneg : ∀ e ∈ lut, 0 ≤ e)
    (bound : Nat) (hbound : 1 ≤ bound) (hb31 : bound ≤ 31) (hlt : ∀ e ∈ lut, e < 2 ^ bound)
    (o : Option Int) (ho : ∀ e, o = some e → e ∈ lut) :
    0 ≤ jsShiftRight o ((bitsPerEntry lut : Int) - 8) ∧
    jsShiftRight o ((bitsPerEntry lut : Int) - 8) ≤ 255 ∧
    (bound < 8 → jsShiftRight o ((bitsPerEntry lut : Int) - 8) = 0) := by
  cases o with
  | none => simp [jsShiftRight_undefined]
  | some e =>
    have he : e ∈ lut := ho e rfl
    have hne : lut ≠ [] := List.ne_nil_of_mem he
    have hbits := bitsPerEntry_le lut hne hnonneg bound hbound hlt
    have hcast : ((e.toNat : Nat) : Int) = e := Int.toNat_of_nonneg (hnonneg e he)
    have h := jsShiftRight_natCast_bounds e.toNat (bitsPerEntry lut)
      (entry_lt_pow_bitsPerEntry lut hne hnonneg e he) (le_trans hbits hb31)
    rw [hcast] at h
    exact ⟨h.1, h.2.1, fun h8 => h.2.2 (lt_of_le_of_lt hbits h8)⟩

theorem jsIndexNum_mem {α : Type} (a : List α) (t : K) (e : α)
    (h : jsIndexNum a t = some e) : e ∈ a := by
  unfold jsIndexNum at h
  split at h
  · exact jsIndex_mem a _ e h
  · exact absurd h (by simp)

/-- Every value of the table-driven function is a shifted table entry or the
shifted absent value. -/
theorem generateNonLinearVOILUT_cases (voiLUT : LUT) (roundModalityLUTValues : Bool)
    (v : K) :
    ∃ o : Option Int, (∀ e, o = some e → e ∈ voiLUT.lut) ∧
      generateNonLinearVOILUT voiLUT roundModalityLUTValues v
        = ((jsShiftRight o ((bitsPerEntry voiLUT.lut : Int) - 8) : Int) : K) := by
  unfold generateNonLinearVOILUT
  by_cases h1 : v < (voiLUT.firstValueMapped : K)
  · exact ⟨jsIndex voiLUT.lut 0, fun e he => jsIndex_mem _ _ e he, by simp only [if_pos h1]⟩
  · by_cases h2 : v ≥ ((voiLUT.firstValueMapped + (voiLUT.lut.length : Int) - 1 : Int) : K)
    · exact ⟨jsIndex voiLUT.lut ((voiLUT.lut.length : Int) - 1),
        fun e he => jsIndex_mem _ _ e he, by simp only [if_neg h1, if_pos h2]⟩
    · cases roundModalityLUTValues with
      | true =>
        exact ⟨jsIndex voiLUT.lut (mathRound v - voiLUT.firstValueMapped),
          fun e he => jsIndex_mem _ _ e he, by simp only [if_neg h1, if_neg h2, if_true]⟩
      | false =>
        refine ⟨jsIndexNum voiLUT.lut (v - (voiLUT.firstValueMapped : K)),
          fun e he => jsIndexNum_mem _ _ e he, ?_⟩
        simp only [if_neg h1, if_neg h2]
        rfl

theorem bitsPerEntry_wideVoiLUT : bitsPerEntry wideVoiLUT.lut = 32 := by
  have hmax : wideVoiLUT.lut.foldl max 0 = 2147483648 := by decide
  rw [bitsPerEntry_eq wideVoiLUT.lut (by decide) (by decide), hmax,
    binaryStringLength_of_pos _ (by norm_num)]
  have hnat : (2147483648 : Int).toNat = 2147483648 := rfl
  rw [hnat]
  apply le_antisymm
  · rw [Nat.size_le]
    norm_num
  · have h := (@Nat.lt_size 31 2147483648).mpr (by norm_num)
    omega

/-- Between non-negative entries below `2 ^ 31` the JavaScript right shift
keeps the order. -/
theorem jsShiftRight_mono (a b shift : Int) (h0 : 0 ≤ a) (hab : a ≤ b) (hb : b < 2 ^ 31) :
    jsShiftRight (some a) shift ≤ jsShiftRight (some b) shift := by
  simp only [jsShiftRight, Option.getD_some, toInt32_of_lt a h0 (lt_of_le_of_lt hab hb),
    toInt32_of_lt b (le_trans h0 hab) hb, Int.shiftRight_eq_div_pow]
  exact Int.ediv_le_ediv (by positivity) hab

/-- In a non-decreasing table, reads at two ordered indices inside the table
give ordered entries. -/
theorem jsIndex_mono_of_pairwise (lut : List Int)
    (hsorted : List.Pairwise (fun a b => a ≤ b) lut) (i j : Int) (h0 : 0 ≤ i) (hij : i ≤ j)
    (hj : j < (lut.length : Int)) :
    ∃ a b, a ∈ lut ∧ b ∈ lut ∧ jsIndex lut i = some a ∧ jsIndex lut j = some b ∧ a ≤ b := by
  have hi : i.toNat < lut.length := by omega
  have hjn : j.toNat < lut.length := by omega
  refine ⟨lut[i.toNat], lut[j.toNat], List.getElem_mem _, List.getElem_mem _, ?_, ?_, ?_⟩
  · simp [jsIndex, h0, List.getElem?_eq_getElem hi]
  · simp [jsIndex, le_trans h0 hij, List.getElem?_eq_getElem hjn]
  · rcases Nat.lt_or_ge i.toNat j.toNat with hlt | hge
    · exact List.pairwise_iff_getElem.mp hsorted i.toNat j.toNat hi hjn hlt
    · have heq : i.toNat = j.toNat := by omega
      simp [heq]

end VOILemmas

/-! ## Evaluations in double precision

Each step names the binade, the floor of the scaled value and the rounded
significand; the side conditions are checked by computation. -/

section Evaluations

open JSNumber

/-- Step 1 of the linear mapping of width 255 and center 127 at -1: the subtraction. -/
theorem linear_255_127_at_neg1_step1 :
    (finite (-1) - finite 127 : JSNumber ℚ) = finite (-128) := by
  rw [finite_sub_finite, show (((-1) : ℚ) - 127) = (-128) from by norm_num]
  exact toDouble_eval 7 (-4503599627370496) (-4503599627370496) (by norm_num) (by norm_num)
    (by rw [abs_of_neg (by norm_num)]; norm_num) (by rw [abs_of_neg (by norm_num)]; norm_num)
    (by norm_num) (by norm_num) (by norm_num) (by norm_num)

/-- Step 2 of the linear mapping of width 255 and center 127 at -1: the division. -/
theorem linear_255_127_at_neg1_step2 :
    (finite (-128) / finite 255 : JSNumber ℚ) = finite (-282578800148737 / 562949953421312) := by
  rw [finite_div_finite _ _ (by norm_num), show (((-128) : ℚ) / 255) = (-128 / 255) from by norm_num]
  exact toDouble_eval (-1) (-4521260802379793) (-4521260802379792) (by norm_num) (by norm_num)
    (by rw [abs_of_neg (by norm_num)]; norm_num) (by rw [abs_of_neg (by norm_num)]; norm_num)
    (by norm_num) (by norm_num) (by norm_num) (by norm_num)

/-- Step 3 of the linear mapping of width 255 and center 127 at -1: the addition of 0.5. -/
theorem linear_255_127_at_neg1_step3 :
    (finite (-282578800148737 / 562949953421312) + finite 0.5 : JSNumber ℚ) = finite (-1103823438081 / 562949953421312) := by
  rw [finite_add_finite, show (((-282578800148737 / 562949953421312) : ℚ) + 0.5) = (-1103823438081 / 562949953421312) from by norm_num]
  exact toDouble_eval (-9) (-4521260802379776) (-4521260802379776) (by norm_num) (by norm_num)
    (by rw [abs_of_neg (by norm_num)]; norm_num) (by rw [abs_of_neg (by norm_num)]; norm_num)
    (by norm_num) (by norm_num) (by norm_num) (by norm_num)

/-- Step 4 of the linear mapping of width 255 and center 127 at -1: the multiplication by 255. -/
theorem linear_255_127_at_neg1_step4 :
    (finite (-1103823438081 / 562949953421312) * finite 255.0 : JSNumber ℚ) = finite (-281474976710655 / 562949953421312) := by
  rw [finite_mul_finite, show (((-1103823438081 / 562949953421312) : ℚ) * 255.0) = (-281474976710655 / 562949953421312) from by norm_num]
  exact toDouble_eval (-2) (-9007199254740960) (-9007199254740960) (by norm_num) (by norm_num)
    (by rw [abs_of_neg (by norm_num)]; norm_num) (by rw [abs_of_neg (by norm_num)]; norm_num)
    (by norm_num) (by norm_num) (by norm_num) (by norm_num)

/-- The value of the linear mapping of width 255 and center 127 at -1. -/
theorem linear_255_127_at_neg1 :
    generateLinearVOILUT (255 : ℚ) 127 (-1) = finite (-281474976710655 / 562949953421312) := by
  unfold generateLinearVOILUT
  rw [linear_255_127_at_neg1_step1, linear_255_127_at_neg1_step2, linear_255_127_at_neg1_step3, linear_255_127_at_neg1_step4]

/-- Step 1 of the linear mapping of width 10 ^ 17 and center 0 at 1: the subtraction. -/
theorem linear_1e17_0_at_1_step1 :
    (finite 1 - finite 0 : JSNumber ℚ) = finite 1 := by
  rw [finite_sub_finite, show ((1 : ℚ) - 0) = 1 from by norm_num]
  exact toDouble_eval 0 4503599627370496 4503599627370496 (by norm_num) (by norm_num)
    (by rw [abs_of_pos (by norm_num)]; norm_num) (by rw [abs_of_pos (by norm_num)]; norm_num)
    (by norm_num) (by norm_num) (by norm_num) (by norm_num)

/-- Step 2 of the linear mapping of width 10 ^ 17 and center 0 at 1: the division. -/
theorem linear_1e17_0_at_1_step2 :
    (finite 1 / finite 100000000000000000 : JSNumber ℚ) = finite (6490371073168535 / 649037107316853453566312041152512) := by
  rw [finite_div_finite _ _ (by norm_num), show ((1 : ℚ) / 100000000000000000) = (1 / 100000000000000000) from by norm_num]
  exact toDouble_eval (-57) 6490371073168534 6490371073168535 (by norm_num) (by norm_num)
    (by rw [abs_of_pos (by norm_num)]; norm_num) (by rw [abs_of_pos (by norm_num)]; norm_num)
    (by norm_num) (by norm_num) (by norm_num) (by norm_num)

/-- Step 3 of the linear mapping of width 10 ^ 17 and center 0 at 1: the addition of 0.5. -/
theorem linear_1e17_0_at_1_step3 :
    (finite (6490371073168535 / 649037107316853453566312041152512) + finite 0.5 : JSNumber ℚ) = finite (1 / 2) := by
  rw [finite_add_finite, show (((6490371073168535 / 649037107316853453566312041152512) : ℚ) + 0.5) = (324518553658426733273527093744791 / 649037107316853453566312041152512) from by norm_num]
  exact toDouble_eval (-1) 4503599627370496 4503599627370496 (by norm_num) (by norm_num)
    (by rw [abs_of_pos (by norm_num)]; norm_num) (by rw [abs_of_pos (by norm_num)]; norm_num)
    (by norm_num) (by norm_num) (by norm_num) (by norm_num)

/-- Step 4 of the linear mapping of width 10 ^ 17 and center 0 at 1: the multiplication by 255. -/
theorem linear_1e17_0_at_1_step4 :
    (finite (1 / 2) * finite 255.0 : JSNumber ℚ) = finite (255 / 2) := by
  rw [finite_mul_finite, show (((1 / 2) : ℚ) * 255.0) = (255 / 2) from by norm_num]
  exact toDouble_eval 6 8972014882652160 8972014882652160 (by norm_num) (by norm_num)
    (by rw [abs_of_pos (by norm_num)]; norm_num) (by rw [abs_of_pos (by norm_num)]; norm_num)
    (by norm_num) (by norm_num) (by norm_num) (by norm_num)

/-- The value of the linear mapping of width 10 ^ 17 and center 0 at 1. -/
theorem linear_1e17_0_at_1 :
    generateLinearVOILUT (100000000000000000 : ℚ) 0 1 = finite (255 / 2) := by
  unfold generateLinearVOILUT
  rw [linear_1e17_0_at_1_step1, linear_1e17_0_at_1_step2, linear_1e17_0_at_1_step3, linear_1e17_0_at_1_step4]

/-- Step 1 of the linear mapping of width 2 and center 0 at 1 + 2 ^ (-52): the subtraction. -/
theorem linear_2_0_above_1_step1 :
    (finite (4503599627370497 / 4503599627370496) - finite 0 : JSNumber ℚ) = finite (4503599627370497 / 4503599627370496) := by
  rw [finite_sub_finite, show (((4503599627370497 / 4503599627370496) : ℚ) - 0) = (4503599627370497 / 4503599627370496) from by norm_num]
  exact toDouble_eval 0 4503599627370497 4503599627370497 (by norm_num) (by norm_num)
    (by rw [abs_of_pos (by norm_num)]; norm_num) (by rw [abs_of_pos (by norm_num)]; norm_num)
    (by norm_num) (by norm_num) (by norm_num) (by norm_num)

/-- Step 2 of the linear mapping of width 2 and center 0 at 1 + 2 ^ (-52): the division. -/
theorem linear_2_0_above_1_step2 :
    (finite (4503599627370497 / 4503599627370496) / finite 2 : JSNumber ℚ) = finite (4503599627370497 / 9007199254740992) := by
  rw [finite_div_finite _ _ (by norm_num), show (((4503599627370497 / 4503599627370496) : ℚ) / 2) = (4503599627370497 / 9007199254740992) from by norm_num]
  exact toDouble_eval (-1) 4503599627370497 4503599627370497 (by norm_num) (by norm_num)
    (by rw [abs_of_pos (by norm_num)]; norm_num) (by rw [abs_of_pos (by norm_num)]; norm_num)
    (by norm_num) (by norm_num) (by norm_num) (by norm_num)

/-- Step 3 of the linear mapping of width 2 and center 0 at 1 + 2 ^ (-52): the addition of 0.5. -/
theorem linear_2_0_above_1_step3 :
    (finite (4503599627370497 / 9007199254740992) + finite 0.5 : JSNumber ℚ) = finite 1 := by
  rw [finite_add_finite, show (((4503599627370497 / 9007199254740992) : ℚ) + 0.5) = (9007199254740993 / 9007199254740992) from by norm_num]
  exact toDouble_eval 0 4503599627370496 4503599627370496 (by norm_num) (by norm_num)
    (by rw [abs_of_pos (by norm_num)]; norm_num) (by rw [abs_of_pos (by norm_num)]; norm_num)
    (by norm_num) (by norm_num) (by norm_num) (by norm_num)

/-- Step 4 of the linear mapping of width 2 and center 0 at 1 + 2 ^ (-52): the multiplication by 255. -/
theorem linear_2_0_above_1_step4 :
    (finite 1 * finite 255.0 : JSNumber ℚ) = finite 255 := by
  rw [finite_mul_finite, show ((1 : ℚ) * 255.0) = 255 from by norm_num]
  exact toDouble_eval 7 8972014882652160 8972014882652160 (by norm_num) (by norm_num)
    (by rw [abs_of_pos (by norm_num)]; norm_num) (by rw [abs_of_pos (by norm_num)]; norm_num)
    (by norm_num) (by norm_num) (by norm_num) (by norm_num)

/-- The value of the linear mapping of width 2 and center 0 at 1 + 2 ^ (-52). -/
theorem linear_2_0_above_1 :
    generateLinearVOILUT (2 : ℚ) 0 (4503599627370497 / 4503599627370496) = finite 255 := by
  unfold generateLinearVOILUT
  rw [linear_2_0_above_1_step1, linear_2_0_above_1_step2, linear_2_0_above_1_step3, linear_2_0_above_1_step4]

/-- Step 1 of the linear mapping of width 255 and center 127 at 256: the subtraction. -/
theorem linear_255_127_at_256_step1 :
    (finite 256 - finite 127 : JSNumber ℚ) = finite 129 := by
  rw [finite_sub_finite, show ((256 : ℚ) - 127) = 129 from by norm_num]
  exact toDouble_eval 7 4538783999459328 4538783999459328 (by norm_num) (by norm_num)
    (by rw [abs_of_pos (by norm_num)]; norm_num) (by rw [abs_of_pos (by norm_num)]; norm_num)
    (by norm_num) (by norm_num) (by norm_num) (by norm_num)

/-- Step 2 of the linear mapping of width 255 and center 127 at 256: the division. -/
theorem linear_255_127_at_256_step2 :
    (finite 129 / finite 255 : JSNumber ℚ) = finite (284786447024899 / 562949953421312) := by
  rw [finite_div_finite _ _ (by norm_num), show ((129 : ℚ) / 255) = (43 / 85) from by norm_num]
  exact toDouble_eval (-1) 4556583152398384 4556583152398384 (by norm_num) (by norm_num)
    (by rw [abs_of_pos (by norm_num)]; norm_num) (by rw [abs_of_pos (by norm_num)]; norm_num)
    (by norm_num) (by norm_num) (by norm_num) (by norm_num)

/-- Step 3 of the linear mapping of width 255 and center 127 at 256: the addition of 0.5. -/
theorem linear_255_127_at_256_step3 :
    (finite (284786447024899 / 562949953421312) + finite 0.5 : JSNumber ℚ) = finite (566261423735555 / 562949953421312) := by
  rw [finite_add_finite, show (((284786447024899 / 562949953421312) : ℚ) + 0.5) = (566261423735555 / 562949953421312) from by norm_num]
  exact toDouble_eval 0 4530091389884440 4530091389884440 (by norm_num) (by norm_num)
    (by rw [abs_of_pos (by norm_num)]; norm_num) (by rw [abs_of_pos (by norm_num)]; norm_num)
    (by norm_num) (by norm_num) (by norm_num) (by norm_num)

/-- Step 4 of the linear mapping of width 255 and center 127 at 256: the multiplication by 255. -/
theorem linear_255_127_at_256_step4 :
    (finite (566261423735555 / 562949953421312) * finite 255.0 : JSNumber ℚ) = finite (513 / 2) := by
  rw [finite_mul_finite, show (((566261423735555 / 562949953421312) : ℚ) * 255.0) = (144396663052566525 / 562949953421312) from by norm_num]
  exact toDouble_eval 8 4512395720392703 4512395720392704 (by norm_num) (by norm_num)
    (by rw [abs_of_pos (by norm_num)]; norm_num) (by rw [abs_of_pos (by norm_num)]; norm_num)
    (by norm_num) (by norm_num) (by norm_num) (by norm_num)

/-- The value of the linear mapping of width 255 and center 127 at 256. -/
theorem linear_255_127_at_256 :
    generateLinearVOILUT (255 : ℚ) 127 256 = finite (513 / 2) := by
  unfold generateLinearVOILUT
  rw [linear_255_127_at_256_step1, linear_255_127_at_256_step2, linear_255_127_at_256_step3, linear_255_127_at_256_step4]

/-- Step 1 of the linear mapping of width 255 and center 127 at 256, over the reals: the subtraction. -/
theorem linear_255_127_at_256_real_step1 :
    (finite 256 - finite 127 : JSNumber ℝ) = finite 129 := by
  rw [finite_sub_finite, show ((256 : ℝ) - 127) = 129 from by norm_num]
  exact toDouble_eval 7 4538783999459328 4538783999459328 (by norm_num) (by norm_num)
    (by rw [abs_of_pos (by norm_num)]; norm_num) (by rw [abs_of_pos (by norm_num)]; norm_num)
    (by norm_num) (by norm_num) (by norm_num) (by norm_num)

/-- Step 2 of the linear mapping of width 255 and center 127 at 256, over the reals: the division. -/
theorem linear_255_127_at_256_real_step2 :
    (finite 129 / finite 255 : JSNumber ℝ) = finite (284786447024899 / 562949953421312) := by
  rw [finite_div_finite _ _ (by norm_num), show ((129 : ℝ) / 255) = (43 / 85) from by norm_num]
  exact toDouble_eval (-1) 4556583152398384 4556583152398384 (by norm_num) (by norm_num)
    (by rw [abs_of_pos (by norm_num)]; norm_num) (by rw [abs_of_pos (by norm_num)]; norm_num)
    (by norm_num) (by norm_num) (by norm_num) (by norm_num)

/-- Step 3 of the linear mapping of width 255 and center 127 at 256, over the reals: the addition of 0.5. -/
theorem linear_255_127_at_256_real_step3 :
    (finite (284786447024899 / 562949953421312) + finite 0.5 : JSNumber ℝ) = finite (566261423735555 / 562949953421312) := by
  rw [finite_add_finite, show (((284786447024899 / 562949953421312) : ℝ) + 0.5) = (566261423735555 / 562949953421312) from by norm_num]
  exact toDouble_eval 0 4530091389884440 4530091389884440 (by norm_num) (by norm_num)
    (by rw [abs_of_pos (by norm_num)]; norm_num) (by rw [abs_of_pos (by norm_num)]; norm_num)
    (by norm_num) (by norm_num) (by norm_num) (by norm_num)

/-- Step 4 of the linear mapping of width 255 and center 127 at 256, over the reals: the multiplication by 255. -/
theorem linear_255_127_at_256_real_step4 :
    (finite (566261423735555 / 562949953421312) * finite 255.0 : JSNumber ℝ) = finite (513 / 2) := by
  rw [finite_mul_finite, show (((566261423735555 / 562949953421312) : ℝ) * 255.0) = (144396663052566525 / 562949953421312) from by norm_num]
  exact toDouble_eval 8 4512395720392703 4512395720392704 (by norm_num) (by norm_num)
    (by rw [abs_of_pos (by norm_num)]; norm_num) (by rw [abs_of_pos (by norm_num)]; norm_num)
    (by norm_num) (by norm_num) (by norm_num) (by norm_num)

/-- The value of the linear mapping of width 255 and center 127 at 256, over the reals. -/
theorem linear_255_127_at_256_real :
    generateLinearVOILUT (255 : ℝ) 127 256 = finite (513 / 2) := by
  unfold generateLinearVOILUT
  rw [linear_255_127_at_256_real_step1, linear_255_127_at_256_real_step2, linear_255_127_at_256_real_step3, linear_255_127_at_256_real_step4]

/-- Step 1 of the linear mapping of width 256 and center 127 at 20: the subtraction. -/
theorem linear_256_127_at_20_step1 :
    (finite 20 - finite 127 : JSNumber ℝ) = finite (-107) := by
  rw [finite_sub_finite, show ((20 : ℝ) - 127) = (-107) from by norm_num]
  exact toDouble_eval 6 (-7529455627010048) (-7529455627010048) (by norm_num) (by norm_num)
    (by rw [abs_of_neg (by norm_num)]; norm_num) (by rw [abs_of_neg (by norm_num)]; norm_num)
    (by norm_num) (by norm_num) (by norm_num) (by norm_num)

/-- Step 2 of the linear mapping of width 256 and center 127 at 20: the division. -/
theorem linear_256_127_at_20_step2 :
    (finite (-107) / finite 256 : JSNumber ℝ) = finite (-107 / 256) := by
  rw [finite_div_finite _ _ (by norm_num), show (((-107) : ℝ) / 256) = (-107 / 256) from by norm_num]
  exact toDouble_eval (-2) (-7529455627010048) (-7529455627010048) (by norm_num) (by norm_num)
    (by rw [abs_of_neg (by norm_num)]; norm_num) (by rw [abs_of_neg (by norm_num)]; norm_num)
    (by norm_num) (by norm_num) (by norm_num) (by norm_num)

/-- Step 3 of the linear mapping of width 256 and center 127 at 20: the addition of 0.5. -/
theorem linear_256_127_at_20_step3 :
    (finite (-107 / 256) + finite 0.5 : JSNumber ℝ) = finite (21 / 256) := by
  rw [finite_add_finite, show (((-107 / 256) : ℝ) + 0.5) = (21 / 256) from by norm_num]
  exact toDouble_eval (-4) 5910974510923776 5910974510923776 (by norm_num) (by norm_num)
    (by rw [abs_of_pos (by norm_num)]; norm_num) (by rw [abs_of_pos (by norm_num)]; norm_num)
    (by norm_num) (by norm_num) (by norm_num) (by norm_num)

/-- Step 4 of the linear mapping of width 256 and center 127 at 20: the multiplication by 255. -/
theorem linear_256_127_at_20_step4 :
    (finite (21 / 256) * finite 255.0 : JSNumber ℝ) = finite (5355 / 256) := by
  rw [finite_mul_finite, show (((21 / 256) : ℝ) * 255.0) = (5355 / 256) from by norm_num]
  exact toDouble_eval 4 5887884766740480 5887884766740480 (by norm_num) (by norm_num)
    (by rw [abs_of_pos (by norm_num)]; norm_num) (by rw [abs_of_pos (by norm_num)]; norm_num)
    (by norm_num) (by norm_num) (by norm_num) (by norm_num)

/-- The value of the linear mapping of width 256 and center 127 at 20. -/
theorem linear_256_127_at_20 :
    generateLinearVOILUT (256 : ℝ) 127 20 = finite (5355 / 256) := by
  unfold generateLinearVOILUT
  rw [linear_256_127_at_20_step1, linear_256_127_at_20_step2, linear_256_127_at_20_step3, linear_256_127_at_20_step4]

/-- Step 1 of the linear mapping of width 256 and center 127 at 23: the subtraction. -/
theorem linear_256_127_at_23_step1 :
    (finite 23 - finite 127 : JSNumber ℝ) = finite (-104) := by
  rw [finite_sub_finite, show ((23 : ℝ) - 127) = (-104) from by norm_num]
  exact toDouble_eval 6 (-7318349394477056) (-7318349394477056) (by norm_num) (by norm_num)
    (by rw [abs_of_neg (by norm_num)]; norm_num) (by rw [abs_of_neg (by norm_num)]; norm_num)
    (by norm_num) (by norm_num) (by norm_num) (by norm_num)

/-- Step 2 of the linear mapping of width 256 and center 127 at 23: the division. -/
theorem linear_256_127_at_23_step2 :
    (finite (-104) / finite 256 : JSNumber ℝ) = finite (-13 / 32) := by
  rw [finite_div_finite _ _ (by norm_num), show (((-104) : ℝ) / 256) = (-13 / 32) from by norm_num]
  exact toDouble_eval (-2) (-7318349394477056) (-7318349394477056) (by norm_num) (by norm_num)
    (by rw [abs_of_neg (by norm_num)]; norm_num) (by rw [abs_of_neg (by norm_num)]; norm_num)
    (by norm_num) (by norm_num) (by norm_num) (by norm_num)

/-- Step 3 of the linear mapping of width 256 and center 127 at 23: the addition of 0.5. -/
theorem linear_256_127_at_23_step3 :
    (finite (-13 / 32) + finite 0.5 : JSNumber ℝ) = finite (3 / 32) := by
  rw [finite_add_finite, show (((-13 / 32) : ℝ) + 0.5) = (3 / 32) from by norm_num]
  exact toDouble_eval (-4) 6755399441055744 6755399441055744 (by norm_num) (by norm_num)
    (by rw [abs_of_pos (by norm_num)]; norm_num) (by rw [abs_of_pos (by norm_num)]; norm_num)
    (by norm_num) (by norm_num) (by norm_num) (by norm_num)

/-- Step 4 of the linear mapping of width 256 and center 127 at 23: the multiplication by 255. -/
theorem linear_256_127_at_23_step4 :
    (finite (3 / 32) * finite 255.0 : JSNumber ℝ) = finite (765 / 32) := by
  rw [finite_mul_finite, show (((3 / 32) : ℝ) * 255.0) = (765 / 32) from by norm_num]
  exact toDouble_eval 4 6729011161989120 6729011161989120 (by norm_num) (by norm_num)
    (by rw [abs_of_pos (by norm_num)]; norm_num) (by rw [abs_of_pos (by norm_num)]; norm_num)
    (by norm_num) (by norm_num) (by norm_num) (by norm_num)

/-- The value of the linear mapping of width 256 and center 127 at 23. -/
theorem linear_256_127_at_23 :
    generateLinearVOILUT (256 : ℝ) 127 23 = finite (765 / 32) := by
  unfold generateLinearVOILUT
  rw [linear_256_127_at_23_step1, linear_256_127_at_23_step2, linear_256_127_at_23_step3, linear_256_127_at_23_step4]

/-- Step 1 of the linear mapping of width 256 and center 127 at 29: the subtraction. -/
theorem linear_256_127_at_29_step1 :
    (finite 29 - finite 127 : JSNumber ℝ) = finite (-98) := by
  rw [finite_sub_finite, show ((29 : ℝ) - 127) = (-98) from by norm_num]
  exact toDouble_eval 6 (-6896136929411072) (-6896136929411072) (by norm_num) (by norm_num)
    (by rw [abs_of_neg (by norm_num)]; norm_num) (by rw [abs_of_neg (by norm_num)]; norm_num)
    (by norm_num) (by norm_num) (by norm_num) (by norm_num)

/-- Step 2 of the linear mapping of width 256 and center 127 at 29: the division. -/
theorem linear_256_127_at_29_step2 :
    (finite (-98) / finite 256 : JSNumber ℝ) = finite (-49 / 128) := by
  rw [finite_div_finite _ _ (by norm_num), show (((-98) : ℝ) / 256) = (-49 / 128) from by norm_num]
  exact toDouble_eval (-2) (-6896136929411072) (-6896136929411072) (by norm_num) (by norm_num)
    (by rw [abs_of_neg (by norm_num)]; norm_num) (by rw [abs_of_neg (by norm_num)]; norm_num)
    (by norm_num) (by norm_num) (by norm_num) (by norm_num)

/-- Step 3 of the linear mapping of width 256 and center 127 at 29: the addition of 0.5. -/
theorem linear_256_127_at_29_step3 :
    (finite (-49 / 128) + finite 0.5 : JSNumber ℝ) = finite (15 / 128) := by
  rw [finite_add_finite, show (((-49 / 128) : ℝ) + 0.5) = (15 / 128) from by norm_num]
  exact toDouble_eval (-4) 8444249301319680 8444249301319680 (by norm_num) (by norm_num)
    (by rw [abs_of_pos (by norm_num)]; norm_num) (by rw [abs_of_pos (by norm_num)]; norm_num)
    (by norm_num) (by norm_num) (by norm_num) (by norm_num)

/-- Step 4 of the linear mapping of width 256 and center 127 at 29: the multiplication by 255. -/
theorem linear_256_127_at_29_step4 :
    (finite (15 / 128) * finite 255.0 : JSNumber ℝ) = finite (3825 / 128) := by
  rw [finite_mul_finite, show (((15 / 128) : ℝ) * 255.0) = (3825 / 128) from by norm_num]
  exact toDouble_eval 4 8411263952486400 8411263952486400 (by norm_num) (by norm_num)
    (by rw [abs_of_pos (by norm_num)]; norm_num) (by rw [abs_of_pos (by norm_num)]; norm_num)
    (by norm_num) (by norm_num) (by norm_num) (by norm_num)

/-- The value of the linear mapping of width 256 and center 127 at 29. -/
theorem linear_256_127_at_29 :
    generateLinearVOILUT (256 : ℝ) 127 29 = finite (3825 / 128) := by
  unfold generateLinearVOILUT
  rw [linear_256_127_at_29_step1, linear_256_127_at_29_step2, linear_256_127_at_29_step3, linear_256_127_at_29_step4]

/-- Step 1 of the linear mapping of width 256 and center 127 at 32: the subtraction. -/
theorem linear_256_127_at_32_step1 :
    (finite 32 - finite 127 : JSNumber ℝ) = finite (-95) := by
  rw [finite_sub_finite, show ((32 : ℝ) - 127) = (-95) from by norm_num]
  exact toDouble_eval 6 (-6685030696878080) (-6685030696878080) (by norm_num) (by norm_num)
    (by rw [abs_of_neg (by norm_num)]; norm_num) (by rw [abs_of_neg (by norm_num)]; norm_num)
    (by norm_num) (by norm_num) (by norm_num) (by norm_num)

/-- Step 2 of the linear mapping of width 256 and center 127 at 32: the division. -/
theorem linear_256_127_at_32_step2 :
    (finite (-95) / finite 256 : JSNumber ℝ) = finite (-95 / 256) := by
  rw [finite_div_finite _ _ (by norm_num), show (((-95) : ℝ) / 256) = (-95 / 256) from by norm_num]
  exact toDouble_eval (-2) (-6685030696878080) (-6685030696878080) (by norm_num) (by norm_num)
    (by rw [abs_of_neg (by norm_num)]; norm_num) (by rw [abs_of_neg (by norm_num)]; norm_num)
    (by norm_num) (by norm_num) (by norm_num) (by norm_num)

/-- Step 3 of the linear mapping of width 256 and center 127 at 32: the addition of 0.5. -/
theorem linear_256_127_at_32_step3 :
    (finite (-95 / 256) + finite 0.5 : JSNumber ℝ) = finite (33 / 256) := by
  rw [finite_add_finite, show (((-95 / 256) : ℝ) + 0.5) = (33 / 256) from by norm_num]
  exact toDouble_eval (-3) 4644337115725824 4644337115725824 (by norm_num) (by norm_num)
    (by rw [abs_of_pos (by norm_num)]; norm_num) (by rw [abs_of_pos (by norm_num)]; norm_num)
    (by norm_num) (by norm_num) (by norm_num) (by norm_num)

/-- Step 4 of the linear mapping of width 256 and center 127 at 32: the multiplication by 255. -/
theorem linear_256_127_at_32_step4 :
    (finite (33 / 256) * finite 255.0 : JSNumber ℝ) = finite (8415 / 256) := by
  rw [finite_mul_finite, show (((33 / 256) : ℝ) * 255.0) = (8415 / 256) from by norm_num]
  exact toDouble_eval 5 4626195173867520 4626195173867520 (by norm_num) (by norm_num)
    (by rw [abs_of_pos (by norm_num)]; norm_num) (by rw [abs_of_pos (by norm_num)]; norm_num)
    (by norm_num) (by norm_num) (by norm_num) (by norm_num)

/-- The value of the linear mapping of width 256 and center 127 at 32. -/
theorem linear_256_127_at_32 :
    generateLinearVOILUT (256 : ℝ) 127 32 = finite (8415 / 256) := by
  unfold generateLinearVOILUT
  rw [linear_256_127_at_32_step1, linear_256_127_at_32_step2, linear_256_127_at_32_step3, linear_256_127_at_32_step4]

/-- Step 1 of the bounds of the linear-exact mapping of width 1 and center 10 ^ 17: half the width. -/
theorem linearExact_1_1e17_step1 :
    (finite 1 / finite 2 : JSNumber ℚ) = finite (1 / 2) := by
  rw [finite_div_finite _ _ (by norm_num), show ((1 : ℚ) / 2) = (1 / 2) from by norm_num]
  exact toDouble_eval (-1) 4503599627370496 4503599627370496 (by norm_num) (by norm_num)
    (by rw [abs_of_pos (by norm_num)]; norm_num) (by rw [abs_of_pos (by norm_num)]; norm_num)
    (by norm_num) (by norm_num) (by norm_num) (by norm_num)

/-- Step 2 of the bounds of the linear-exact mapping of width 1 and center 10 ^ 17: the lower bound absorbs the half. -/
theorem linearExact_1_1e17_step2 :
    (finite 100000000000000000 - finite (1 / 2) : JSNumber ℚ) = finite 100000000000000000 := by
  rw [finite_sub_finite, show ((100000000000000000 : ℚ) - (1 / 2)) = (199999999999999999 / 2) from by norm_num]
  exact toDouble_eval 56 6249999999999999 6250000000000000 (by norm_num) (by norm_num)
    (by rw [abs_of_pos (by norm_num)]; norm_num) (by rw [abs_of_pos (by norm_num)]; norm_num)
    (by norm_num) (by norm_num) (by norm_num) (by norm_num)

/-- Step 3 of the bounds of the linear-exact mapping of width 1 and center 10 ^ 17: the upper bound absorbs the half. -/
theorem linearExact_1_1e17_step3 :
    (finite 100000000000000000 + finite (1 / 2) : JSNumber ℚ) = finite 100000000000000000 := by
  rw [finite_add_finite, show ((100000000000000000 : ℚ) + (1 / 2)) = (200000000000000001 / 2) from by norm_num]
  exact toDouble_eval 56 6250000000000000 6250000000000000 (by norm_num) (by norm_num)
    (by rw [abs_of_pos (by norm_num)]; norm_num) (by rw [abs_of_pos (by norm_num)]; norm_num)
    (by norm_num) (by norm_num) (by norm_num) (by norm_num)

/-- With width 1 and center `10 ^ 17` both computed bounds are the center, and
at the computed upper bound the linear-exact mapping takes its first clamp and
returns 0. -/
theorem linearExact_1_1e17_at_upper :
    linearExactHigh (1 : ℚ) 100000000000000000 = finite 100000000000000000 ∧
    generateLinearExactVOILUT (1 : ℚ) 100000000000000000 100000000000000000 = finite 0 := by
  constructor
  · unfold linearExactHigh
    rw [linearExact_1_1e17_step1, linearExact_1_1e17_step3]
  · rw [linearExact_branches]
    unfold linearExactLow
    rw [linearExact_1_1e17_step1, linearExact_1_1e17_step2]
    simp

/-- Step 1 of the linear-exact mapping of width 1 and center 1.7: half the width. -/
theorem linearExact_1_17_step1 :
    (finite 1 / finite 2 : JSNumber ℚ) = finite (1 / 2) := by
  rw [finite_div_finite _ _ (by norm_num), show ((1 : ℚ) / 2) = (1 / 2) from by norm_num]
  exact toDouble_eval (-1) 4503599627370496 4503599627370496 (by norm_num) (by norm_num)
    (by rw [abs_of_pos (by norm_num)]; norm_num) (by rw [abs_of_pos (by norm_num)]; norm_num)
    (by norm_num) (by norm_num) (by norm_num) (by norm_num)

/-- Step 2 of the linear-exact mapping of width 1 and center 1.7: the lower bound. -/
theorem linearExact_1_17_step2 :
    (finite (7656119366529843 / 4503599627370496) - finite (1 / 2) : JSNumber ℚ) = finite (5404319552844595 / 4503599627370496) := by
  rw [finite_sub_finite, show (((7656119366529843 / 4503599627370496) : ℚ) - (1 / 2)) = (5404319552844595 / 4503599627370496) from by norm_num]
  exact toDouble_eval 0 5404319552844595 5404319552844595 (by norm_num) (by norm_num)
    (by rw [abs_of_pos (by norm_num)]; norm_num) (by rw [abs_of_pos (by norm_num)]; norm_num)
    (by norm_num) (by norm_num) (by norm_num) (by norm_num)

/-- Step 3 of the linear-exact mapping of width 1 and center 1.7: the upper bound, a tie rounded to even. -/
theorem linearExact_1_17_step3 :
    (finite (7656119366529843 / 4503599627370496) + finite (1 / 2) : JSNumber ℚ) = finite (2476979795053773 / 1125899906842624) := by
  rw [finite_add_finite, show (((7656119366529843 / 4503599627370496) : ℚ) + (1 / 2)) = (9907919180215091 / 4503599627370496) from by norm_num]
  exact toDouble_eval 1 4953959590107545 4953959590107546 (by norm_num) (by norm_num)
    (by rw [abs_of_pos (by norm_num)]; norm_num) (by rw [abs_of_pos (by norm_num)]; norm_num)
    (by norm_num) (by norm_num) (by norm_num) (by norm_num)

/-- Step 4 of the linear-exact mapping of width 1 and center 1.7: the subtraction at the upper bound. -/
theorem linearExact_1_17_step4 :
    (finite (2476979795053773 / 1125899906842624) - finite (7656119366529843 / 4503599627370496) : JSNumber ℚ) = finite (2251799813685249 / 4503599627370496) := by
  rw [finite_sub_finite, show (((2476979795053773 / 1125899906842624) : ℚ) - (7656119366529843 / 4503599627370496)) = (2251799813685249 / 4503599627370496) from by norm_num]
  exact toDouble_eval (-1) 4503599627370498 4503599627370498 (by norm_num) (by norm_num)
    (by rw [abs_of_pos (by norm_num)]; norm_num) (by rw [abs_of_pos (by norm_num)]; norm_num)
    (by norm_num) (by norm_num) (by norm_num) (by norm_num)

/-- Step 5 of the linear-exact mapping of width 1 and center 1.7: the division. -/
theorem linearExact_1_17_step5 :
    (finite (2251799813685249 / 4503599627370496) / finite 1 : JSNumber ℚ) = finite (2251799813685249 / 4503599627370496) := by
  rw [finite_div_finite _ _ (by norm_num), show (((2251799813685249 / 4503599627370496) : ℚ) / 1) = (2251799813685249 / 4503599627370496) from by norm_num]
  exact toDouble_eval (-1) 4503599627370498 4503599627370498 (by norm_num) (by norm_num)
    (by rw [abs_of_pos (by norm_num)]; norm_num) (by rw [abs_of_pos (by norm_num)]; norm_num)
    (by norm_num) (by norm_num) (by norm_num) (by norm_num)

/-- Step 6 of the linear-exact mapping of width 1 and center 1.7: the addition of 0.5. -/
theorem linearExact_1_17_step6 :
    (finite (2251799813685249 / 4503599627370496) + finite 0.5 : JSNumber ℚ) = finite (4503599627370497 / 4503599627370496) := by
  rw [finite_add_finite, show (((2251799813685249 / 4503599627370496) : ℚ) + 0.5) = (4503599627370497 / 4503599627370496) from by norm_num]
  exact toDouble_eval 0 4503599627370497 4503599627370497 (by norm_num) (by norm_num)
    (by rw [abs_of_pos (by norm_num)]; norm_num) (by rw [abs_of_pos (by norm_num)]; norm_num)
    (by norm_num) (by norm_num) (by norm_num) (by norm_num)

/-- Step 7 of the linear-exact mapping of width 1 and center 1.7: the multiplication by 255. -/
theorem linearExact_1_17_step7 :
    (finite (4503599627370497 / 4503599627370496) * finite 255.0 : JSNumber ℚ) = finite (4486007441326081 / 17592186044416) := by
  rw [finite_mul_finite, show (((4503599627370497 / 4503599627370496) : ℚ) * 255.0) = (1148417904979476735 / 4503599627370496) from by norm_num]
  exact toDouble_eval 7 8972014882652161 8972014882652162 (by norm_num) (by norm_num)
    (by rw [abs_of_pos (by norm_num)]; norm_num) (by rw [abs_of_pos (by norm_num)]; norm_num)
    (by norm_num) (by norm_num) (by norm_num) (by norm_num)

/-- With width 1 and center the double nearest 1.7, the computed upper bound
is the input `(2476979795053773 / 1125899906842624)`, where the linear-exact mapping takes its formula branch
and returns a value above 255. -/
theorem linearExact_1_17_at_upper :
    linearExactHigh (1 : ℚ) (7656119366529843 / 4503599627370496) = finite (2476979795053773 / 1125899906842624) ∧
    generateLinearVOILUT (1 : ℚ) (7656119366529843 / 4503599627370496) (2476979795053773 / 1125899906842624) = finite (4486007441326081 / 17592186044416) ∧
    generateLinearExactVOILUT (1 : ℚ) (7656119366529843 / 4503599627370496) (2476979795053773 / 1125899906842624) = finite (4486007441326081 / 17592186044416) := by
  have hhigh : linearExactHigh (1 : ℚ) (7656119366529843 / 4503599627370496) = finite (2476979795053773 / 1125899906842624) := by
    unfold linearExactHigh
    rw [linearExact_1_17_step1, linearExact_1_17_step3]
  have hlin : generateLinearVOILUT (1 : ℚ) (7656119366529843 / 4503599627370496) (2476979795053773 / 1125899906842624) = finite (4486007441326081 / 17592186044416) := by
    unfold generateLinearVOILUT
    rw [linearExact_1_17_step4, linearExact_1_17_step5, linearExact_1_17_step6,
      linearExact_1_17_step7]
  refine ⟨hhigh, hlin, ?_⟩
  rw [linearExact_branches, hhigh, hlin]
  unfold linearExactLow
  rw [linearExact_1_17_step1, linearExact_1_17_step2]
  rw [if_neg (by rw [finite_le_finite]; norm_num), if_neg (by rw [finite_lt_finite]; norm_num)]

/-- Step 1 of the sigmoid exponent of width 255 and center 127 at 2500: the subtraction. -/
theorem sigmoid_255_127_at_2500_step1 :
    (finite 2500 - finite 127 : JSNumber ℝ) = finite 2373 := by
  rw [finite_sub_finite, show ((2500 : ℝ) - 127) = 2373 from by norm_num]
  exact toDouble_eval 11 5218282185424896 5218282185424896 (by norm_num) (by norm_num)
    (by rw [abs_of_pos (by norm_num)]; norm_num) (by rw [abs_of_pos (by norm_num)]; norm_num)
    (by norm_num) (by norm_num) (by norm_num) (by norm_num)

/-- Step 2 of the sigmoid exponent of width 255 and center 127 at 2500: the multiplication by -4. -/
theorem sigmoid_255_127_at_2500_step2 :
    (finite (-4) * finite 2373 : JSNumber ℝ) = finite (-9492) := by
  rw [finite_mul_finite, show (((-4) : ℝ) * 2373) = (-9492) from by norm_num]
  exact toDouble_eval 13 (-5218282185424896) (-5218282185424896) (by norm_num) (by norm_num)
    (by rw [abs_of_neg (by norm_num)]; norm_num) (by rw [abs_of_neg (by norm_num)]; norm_num)
    (by norm_num) (by norm_num) (by norm_num) (by norm_num)

/-- Step 3 of the sigmoid exponent of width 255 and center 127 at 2500: the division. -/
theorem sigmoid_255_127_at_2500_step3 :
    (finite (-9492) / finite 255 : JSNumber ℝ) = finite (-5238746037132445 / 140737488355328) := by
  rw [finite_div_finite _ _ (by norm_num), show (((-9492) : ℝ) / 255) = (-3164 / 85) from by norm_num]
  exact toDouble_eval 5 (-5238746037132445) (-5238746037132445) (by norm_num) (by norm_num)
    (by rw [abs_of_neg (by norm_num)]; norm_num) (by rw [abs_of_neg (by norm_num)]; norm_num)
    (by norm_num) (by norm_num) (by norm_num) (by norm_num)

/-- The sigmoid mapping of width 255 and center 127 returns 255 at 2500: the
exponential of the exponent is below `2 ^ (-53)` and is absorbed by the 1. -/
theorem sigmoid_255_127_at_2500 :
    generateSigmoidVOILUT (mathExp Real.exp) 255 127 2500 = finite 255 :=
  sigmoid_saturates Real.exp 255 127 2500 (-5238746037132445 / 140737488355328)
    (by rw [sigmoid_255_127_at_2500_step1, sigmoid_255_127_at_2500_step2,
      sigmoid_255_127_at_2500_step3])
    (Real.exp_nonneg _) (real_exp_small (by norm_num))

/-- Step 1 of the sigmoid exponent of width 255 and center 127 at 3000: the subtraction. -/
theorem sigmoid_255_127_at_3000_step1 :
    (finite 3000 - finite 127 : JSNumber ℝ) = finite 2873 := by
  rw [finite_sub_finite, show ((3000 : ℝ) - 127) = 2873 from by norm_num]
  exact toDouble_eval 11 6317793813200896 6317793813200896 (by norm_num) (by norm_num)
    (by rw [abs_of_pos (by norm_num)]; norm_num) (by rw [abs_of_pos (by norm_num)]; norm_num)
    (by norm_num) (by norm_num) (by norm_num) (by norm_num)

/-- Step 2 of the sigmoid exponent of width 255 and center 127 at 3000: the multiplication by -4. -/
theorem sigmoid_255_127_at_3000_step2 :
    (finite (-4) * finite 2873 : JSNumber ℝ) = finite (-11492) := by
  rw [finite_mul_finite, show (((-4) : ℝ) * 2873) = (-11492) from by norm_num]
  exact toDouble_eval 13 (-6317793813200896) (-6317793813200896) (by norm_num) (by norm_num)
    (by rw [abs_of_neg (by norm_num)]; norm_num) (by rw [abs_of_neg (by norm_num)]; norm_num)
    (by norm_num) (by norm_num) (by norm_num) (by norm_num)

/-- Step 3 of the sigmoid exponent of width 255 and center 127 at 3000: the division. -/
theorem sigmoid_255_127_at_3000_step3 :
    (finite (-11492) / finite 255 : JSNumber ℝ) = finite (-6342569475213449 / 140737488355328) := by
  rw [finite_div_finite _ _ (by norm_num), show (((-11492) : ℝ) / 255) = (-676 / 15) from by norm_num]
  exact toDouble_eval 5 (-6342569475213449) (-6342569475213449) (by norm_num) (by norm_num)
    (by rw [abs_of_neg (by norm_num)]; norm_num) (by rw [abs_of_neg (by norm_num)]; norm_num)
    (by norm_num) (by norm_num) (by norm_num) (by norm_num)

/-- The sigmoid mapping of width 255 and center 127 returns 255 at 3000: the
exponential of the exponent is below `2 ^ (-53)` and is absorbed by the 1. -/
theorem sigmoid_255_127_at_3000 :
    generateSigmoidVOILUT (mathExp Real.exp) 255 127 3000 = finite 255 :=
  sigmoid_saturates Real.exp 255 127 3000 (-6342569475213449 / 140737488355328)
    (by rw [sigmoid_255_127_at_3000_step1, sigmoid_255_127_at_3000_step2,
      sigmoid_255_127_at_3000_step3])
    (Real.exp_nonneg _) (real_exp_small (by norm_num))

end Evaluations

/-! ## Claims -/

section Claims

variable {K : Type} [LinearOrderedField K] [FloorRing K]

open JSNumber

/-- C1: for every enabled element (hence every buffer and column stride), every
`x`, `y` and all natural `width`, `height`, `getStoredPixels` returns a sequence
of length `width * height` whose entry at `row * width + column` is the buffer
read at `(row + round y) * columns + (column + round x)` with
`round t = ⌊t + 1/2⌋`; an index outside the buffer gives the absent entry
`none`, and the call does not fail. -/
theorem getStoredPixels_region (w : World K) (el : Element) (ee : EnabledElement K)
    (hee : w.enabledElements el = some ee) (x y : K) (width height : Nat)
    (options : Options) :
    (∀ i : Int, i < 0 ∨ ((getPixelData w ee options.hqImageId).length : Int) ≤ i →
        jsIndex (getPixelData w ee options.hqImageId) i = none) ∧
    ∃ out : List (Option K),
      getStoredPixels w (some el) x y width height options = .ok out ∧
      out.length = width * height ∧
      ∀ row column : Nat, row < height → column < width →
        out[row * width + column]?
          = some (jsIndex (getPixelData w ee options.hqImageId)
              (((row : Int) + ⌊y + 1 / 2⌋) * ee.image.columns
                + ((column : Int) + ⌊x + 1 / 2⌋))) := by
  refine ⟨?_, _, getStoredPixels_ok w el ee hee x y width height options,
    regionSamples_length _ _ _ _ _ _, ?_⟩
  · intro i hi
    unfold jsIndex
    split
    · rcases hi with hi | hi
      · omega
      · apply List.getElem?_eq_none
        omega
    · rfl
  · intro row column hrow hcol
    exact regionSamples_get _ _ _ _ _ _ row column hrow hcol

/-- Witness of C1 on the fixture of `getStoredPixels_test.js`: the region
`(1, 1, 2, 2)` of the 3 by 3 buffer gives `[5, 6, 8, 9]`. -/
theorem getStoredPixels_region_witness :
    (testWorld ℚ).enabledElements testElement = some (testEnabledElement ℚ) ∧
    getStoredPixels (testWorld ℚ) (some testElement) 1 1 2 2 defaultOptions
      = .ok [some 5, some 6, some 8, some 9] ∧
    ∃ out : List (Option ℚ),
      getStoredPixels (testWorld ℚ) (some testElement) 1 1 2 2 defaultOptions = .ok out ∧
      out.length = 2 * 2 ∧
      ∀ row column : Nat, row < 2 → column < 2 →
        out[row * 2 + column]?
          = some (jsIndex
              (getPixelData (testWorld ℚ) (testEnabledElement ℚ) defaultOptions.hqImageId)
              (((row : Int) + ⌊(1 : ℚ) + 1 / 2⌋) * (testEnabledElement ℚ).image.columns
                + ((column : Int) + ⌊(1 : ℚ) + 1 / 2⌋))) := by
  refine ⟨rfl, ?_, (getStoredPixels_region (testWorld ℚ) testElement (testEnabledElement ℚ) rfl
    1 1 2 2 defaultOptions).2⟩
  rw [getStoredPixels_ok (testWorld ℚ) testElement (testEnabledElement ℚ) rfl, mathRound_one]
  simp [regionSamples, rowSamples, sampleAt, jsIndex, getPixelData, defaultOptions,
    testEnabledElement, testImage, List.range_succ]

/-- C2: for every enabled element whose viewport has no modality table, and
every region, `getPixels` succeeds with the stored pixels of `getStoredPixels`
on the same arguments mapped, in order and keeping the length, through
`raw * slope + intercept` for the resolved pair, when `getModalityLUT` without a
table is that affine map. -/
theorem getPixels_affine (getModalityLUT : K → K → Option LUT → Option K → Option K)
    (hM : ∀ (slope intercept : K) (v : Option K),
      getModalityLUT slope intercept none v = v.map (fun raw => raw * slope + intercept))
    (w : World K) (el : Element) (ee : EnabledElement K)
    (hee : w.enabledElements el = some ee) (hLUT : ee.viewport.modalityLUT = none)
    (x y : K) (width height : Nat) (options : Options) :
    ∃ stored out : List (Option K),
      getStoredPixels w (some el) x y width height options = .ok stored ∧
      getPixels getModalityLUT w (some el) x y width height options = .ok out ∧
      out.length = stored.length ∧
      ∀ i : Nat, i < stored.length →
        out[i]? = (stored[i]?).map (Option.map (fun raw =>
          raw * (getSlopeAndIntercept w ee options.hqImageId).1
            + (getSlopeAndIntercept w ee options.hqImageId).2)) := by
  refine ⟨_, _, getStoredPixels_ok w el ee hee x y width height options,
    getPixels_ok getModalityLUT w el ee hee x y width height options, by simp, ?_⟩
  intro i _
  rw [List.getElem?_map, hLUT]
  congr 1
  funext v
  exact hM _ _ v

/-- Witness of C2 on the fixture of `getPixels_test.js`: slope 3, intercept 5,
region `(1, 1, 2, 2)` gives `[20, 23, 29, 32]`. -/
theorem getPixels_affine_witness :
    getPixels linearModalityLUT (testWorld ℚ) (some testElement) 1 1 2 2 defaultOptions
      = .ok [some 20, some 23, some 29, some 32] ∧
    ∃ stored out : List (Option ℚ),
      getStoredPixels (testWorld ℚ) (some testElement) 1 1 2 2 defaultOptions = .ok stored ∧
      getPixels linearModalityLUT (testWorld ℚ) (some testElement) 1 1 2 2 defaultOptions
        = .ok out ∧
      out.length = stored.length ∧
      ∀ i : Nat, i < stored.length →
        out[i]? = (stored[i]?).map (Option.map (fun raw =>
          raw * (getSlopeAndIntercept (testWorld ℚ) (testEnabledElement ℚ)
              defaultOptions.hqImageId).1
            + (getSlopeAndIntercept (testWorld ℚ) (testEnabledElement ℚ)
              defaultOptions.hqImageId).2)) := by
  refine ⟨?_, getPixels_affine linearModalityLUT (fun _ _ _ => rfl) (testWorld ℚ) testElement
    (testEnabledElement ℚ) rfl rfl 1 1 2 2 defaultOptions⟩
  rw [getPixels_ok linearModalityLUT (testWorld ℚ) testElement (testEnabledElement ℚ) rfl,
    mathRound_one]
  simp [regionSamples, rowSamples, sampleAt, jsIndex, getPixelData, getSlopeAndIntercept,
    linearModalityLUT, defaultOptions, testEnabledElement, testImage, List.range_succ]
  norm_num

/-- Counterexample to C3 as stated: on the fixture of `getPixels_test.js`
(window width 256, center 127, slope 3, intercept 5) `getPixels` returns
`[20, 23, 29, 32]`, while the values `voi (raw * slope + intercept)` of the
specified display pipeline are `[20.91796875, 23.90625, 29.8828125,
32.87109375]`. -/
theorem getPixels_applies_no_voi :
    getPixels linearModalityLUT (testWorld ℝ) (some testElement) 1 1 2 2 defaultOptions
      = .ok [some 20, some 23, some 29, some 32] ∧
    displayPixelsSpec (mathExp Real.exp) false (testWorld ℝ) (some testElement) 1 1 2 2
        defaultOptions
      = .ok [some (finite 20.91796875), some (finite 23.90625), some (finite 29.8828125),
          some (finite 32.87109375)] ∧
    asNumbers
        (getPixels linearModalityLUT (testWorld ℝ) (some testElement) 1 1 2 2 defaultOptions)
      ≠ displayPixelsSpec (mathExp Real.exp) false (testWorld ℝ) (some testElement) 1 1 2 2
          defaultOptions := by
  have hget : getPixels linearModalityLUT (testWorld ℝ) (some testElement) 1 1 2 2
      defaultOptions = .ok [some 20, some 23, some 29, some 32] := by
    rw [getPixels_ok linearModalityLUT (testWorld ℝ) testElement (testEnabledElement ℝ) rfl,
      mathRound_one]
    simp [regionSamples, rowSamples, sampleAt, jsIndex, getPixelData, getSlopeAndIntercept,
      linearModalityLUT, defaultOptions, testEnabledElement, testImage, List.range_succ]
    norm_num
  have h20 : (5 * 3 + 5 : ℝ) = 20 := by norm_num
  have h23 : (6 * 3 + 5 : ℝ) = 23 := by norm_num
  have h29 : (8 * 3 + 5 : ℝ) = 29 := by norm_num
  have h32 : (9 * 3 + 5 : ℝ) = 32 := by norm_num
  have hspec : displayPixelsSpec (mathExp Real.exp) false (testWorld ℝ) (some testElement)
      1 1 2 2 defaultOptions
      = .ok [some (finite 20.91796875), some (finite 23.90625), some (finite 29.8828125),
          some (finite 32.87109375)] := by
    simp only [displayPixelsSpec,
      getStoredPixels_ok (testWorld ℝ) testElement (testEnabledElement ℝ) rfl, mathRound_one]
    simp [getEnabledElement, testWorld, regionSamples, rowSamples, sampleAt, jsIndex,
      getPixelData, getSlopeAndIntercept, getVOILut, defaultOptions,
      testEnabledElement, testImage, List.range_succ]
    rw [h20, h23, h29, h32, linear_256_127_at_20, linear_256_127_at_23, linear_256_127_at_29,
      linear_256_127_at_32]
    norm_num
  refine ⟨hget, hspec, ?_⟩
  rw [hget, hspec]
  simp [asNumbers]
  norm_num

/-- C3, amended: `getPixels` maps each stored pixel, in order and keeping the
length, through the modality function `getModalityLUT slope intercept
modalityLUT` alone; no VOI function takes part: two registries whose images
differ only in window width, window center, VOI table and VOI kind give the
same result. -/
theorem getPixels_modality_only
    (getModalityLUT : K → K → Option LUT → Option K → Option K)
    (w : World K) (el : Element) (ee : EnabledElement K)
    (hee : w.enabledElements el = some ee)
    (x y : K) (width height : Nat) (options : Options) :
    (∃ stored : List (Option K),
      getStoredPixels w (some el) x y width height options = .ok stored ∧
      getPixels getModalityLUT w (some el) x y width height options
        = .ok (stored.map (getModalityLUT (getSlopeAndIntercept w ee options.hqImageId).1
            (getSlopeAndIntercept w ee options.hqImageId).2 ee.viewport.modalityLUT))) ∧
    ∀ (windowWidth windowCenter : K) (voiLUT : Option LUT) (voiLUTFunction : Option String),
      getPixels getModalityLUT
          (withEnabledElement w el
            (withVOISettings ee windowWidth windowCenter voiLUT voiLUTFunction))
          (some el) x y width height options
        = getPixels getModalityLUT w (some el) x y width height options := by
  refine ⟨⟨_, getStoredPixels_ok w el ee hee x y width height options,
    getPixels_ok getModalityLUT w el ee hee x y width height options⟩, ?_⟩
  intro windowWidth windowCenter voiLUT voiLUTFunction
  rw [getPixels_ok getModalityLUT w el ee hee,
    getPixels_ok getModalityLUT _ el
      (withVOISettings ee windowWidth windowCenter voiLUT voiLUTFunction)
      (by simp [withEnabledElement])]
  cases hq : options.hqImageId <;>
    simp [getPixelData, getSlopeAndIntercept, withEnabledElement, withVOISettings]

/-- Witness of the amended C3 on the fixture of `getPixels_test.js`: with the
window, a VOI table and the sigmoid kind set, the result is unchanged. -/
theorem getPixels_modality_only_witness :
    (testWorld ℚ).enabledElements testElement = some (testEnabledElement ℚ) ∧
    getPixels linearModalityLUT
        (withEnabledElement (testWorld ℚ) testElement
          (withVOISettings (testEnabledElement ℚ) 100 50 (some testVoiLUT) (some "SIGMOID")))
        (some testElement) 1 1 2 2 defaultOptions
      = getPixels linearModalityLUT (testWorld ℚ) (some testElement) 1 1 2 2 defaultOptions :=
  ⟨rfl, (getPixels_modality_only linearModalityLUT (testWorld ℚ) testElement
    (testEnabledElement ℚ) rfl 1 1 2 2 defaultOptions).2 100 50 (some testVoiLUT)
      (some "SIGMOID")⟩

/-- C4: `getVOILut` selects by first match: kind `SIGMOID` gives the sigmoid
mapping whatever the table; otherwise a supplied table gives the table-driven
mapping, also for kind `LINEAR_EXACT`; otherwise kind `LINEAR_EXACT` gives the
linear-exact mapping; otherwise the result is the unclamped linear mapping. -/
theorem getVOILut_selection (exp : JSNumber K → JSNumber K) (windowWidth windowCenter : K)
    (roundModalityLUTValues : Bool) :
    (∀ voiLUT : Option LUT,
      getVOILut exp windowWidth windowCenter voiLUT roundModalityLUTValues (some "SIGMOID")
        = generateSigmoidVOILUT exp windowWidth windowCenter) ∧
    (∀ (table : LUT) (voiLUTFunction : Option String), voiLUTFunction ≠ some "SIGMOID" →
      getVOILut exp windowWidth windowCenter (some table) roundModalityLUTValues voiLUTFunction
        = fun v => finite (generateNonLinearVOILUT table roundModalityLUTValues v)) ∧
    (∀ table : LUT,
      getVOILut exp windowWidth windowCenter (some table) roundModalityLUTValues
          (some "LINEAR_EXACT")
        = fun v => finite (generateNonLinearVOILUT table roundModalityLUTValues v)) ∧
    getVOILut exp windowWidth windowCenter none roundModalityLUTValues (some "LINEAR_EXACT")
      = generateLinearExactVOILUT windowWidth windowCenter ∧
    (∀ voiLUTFunction : Option String, voiLUTFunction ≠ some "SIGMOID" →
      voiLUTFunction ≠ some "LINEAR_EXACT" →
      getVOILut exp windowWidth windowCenter none roundModalityLUTValues voiLUTFunction
        = generateLinearVOILUT windowWidth windowCenter) := by
  refine ⟨?_, ?_, ?_, ?_, ?_⟩
  · intro voiLUT
    simp [getVOILut]
  · intro table voiLUTFunction h
    simp [getVOILut, h]
  · intro table
    simp [getVOILut]
  · simp [getVOILut]
  · intro voiLUTFunction h1 h2
    simp [getVOILut, h1, h2]

/-- Witness of C4 on the fixture of `getVOILut_test.js` (width 255, center 127,
table `[0, 128, 255]`): at the input 127 the sigmoid gives 127.5 although a
table is supplied, the table gives 255 for the kinds `LINEAR` and
`LINEAR_EXACT`, and without a table the unclamped linear mapping gives 256.5 at
256 where the linear-exact one gives 255. `Math.exp` is the correctly rounded
real exponential. -/
theorem getVOILut_selection_witness :
    getVOILut (mathExp Real.exp) 255 127 (some testVoiLUT) false (some "SIGMOID") 127
      = finite 127.5 ∧
    getVOILut (mathExp Real.exp) 255 127 (some testVoiLUT) false (some "LINEAR") 127
      = finite 255 ∧
    getVOILut (mathExp Real.exp) 255 127 (some testVoiLUT) false (some "LINEAR_EXACT") 127
      = finite 255 ∧
    getVOILut (mathExp Real.exp) 255 127 none false (some "LINEAR_EXACT") 256 = finite 255 ∧
    getVOILut (mathExp Real.exp) 255 127 none false none 256 = finite 256.5 := by
  obtain ⟨h1, h2, h3, h4, h5⟩ :=
    getVOILut_selection (mathExp Real.exp) (255 : ℝ) 127 false
  rw [h1, h2 testVoiLUT (some "LINEAR") (by decide), h3, h4, h5 none (by decide) (by decide)]
  refine ⟨?_, ?_, ?_, ?_, ?_⟩
  · exact sigmoid_at_center (mathExp Real.exp) (mathExp_zero Real.exp Real.exp_zero) 255 127
      (by norm_num)
  · simp [generateNonLinearVOILUT, bitsPerEntry, mathMax, testVoiLUT, binaryStringLength,
      jsShiftRight, jsIndex, toInt32, Int.shiftRight_eq_div_pow]
    norm_num
  · simp [generateNonLinearVOILUT, bitsPerEntry, mathMax, testVoiLUT, binaryStringLength,
      jsShiftRight, jsIndex, toInt32, Int.shiftRight_eq_div_pow]
    norm_num
  · rw [linearExact_exact (255 : ℝ) 127
      (isDouble_dyadic 255 (-1) (by norm_num) (by norm_num) (by norm_num) (by norm_num))
      (isDouble_dyadic (-1) (-1) (by norm_num) (by norm_num) (by norm_num) (by norm_num))
      (isDouble_dyadic 509 (-1) (by norm_num) (by norm_num) (by norm_num) (by norm_num))
      256]
    norm_num
  · rw [linear_255_127_at_256_real]
    norm_num

/-- C5: when the image cache holds a loaded entry for `hqImageId`,
`getStoredPixels` reads the alternate image's buffer at
`(row + round y) * columns + (column + round x)`, with `columns` the column
count of the active image, and `getPixels` maps those samples through the
modality function built from the alternate image's slope and intercept; when
that function is the affine map and the viewport has no modality table, the
entries are `raw * slope + intercept` for the alternate pair. -/
theorem getPixels_uses_loaded_alternate
    (getModalityLUT : K → K → Option LUT → Option K → Option K)
    (w : World K) (el : Element) (ee : EnabledElement K)
    (hee : w.enabledElements el = some ee) (hqImageId : String) (alt : CachedImage K)
    (hcache : w.imageCache hqImageId = some alt) (hloaded : alt.loaded = true)
    (x y : K) (width height : Nat) :
    ∃ stored : List (Option K),
      getStoredPixels w (some el) x y width height ⟨some hqImageId⟩ = .ok stored ∧
      stored.length = width * height ∧
      (∀ row column : Nat, row < height → column < width →
        stored[row * width + column]?
          = some (jsIndex (alt.image.getPixelData ())
              (((row : Int) + ⌊y + 1 / 2⌋) * ee.image.columns
                + ((column : Int) + ⌊x + 1 / 2⌋)))) ∧
      getPixels getModalityLUT w (some el) x y width height ⟨some hqImageId⟩
        = .ok (stored.map
            (getModalityLUT alt.image.slope alt.image.intercept ee.viewport.modalityLUT)) ∧
      ((∀ (slope intercept : K) (v : Option K),
          getModalityLUT slope intercept none v
            = v.map (fun raw => raw * slope + intercept)) →
        ee.viewport.modalityLUT = none →
        getPixels getModalityLUT w (some el) x y width height ⟨some hqImageId⟩
          = .ok (stored.map
              (Option.map (fun raw => raw * alt.image.slope + alt.image.intercept)))) := by
  have hpd := getPixelData_loaded w ee hqImageId alt hcache hloaded
  have hsi := getSlopeAndIntercept_loaded w ee hqImageId alt hcache hloaded
  have hget : getPixels getModalityLUT w (some el) x y width height ⟨some hqImageId⟩
      = .ok ((regionSamples (alt.image.getPixelData ()) ee.image.columns
          (mathRound x) (mathRound y) width height).map
            (getModalityLUT alt.image.slope alt.image.intercept ee.viewport.modalityLUT)) := by
    rw [getPixels_ok getModalityLUT w el ee hee]
    simp only [hpd, hsi]
  refine ⟨regionSamples (alt.image.getPixelData ()) ee.image.columns
      (mathRound x) (mathRound y) width height, ?_, regionSamples_length _ _ _ _ _ _,
    fun row column hrow hcol => regionSamples_get _ _ _ _ _ _ row column hrow hcol,
    hget, ?_⟩
  · rw [getStoredPixels_ok w el ee hee]
    simp only [hpd]
  · intro hM hLUT
    rw [hget, hLUT]
    congr 2
    funext v
    exact hM _ _ v

/-- Witness of C5 on the fixture of `getPixels_test.js`: the active image has
slope 3 and intercept 5, the loaded alternate has samples 10 to 18, slope 2 and
intercept -1; the region `(1, 1, 2, 2)` gives `[27, 29, 33, 35]`. -/
theorem getPixels_uses_loaded_alternate_witness :
    getStoredPixels (testWorld ℚ) (some testElement) 1 1 2 2 ⟨some "hq-exampleImageId"⟩
      = .ok [some 14, some 15, some 17, some 18] ∧
    getPixels linearModalityLUT (testWorld ℚ) (some testElement) 1 1 2 2
        ⟨some "hq-exampleImageId"⟩
      = .ok [some 27, some 29, some 33, some 35] := by
  obtain ⟨stored, h1, -, h3, -, h5⟩ :=
    getPixels_uses_loaded_alternate linearModalityLUT (testWorld ℚ) testElement
      (testEnabledElement ℚ) rfl "hq-exampleImageId" ⟨hqImage ℚ, true⟩ rfl rfl 1 1 2 2
  have hs : stored = [some 14, some 15, some 17, some 18] := by
    have e := getStoredPixels_ok (testWorld ℚ) testElement (testEnabledElement ℚ) rfl
      1 1 2 2 ⟨some "hq-exampleImageId"⟩
    rw [h1, mathRound_one] at e
    simp only [Except.ok.injEq] at e
    rw [e]
    simp [regionSamples, rowSamples, sampleAt, jsIndex, getPixelData, testWorld, hqImage,
      testEnabledElement, testImage, List.range_succ]
  refine ⟨by rw [h1, hs], ?_⟩
  rw [h5 (fun _ _ _ => rfl) rfl, hs]
  simp [hqImage]
  norm_num

/-- C6: when `hqImageId` is missing from the image cache, or cached with
`loaded = false`, both entry points return what they return without the option,
and for an enabled element that is a result, not an error. -/
theorem getPixels_ignores_unloaded_alternate
    (getModalityLUT : K → K → Option LUT → Option K → Option K)
    (w : World K) (element : Option Element) (hqImageId : String)
    (h : w.imageCache hqImageId = none
      ∨ ∃ c, w.imageCache hqImageId = some c ∧ c.loaded = false)
    (x y : K) (width height : Nat) :
    getStoredPixels w element x y width height ⟨some hqImageId⟩
        = getStoredPixels w element x y width height defaultOptions ∧
    getPixels getModalityLUT w element x y width height ⟨some hqImageId⟩
        = getPixels getModalityLUT w element x y width height defaultOptions ∧
    ∀ (el : Element) (ee : EnabledElement K), element = some el →
      w.enabledElements el = some ee →
      ∃ stored : List (Option K),
        getStoredPixels w element x y width height ⟨some hqImageId⟩ = .ok stored ∧
        getPixels getModalityLUT w element x y width height ⟨some hqImageId⟩
          = .ok (stored.map
              (getModalityLUT ee.image.slope ee.image.intercept ee.viewport.modalityLUT)) := by
  have hstored : getStoredPixels w element x y width height ⟨some hqImageId⟩
      = getStoredPixels w element x y width height defaultOptions := by
    cases element with
    | none => rfl
    | some el =>
      cases hee : w.enabledElements el with
      | none => simp [getStoredPixels, getEnabledElement, hee]
      | some ee =>
        rw [getStoredPixels_ok w el ee hee, getStoredPixels_ok w el ee hee]
        simp only [defaultOptions, getPixelData_fallback w ee hqImageId h]
  have hpix : getPixels getModalityLUT w element x y width height ⟨some hqImageId⟩
      = getPixels getModalityLUT w element x y width height defaultOptions := by
    cases element with
    | none => rfl
    | some el =>
      cases hee : w.enabledElements el with
      | none => simp [getPixels, getStoredPixels, getEnabledElement, hee]
      | some ee =>
        rw [getPixels_ok getModalityLUT w el ee hee, getPixels_ok getModalityLUT w el ee hee]
        simp only [defaultOptions, getPixelData_fallback w ee hqImageId h,
          getSlopeAndIntercept_fallback w ee hqImageId h]
  refine ⟨hstored, hpix, ?_⟩
  intro el ee hel hee
  subst hel
  refine ⟨_, getStoredPixels_ok w el ee hee x y width height ⟨some hqImageId⟩, ?_⟩
  rw [getPixels_ok getModalityLUT w el ee hee]
  simp only [getSlopeAndIntercept_fallback w ee hqImageId h]
  simp [getSlopeAndIntercept]

/-- Witness of C6 on the fixture of `getPixels_test.js`: with the pending
alternate (slope 10, intercept 1000, samples 100 to 108) the region
`(1, 1, 2, 2)` still gives `[5, 6, 8, 9]` and `[20, 23, 29, 32]`. -/
theorem getPixels_ignores_unloaded_alternate_witness :
    getStoredPixels (testWorld ℚ) (some testElement) 1 1 2 2 ⟨some "hq-not-loaded"⟩
      = .ok [some 5, some 6, some 8, some 9] ∧
    getPixels linearModalityLUT (testWorld ℚ) (some testElement) 1 1 2 2
        ⟨some "hq-not-loaded"⟩
      = .ok [some 20, some 23, some 29, some 32] := by
  obtain ⟨h1, h2, -⟩ :=
    getPixels_ignores_unloaded_alternate linearModalityLUT (testWorld ℚ) (some testElement)
      "hq-not-loaded" (Or.inr ⟨⟨pendingImage ℚ, false⟩, rfl, rfl⟩) 1 1 2 2
  rw [h1, h2, getStoredPixels_ok (testWorld ℚ) testElement (testEnabledElement ℚ) rfl,
    getPixels_ok linearModalityLUT (testWorld ℚ) testElement (testEnabledElement ℚ) rfl,
    mathRound_one]
  constructor
  · simp [regionSamples, rowSamples, sampleAt, jsIndex, getPixelData, defaultOptions,
      testEnabledElement, testImage, List.range_succ]
  · simp [regionSamples, rowSamples, sampleAt, jsIndex, getPixelData, getSlopeAndIntercept,
      linearModalityLUT, defaultOptions, testEnabledElement, testImage, List.range_succ]
    norm_num

/-- C7: with an undefined element, `getStoredPixels` fails with its error and
returns no sequence, and `getPixels` fails with the same error, for every `x`,
`y`, `width`, `height` and options, whatever the registry and the cache. -/
theorem getPixels_undefined_element
    (getModalityLUT : K → K → Option LUT → Option K → Option K)
    (w : World K) (x y : K) (width height : Nat) (options : Options) :
    getStoredPixels w none x y width height options
        = .error "getStoredPixels: parameter element must not be undefined" ∧
    getPixels getModalityLUT w none x y width height options
        = .error "getStoredPixels: parameter element must not be undefined" :=
  ⟨rfl, rfl⟩

/-- C8: for every non-empty table of non-negative integers and every integer
input `v`, with or without rounding, the table-driven VOI function returns the
entry at `clamp (v - firstValueMapped) 0 (len - 1)` shifted right by
`bitLength (max lut) - 8`: at or below `firstValueMapped` that is the first
entry, at or above `firstValueMapped + len - 1` the last entry, and strictly
between the entry at `v - firstValueMapped`. -/
theorem generateNonLinearVOILUT_lookup (voiLUT : LUT) (hne : voiLUT.lut ≠ [])
    (hnonneg : ∀ e ∈ voiLUT.lut, 0 ≤ e) (roundModalityLUTValues : Bool) (v : Int) :
    generateNonLinearVOILUT voiLUT roundModalityLUTValues (v : K)
        = ((tableVOISpec voiLUT v : Int) : K) ∧
    (v ≤ voiLUT.firstValueMapped →
      ∃ e, voiLUT.lut.head? = some e ∧
        generateNonLinearVOILUT voiLUT roundModalityLUTValues (v : K)
          = ((jsShiftRight (some e) (tableShiftSpec voiLUT.lut) : Int) : K)) ∧
    (voiLUT.firstValueMapped + (voiLUT.lut.length : Int) - 1 ≤ v →
      ∃ e, voiLUT.lut.getLast? = some e ∧
        generateNonLinearVOILUT voiLUT roundModalityLUTValues (v : K)
          = ((jsShiftRight (some e) (tableShiftSpec voiLUT.lut) : Int) : K)) ∧
    (voiLUT.firstValueMapped < v →
      v < voiLUT.firstValueMapped + (voiLUT.lut.length : Int) - 1 →
      ∃ e, voiLUT.lut[(v - voiLUT.firstValueMapped).toNat]? = some e ∧
        generateNonLinearVOILUT voiLUT roundModalityLUTValues (v : K)
          = ((jsShiftRight (some e) (tableShiftSpec voiLUT.lut) : Int) : K)) := by
  have hlen : 0 < voiLUT.lut.length := List.length_pos.mpr hne
  have hmain : generateNonLinearVOILUT voiLUT roundModalityLUTValues (v : K)
      = ((tableVOISpec voiLUT v : Int) : K) := by
    rw [generateNonLinearVOILUT_intCast voiLUT hne, jsShiftRight_shift_eq _ hne hnonneg]
    rfl
  refine ⟨hmain, ?_, ?_, ?_⟩
  · intro hv
    have hidx : max 0 (min (v - voiLUT.firstValueMapped) ((voiLUT.lut.length : Int) - 1))
        = 0 := by omega
    refine ⟨voiLUT.lut[0], by simp [List.head?_eq_getElem?, List.getElem?_eq_getElem hlen], ?_⟩
    rw [hmain, tableVOISpec]
    simp only [hidx]
    simp [jsIndex, List.getElem?_eq_getElem hlen]
  · intro hv
    have hidx : max 0 (min (v - voiLUT.firstValueMapped) ((voiLUT.lut.length : Int) - 1))
        = (voiLUT.lut.length : Int) - 1 := by omega
    have hlast : voiLUT.lut.length - 1 < voiLUT.lut.length := by omega
    have hnat : ((voiLUT.lut.length : Int) - 1).toNat = voiLUT.lut.length - 1 := by omega
    refine ⟨voiLUT.lut[voiLUT.lut.length - 1],
      by rw [List.getLast?_eq_getElem?, List.getElem?_eq_getElem hlast], ?_⟩
    rw [hmain, tableVOISpec]
    simp only [hidx]
    have h0 : (0 : Int) ≤ (voiLUT.lut.length : Int) - 1 := by omega
    simp [jsIndex, h0, hnat, List.getElem?_eq_getElem hlast]
  · intro hv1 hv2
    have hidx : max 0 (min (v - voiLUT.firstValueMapped) ((voiLUT.lut.length : Int) - 1))
        = v - voiLUT.firstValueMapped := by omega
    have hlt : (v - voiLUT.firstValueMapped).toNat < voiLUT.lut.length := by omega
    refine ⟨voiLUT.lut[(v - voiLUT.firstValueMapped).toNat],
      List.getElem?_eq_getElem hlt, ?_⟩
    rw [hmain, tableVOISpec]
    simp only [hidx]
    have h0 : (0 : Int) ≤ v - voiLUT.firstValueMapped := by omega
    simp [jsIndex, h0, List.getElem?_eq_getElem hlt]

/-- Witness of C8 on the table `[0, 128, 255]` of `getVOILut_test.js`, first
value mapped 0: the inputs -1, 0, 1, 2, 3 and 256 give 0, 0, 128, 255, 255 and
255, the shift being 0. -/
theorem generateNonLinearVOILUT_lookup_witness :
    testVoiLUT.lut ≠ [] ∧ (∀ e ∈ testVoiLUT.lut, 0 ≤ e) ∧
    tableShiftSpec testVoiLUT.lut = 0 ∧
    generateNonLinearVOILUT testVoiLUT false (((-1 : Int) : ℚ)) = ((0 : Int) : ℚ) ∧
    generateNonLinearVOILUT testVoiLUT false (((0 : Int) : ℚ)) = ((0 : Int) : ℚ) ∧
    generateNonLinearVOILUT testVoiLUT false (((1 : Int) : ℚ)) = ((128 : Int) : ℚ) ∧
    generateNonLinearVOILUT testVoiLUT false (((2 : Int) : ℚ)) = ((255 : Int) : ℚ) ∧
    generateNonLinearVOILUT testVoiLUT true (((3 : Int) : ℚ)) = ((255 : Int) : ℚ) ∧
    generateNonLinearVOILUT testVoiLUT true (((256 : Int) : ℚ)) = ((255 : Int) : ℚ) := by
  have hne : testVoiLUT.lut ≠ [] := by decide
  have hnonneg : ∀ e ∈ testVoiLUT.lut, 0 ≤ e := by decide
  have hshift : tableShiftSpec testVoiLUT.lut = 0 := by
    have hmax : List.foldl max 0 testVoiLUT.lut = 255 := by decide
    rw [tableShiftSpec, hmax, size_255]
    rfl
  have hspec : ∀ v : Int, tableVOISpec testVoiLUT v
      = jsShiftRight (jsIndex testVoiLUT.lut (max 0 (min (v - 0) 2))) 0 := by
    intro v
    rw [tableVOISpec, hshift]
    rfl
  refine ⟨hne, hnonneg, hshift, ?_, ?_, ?_, ?_, ?_, ?_⟩
  · rw [(generateNonLinearVOILUT_lookup testVoiLUT hne hnonneg false (-1)).1, hspec]
    decide
  · rw [(generateNonLinearVOILUT_lookup testVoiLUT hne hnonneg false 0).1, hspec]
    decide
  · rw [(generateNonLinearVOILUT_lookup testVoiLUT hne hnonneg false 1).1, hspec]
    decide
  · rw [(generateNonLinearVOILUT_lookup testVoiLUT hne hnonneg false 2).1, hspec]
    decide
  · rw [(generateNonLinearVOILUT_lookup testVoiLUT hne hnonneg true 3).1, hspec]
    decide
  · rw [(generateNonLinearVOILUT_lookup testVoiLUT hne hnonneg true 256).1, hspec]
    decide

end Claims

/-! ## Claims about the window mappings

The mappings compute in double precision: every operator rounds. -/

section WindowClaims

variable {K : Type} [LinearOrderedField K] [FloorRing K]

open JSNumber

/-- Counterexample to C9 as stated: with width 1 and center `10 ^ 17` the upper
bound `windowCenter + windowWidth / 2` that JavaScript computes is the center
itself, the half being absorbed by the rounding, and at that input the
linear-exact mapping returns 0, not 255. -/
theorem generateLinearExactVOILUT_upper_absorbed :
    (0 : ℚ) < 1 ∧
    (finite 100000000000000000 + finite 1 / finite 2 : JSNumber ℚ)
      = finite 100000000000000000 ∧
    generateLinearExactVOILUT (1 : ℚ) 100000000000000000 100000000000000000 = finite 0 ∧
    generateLinearExactVOILUT (1 : ℚ) 100000000000000000 100000000000000000 ≠ finite 255 := by
  obtain ⟨hhigh, hval⟩ := linearExact_1_1e17_at_upper
  refine ⟨by norm_num, hhigh, hval, ?_⟩
  rw [hval]
  intro h
  injection h with h
  norm_num at h

/-- C9, amended: for a window width above 0, when half the width and the two
bounds `center - width / 2` and `center + width / 2` are doubles, so that the
code computes them without rounding, the linear-exact mapping is 0 at the lower
bound and 255 at the upper bound. The upper value is the value of the formula
branch, which is taken on every input above the lower bound and up to the
upper bound; the second clamp is taken above the upper bound only. -/
theorem generateLinearExactVOILUT_boundaries (windowWidth windowCenter : K)
    (hw : 0 < windowWidth) (hhalf : IsDouble (windowWidth / 2))
    (hlo : IsDouble (windowCenter - windowWidth / 2))
    (hhi : IsDouble (windowCenter + windowWidth / 2)) :
    generateLinearExactVOILUT windowWidth windowCenter (windowCenter - windowWidth / 2)
      = finite 0 ∧
    generateLinearExactVOILUT windowWidth windowCenter (windowCenter + windowWidth / 2)
      = finite 255 ∧
    generateLinearVOILUT windowWidth windowCenter (windowCenter + windowWidth / 2)
      = finite 255 ∧
    (∀ x : K, windowCenter - windowWidth / 2 < x → x ≤ windowCenter + windowWidth / 2 →
      generateLinearExactVOILUT windowWidth windowCenter x
        = generateLinearVOILUT windowWidth windowCenter x) ∧
    (∀ x : K, windowCenter + windowWidth / 2 < x →
      generateLinearExactVOILUT windowWidth windowCenter x = finite 255) := by
  have hex := linearExact_exact windowWidth windowCenter hhalf hlo hhi
  have hlin : generateLinearVOILUT windowWidth windowCenter
      (windowCenter + windowWidth / 2) = finite 255 := by
    unfold generateLinearVOILUT
    rw [finite_sub_finite, add_sub_cancel_left, show toDouble (windowWidth / 2)
      = finite (windowWidth / 2) from hhalf]
    exact linear_steps_half windowWidth hw
  have hform : ∀ x : K, windowCenter - windowWidth / 2 < x →
      x ≤ windowCenter + windowWidth / 2 →
      generateLinearExactVOILUT windowWidth windowCenter x
        = generateLinearVOILUT windowWidth windowCenter x := by
    intro x h1 h2
    rw [hex x, if_neg (not_le.mpr h1), if_neg (not_lt.mpr h2)]
  refine ⟨by rw [hex, if_pos (le_refl _)], ?_, hlin, hform, ?_⟩
  · rw [hform _ (by linarith) (le_refl _)]
    exact hlin
  · intro x hx
    rw [hex x, if_neg (not_le.mpr (by linarith)), if_pos hx]

/-- Witness of the amended C9 on the window of `getVOILut_test.js`, width 100
and center 50, whose bounds 0 and 100 are doubles. -/
theorem generateLinearExactVOILUT_boundaries_witness :
    (0 : ℚ) < 100 ∧ IsDouble ((100 : ℚ) / 2) ∧ IsDouble ((50 : ℚ) - 100 / 2) ∧
    IsDouble ((50 : ℚ) + 100 / 2) ∧
    generateLinearExactVOILUT (100 : ℚ) 50 (50 - 100 / 2) = finite 0 ∧
    generateLinearExactVOILUT (100 : ℚ) 50 (50 + 100 / 2) = finite 255 := by
  have hw : (0 : ℚ) < 100 := by norm_num
  have h1 : IsDouble ((100 : ℚ) / 2) :=
    isDouble_dyadic 50 0 (by norm_num) (by norm_num) (by norm_num) (by norm_num)
  have h2 : IsDouble ((50 : ℚ) - 100 / 2) :=
    isDouble_dyadic 0 0 (by norm_num) (by norm_num) (by norm_num) (by norm_num)
  have h3 : IsDouble ((50 : ℚ) + 100 / 2) :=
    isDouble_dyadic 100 0 (by norm_num) (by norm_num) (by norm_num) (by norm_num)
  exact ⟨hw, h1, h2, h3, (generateLinearExactVOILUT_boundaries 100 50 hw h1 h2 h3).1,
    (generateLinearExactVOILUT_boundaries 100 50 hw h1 h2 h3).2.1⟩

/-- Counterexample to C10 as stated: with width 1 and center the double nearest
1.7, at the input `2476979795053773 / 2 ^ 50`, the upper bound that JavaScript
computes, the linear-exact mapping takes its formula branch and returns
`4486007441326081 / 2 ^ 44`, about 255.00000000000006: a value above 255, and
not the linear value clamped into 0 to 255. -/
theorem generateLinearExactVOILUT_exceeds_255 :
    (0 : ℚ) < 1 ∧
    (finite (7656119366529843 / 4503599627370496) + finite 1 / finite 2 : JSNumber ℚ)
      = finite (2476979795053773 / 1125899906842624) ∧
    generateLinearExactVOILUT (1 : ℚ) (7656119366529843 / 4503599627370496)
        (2476979795053773 / 1125899906842624)
      = finite (4486007441326081 / 17592186044416) ∧
    ¬ (generateLinearExactVOILUT (1 : ℚ) (7656119366529843 / 4503599627370496)
        (2476979795053773 / 1125899906842624) ≤ finite 255) ∧
    linearExactSpec (1 : ℚ) (7656119366529843 / 4503599627370496)
        (2476979795053773 / 1125899906842624) = finite 255 ∧
    generateLinearExactVOILUT (1 : ℚ) (7656119366529843 / 4503599627370496)
        (2476979795053773 / 1125899906842624)
      ≠ linearExactSpec (1 : ℚ) (7656119366529843 / 4503599627370496)
        (2476979795053773 / 1125899906842624) := by
  obtain ⟨hhigh, hlin, hval⟩ := linearExact_1_17_at_upper
  have hspec : linearExactSpec (1 : ℚ) (7656119366529843 / 4503599627370496)
      (2476979795053773 / 1125899906842624) = finite 255 := by
    have h : linearExactSpec (1 : ℚ) (7656119366529843 / 4503599627370496)
        (2476979795053773 / 1125899906842624)
        = jsMin (finite 255) (jsMax (finite 0)
            (generateLinearVOILUT (1 : ℚ) (7656119366529843 / 4503599627370496)
              (2476979795053773 / 1125899906842624))) := by
      unfold linearExactSpec generateLinearVOILUT
      norm_num
    rw [h, hlin]
    simp [jsMax, jsMin]
    norm_num
  refine ⟨by norm_num, hhigh, hval, ?_, hspec, ?_⟩
  · rw [hval, finite_le_finite]
    norm_num
  · rw [hval, hspec]
    intro h
    injection h with h
    norm_num at h

/-- C10, amended: for a window width above 0, when half the width and the two
bounds `center - width / 2` and `center + width / 2` are doubles, the
linear-exact mapping equals, at every input, the unclamped linear mapping
clamped into 0 to 255, `min (255, max (0, linear x))`, and its value lies
between 0 and 255. -/
theorem generateLinearExactVOILUT_eq_clamp (windowWidth windowCenter : K)
    (hw : 0 < windowWidth) (hhalf : IsDouble (windowWidth / 2))
    (hlo : IsDouble (windowCenter - windowWidth / 2))
    (hhi : IsDouble (windowCenter + windowWidth / 2)) (x : K) :
    generateLinearExactVOILUT windowWidth windowCenter x
      = linearExactSpec windowWidth windowCenter x ∧
    finite 0 ≤ generateLinearExactVOILUT windowWidth windowCenter x ∧
    generateLinearExactVOILUT windowWidth windowCenter x ≤ finite 255 :=
  linearExact_clamp windowWidth windowCenter hw hhalf hlo hhi x

/-- Witness of the amended C10 on the window of `getVOILut_test.js`, width 100
and center 50, at the input 25. -/
theorem generateLinearExactVOILUT_eq_clamp_witness :
    (0 : ℚ) < 100 ∧ IsDouble ((100 : ℚ) / 2) ∧ IsDouble ((50 : ℚ) - 100 / 2) ∧
    IsDouble ((50 : ℚ) + 100 / 2) ∧
    generateLinearExactVOILUT (100 : ℚ) 50 25 = linearExactSpec 100 50 25 ∧
    finite 0 ≤ generateLinearExactVOILUT (100 : ℚ) 50 25 ∧
    generateLinearExactVOILUT (100 : ℚ) 50 25 ≤ finite 255 := by
  have hw : (0 : ℚ) < 100 := by norm_num
  have h1 : IsDouble ((100 : ℚ) / 2) :=
    isDouble_dyadic 50 0 (by norm_num) (by norm_num) (by norm_num) (by norm_num)
  have h2 : IsDouble ((50 : ℚ) - 100 / 2) :=
    isDouble_dyadic 0 0 (by norm_num) (by norm_num) (by norm_num) (by norm_num)
  have h3 : IsDouble ((50 : ℚ) + 100 / 2) :=
    isDouble_dyadic 100 0 (by norm_num) (by norm_num) (by norm_num) (by norm_num)
  exact ⟨hw, h1, h2, h3, generateLinearExactVOILUT_eq_clamp 100 50 hw h1 h2 h3 25⟩

/-- Counterexample to C11 as stated: with width 255 and center 127 the linear
mapping at -1 is `-281474976710655 / 2 ^ 49`, about -0.4999999999999982, the
quotient `-128 / 255` being rounded; the exact value of
`(x - center) * 255 / width + 127.5`, which is `x - center + 127.5`, is -0.5. -/
theorem generateLinearVOILUT_rounds :
    (0 : ℚ) < 255 ∧
    generateLinearVOILUT (255 : ℚ) 127 (-1)
      = finite (-281474976710655 / 562949953421312) ∧
    generateLinearVOILUT (255 : ℚ) 127 (-1)
      ≠ finite (((-1) - 127) * 255 / 255 + 127.5) ∧
    generateLinearVOILUT (255 : ℚ) 127 (-1) ≠ finite ((-1) - 127 + 127.5) := by
  refine ⟨by norm_num, linear_255_127_at_neg1, ?_, ?_⟩
  · rw [linear_255_127_at_neg1]
    intro h
    injection h with h
    norm_num at h
  · rw [linear_255_127_at_neg1]
    intro h
    injection h with h
    norm_num at h

/-- C11, amended: for a window width above 0 the linear mapping is 127.5 at the
center, for every width; at an input where the four intermediate results
`x - center`, the quotient, the sum with 0.5 and the product with 255 are
doubles, it is `(x - center) * 255 / width + 127.5`, which for width 255 is
`x - center + 127.5`. Elsewhere it is that formula with every step rounded. -/
theorem generateLinearVOILUT_formula (windowWidth windowCenter x : K)
    (hw : 0 < windowWidth) :
    generateLinearVOILUT windowWidth windowCenter windowCenter = finite 127.5 ∧
    (IsDouble (x - windowCenter) → IsDouble ((x - windowCenter) / windowWidth) →
      IsDouble ((x - windowCenter) / windowWidth + 1 / 2) →
      IsDouble (((x - windowCenter) / windowWidth + 1 / 2) * 255) →
      generateLinearVOILUT windowWidth windowCenter x
        = finite ((x - windowCenter) * 255 / windowWidth + 127.5)) ∧
    (IsDouble (x - windowCenter) → IsDouble ((x - windowCenter) / 255) →
      IsDouble ((x - windowCenter) / 255 + 1 / 2) →
      IsDouble (((x - windowCenter) / 255 + 1 / 2) * 255) →
      generateLinearVOILUT 255 windowCenter x = finite (x - windowCenter + 127.5)) := by
  refine ⟨?_, ?_, ?_⟩
  · exact linear_at_center windowWidth windowCenter hw
  · intro h1 h2 h3 h4
    exact linear_exact_formula windowWidth windowCenter x (ne_of_gt hw) h1 h2 h3 h4
  · intro h1 h2 h3 h4
    rw [linear_exact_formula 255 windowCenter x (by norm_num) h1 h2 h3 h4]
    congr 1
    ring

/-- Witness of the amended C11 on the windows of `getVOILut_test.js`: width
100, center 50 gives 127.5 at 50 and 63.75 at 25. -/
theorem generateLinearVOILUT_formula_witness :
    (0 : ℚ) < 100 ∧
    generateLinearVOILUT (100 : ℚ) 50 50 = finite 127.5 ∧
    generateLinearVOILUT (100 : ℚ) 50 25 = finite 63.75 := by
  have hw : (0 : ℚ) < 100 := by norm_num
  have h := (generateLinearVOILUT_formula (100 : ℚ) 50 25 hw).2.1
    (isDouble_dyadic (-25) 0 (by norm_num) (by norm_num) (by norm_num) (by norm_num))
    (isDouble_dyadic (-1) (-2) (by norm_num) (by norm_num) (by norm_num) (by norm_num))
    (isDouble_dyadic 1 (-2) (by norm_num) (by norm_num) (by norm_num) (by norm_num))
    (isDouble_dyadic 255 (-2) (by norm_num) (by norm_num) (by norm_num) (by norm_num))
  refine ⟨hw, (generateLinearVOILUT_formula (100 : ℚ) 50 25 hw).1, ?_⟩
  rw [h]
  norm_num

/-- Counterexample to C12 as stated: with width `10 ^ 17` and center 0 the
linear mapping is 127.5 both at 0 and at 1, the quotient `1 / 10 ^ 17` being
absorbed by the addition of 0.5; the mapping is not strictly increasing. -/
theorem generateLinearVOILUT_not_strictMono :
    (0 : ℚ) < 100000000000000000 ∧ (0 : ℚ) < 1 ∧
    generateLinearVOILUT (100000000000000000 : ℚ) 0 0 = finite 127.5 ∧
    generateLinearVOILUT (100000000000000000 : ℚ) 0 1 = finite 127.5 ∧
    ¬ (generateLinearVOILUT (100000000000000000 : ℚ) 0 0
        < generateLinearVOILUT (100000000000000000 : ℚ) 0 1) := by
  have h0 : generateLinearVOILUT (100000000000000000 : ℚ) 0 0 = finite 127.5 :=
    linear_at_center (100000000000000000 : ℚ) 0 (by norm_num)
  have h1 : generateLinearVOILUT (100000000000000000 : ℚ) 0 1 = finite 127.5 := by
    rw [linear_1e17_0_at_1]
    norm_num
  refine ⟨by norm_num, by norm_num, h0, h1, ?_⟩
  rw [h0, h1, finite_lt_finite]
  exact lt_irrefl _

/-- C12, amended: for every window width above 0 and every center, the linear
mapping is non-decreasing: for all `x1 ≤ x2` the value at `x1` is at most the
value at `x2`, and never above it. -/
theorem generateLinearVOILUT_monotone (windowWidth windowCenter : K)
    (hw : 0 < windowWidth) (x1 x2 : K) (hx : x1 ≤ x2) :
    generateLinearVOILUT windowWidth windowCenter x1
      ≤ generateLinearVOILUT windowWidth windowCenter x2 ∧
    ¬ (generateLinearVOILUT windowWidth windowCenter x2
      < generateLinearVOILUT windowWidth windowCenter x1) :=
  ⟨linear_mono windowWidth windowCenter hw hx,
    jsNot_lt_of_le (linear_mono windowWidth windowCenter hw hx)⟩

/-- Witness of the amended C12 on the window of `getVOILut_test.js`, width 255
and center 127, at the inputs 0 and 1. -/
theorem generateLinearVOILUT_monotone_witness :
    (0 : ℚ) < 255 ∧ (0 : ℚ) ≤ 1 ∧
    generateLinearVOILUT (255 : ℚ) 127 0 ≤ generateLinearVOILUT (255 : ℚ) 127 1 :=
  ⟨by norm_num, by norm_num,
    (generateLinearVOILUT_monotone (255 : ℚ) 127 (by norm_num) 0 1 (by norm_num)).1⟩

/-- Counterexample to C13 as stated: with width 2 and center 0 the input
`1 + 2 ^ (-52)` is above `center + width / 2 = 1`, yet the linear mapping
returns exactly 255 there, the sum `x / 2 + 0.5` being a tie that rounds to 1;
the value is not above 255. -/
theorem generateLinearVOILUT_threshold_not_strict :
    (0 : ℚ) < 2 ∧
    (0 : ℚ) + 2 / 2 < 4503599627370497 / 4503599627370496 ∧
    generateLinearVOILUT (2 : ℚ) 0 (4503599627370497 / 4503599627370496) = finite 255 ∧
    ¬ (finite 255
      < generateLinearVOILUT (2 : ℚ) 0 (4503599627370497 / 4503599627370496)) := by
  refine ⟨by norm_num, by norm_num, linear_2_0_above_1, ?_⟩
  rw [linear_2_0_above_1, finite_lt_finite]
  exact lt_irrefl _

/-- C13, amended: the linear mapping is unclamped. For a window width above 0
whose half is a double, a value above 255 occurs only at inputs above
`center + width / 2` and a value below 0 only at inputs below
`center - width / 2`; at or above the upper threshold the value is at least
255 and at or below the lower threshold it is at most 0. -/
theorem generateLinearVOILUT_unclamped (windowWidth windowCenter : K)
    (hw : 0 < windowWidth) (hhalf : IsDouble (windowWidth / 2)) (x : K) :
    (finite 255 < generateLinearVOILUT windowWidth windowCenter x →
      windowCenter + windowWidth / 2 < x) ∧
    (generateLinearVOILUT windowWidth windowCenter x < finite 0 →
      x < windowCenter - windowWidth / 2) ∧
    (windowCenter + windowWidth / 2 ≤ x →
      finite 255 ≤ generateLinearVOILUT windowWidth windowCenter x) ∧
    (x ≤ windowCenter - windowWidth / 2 →
      generateLinearVOILUT windowWidth windowCenter x ≤ finite 0) := by
  obtain ⟨t1, t2, t3, t4⟩ := linear_thresholds windowWidth windowCenter hw hhalf x
  refine ⟨?_, ?_, t1, t4⟩
  · intro h
    by_contra hn
    exact jsNot_lt_of_le (t2 (not_lt.mp hn)) h
  · intro h
    by_contra hn
    exact jsNot_lt_of_le (t3 (not_lt.mp hn)) h

/-- Witness of the amended C13 on the window of `getVOILut_test.js`, width 255
and center 127: the value at 256 is 256.5, above 255, and the value at -1 is
below 0. -/
theorem generateLinearVOILUT_unclamped_witness :
    (0 : ℚ) < 255 ∧ IsDouble ((255 : ℚ) / 2) ∧
    finite 255 ≤ generateLinearVOILUT (255 : ℚ) 127 256 ∧
    generateLinearVOILUT (255 : ℚ) 127 (-1) ≤ finite 0 ∧
    generateLinearVOILUT (255 : ℚ) 127 256 = finite 256.5 ∧
    generateLinearVOILUT (255 : ℚ) 127 (-1) < finite 0 := by
  have hw : (0 : ℚ) < 255 := by norm_num
  have hhalf : IsDouble ((255 : ℚ) / 2) :=
    isDouble_dyadic 255 (-1) (by norm_num) (by norm_num) (by norm_num) (by norm_num)
  refine ⟨hw, hhalf,
    (generateLinearVOILUT_unclamped (255 : ℚ) 127 hw hhalf 256).2.2.1 (by norm_num),
    (generateLinearVOILUT_unclamped (255 : ℚ) 127 hw hhalf (-1)).2.2.2 (by norm_num), ?_, ?_⟩
  · rw [linear_255_127_at_256]
    norm_num
  · rw [linear_255_127_at_neg1, finite_lt_finite]
    norm_num

end WindowClaims

/-! ## Claims about the sigmoid mapping

`Math.exp` is a parameter; in the closed statements it is the correctly
rounded real exponential, `mathExp Real.exp`. -/

section SigmoidClaims

variable {K : Type} [LinearOrderedField K] [FloorRing K]

open JSNumber

/-- Counterexample to C14 as stated: with width 255 and center 127 the sigmoid
mapping returns exactly 255 both at 2500 and at 3000, the exponential being
below `2 ^ (-53)` and absorbed by the addition to 1; the mapping reaches its
upper bound and is not strictly increasing. -/
theorem generateSigmoidVOILUT_reaches_255 :
    (0 : ℝ) < 255 ∧ (2500 : ℝ) < 3000 ∧
    generateSigmoidVOILUT (mathExp Real.exp) 255 127 2500 = finite 255 ∧
    generateSigmoidVOILUT (mathExp Real.exp) 255 127 3000 = finite 255 ∧
    ¬ (generateSigmoidVOILUT (mathExp Real.exp) 255 127 2500
        < generateSigmoidVOILUT (mathExp Real.exp) 255 127 3000) ∧
    ¬ (generateSigmoidVOILUT (mathExp Real.exp) 255 127 2500 < finite 255) := by
  refine ⟨by norm_num, by norm_num, sigmoid_255_127_at_2500, sigmoid_255_127_at_3000, ?_, ?_⟩
  · rw [sigmoid_255_127_at_2500, sigmoid_255_127_at_3000, finite_lt_finite]
    exact lt_irrefl _
  · rw [sigmoid_255_127_at_2500, finite_lt_finite]
    exact lt_irrefl _

/-- C14, amended: for every window width above 0 and every center, when
`Math.exp` is non-negative and non-decreasing, the sigmoid mapping is
non-decreasing in its input and its value lies between 0 and 255, both bounds
included. -/
theorem generateSigmoidVOILUT_monotone_bounded (exp : JSNumber K → JSNumber K)
    (hnonneg : ∀ a, a ≠ nan → finite 0 ≤ exp a)
    (hmono : ∀ a b, a ≤ b → exp a ≤ exp b)
    (windowWidth windowCenter : K) (hw : 0 < windowWidth) :
    (∀ x1 x2 : K, x1 ≤ x2 →
      generateSigmoidVOILUT exp windowWidth windowCenter x1
        ≤ generateSigmoidVOILUT exp windowWidth windowCenter x2) ∧
    (∀ x : K, finite 0 ≤ generateSigmoidVOILUT exp windowWidth windowCenter x ∧
      generateSigmoidVOILUT exp windowWidth windowCenter x ≤ finite 255) :=
  ⟨fun _ _ hx => sigmoid_mono exp hnonneg hmono windowWidth windowCenter hw hx,
    fun x => sigmoid_bounds exp hnonneg windowWidth windowCenter hw x⟩

/-- Witness of the amended C14 on the window of `getVOILut_test.js`, width 255
and center 127, with the correctly rounded real exponential: the value at 0 is
at most the value at 1, and the value at 256 lies between 0 and 255. -/
theorem generateSigmoidVOILUT_monotone_bounded_witness :
    (∀ a : JSNumber ℝ, a ≠ nan → finite 0 ≤ mathExp Real.exp a) ∧
    (∀ a b : JSNumber ℝ, a ≤ b → mathExp Real.exp a ≤ mathExp Real.exp b) ∧
    (0 : ℝ) < 255 ∧
    generateSigmoidVOILUT (mathExp Real.exp) 255 127 0
      ≤ generateSigmoidVOILUT (mathExp Real.exp) 255 127 1 ∧
    finite 0 ≤ generateSigmoidVOILUT (mathExp Real.exp) 255 127 256 ∧
    generateSigmoidVOILUT (mathExp Real.exp) 255 127 256 ≤ finite 255 := by
  have hnonneg : ∀ a : JSNumber ℝ, a ≠ nan → finite 0 ≤ mathExp Real.exp a :=
    mathExp_nonneg Real.exp Real.exp_nonneg
  have hmono : ∀ a b : JSNumber ℝ, a ≤ b → mathExp Real.exp a ≤ mathExp Real.exp b :=
    mathExp_mono Real.exp Real.exp_nonneg (fun _ _ h => Real.exp_le_exp.mpr h)
  have hw : (0 : ℝ) < 255 := by norm_num
  exact ⟨hnonneg, hmono, hw,
    (generateSigmoidVOILUT_monotone_bounded (mathExp Real.exp) hnonneg hmono 255 127 hw).1
      0 1 (by norm_num),
    (generateSigmoidVOILUT_monotone_bounded (mathExp Real.exp) hnonneg hmono 255 127 hw).2
      256⟩

/-- C15: for every window width above 0 and every center, the sigmoid VOI
mapping returns 127.5 at the window center, `Math.exp` being 1 at 0; also
through `getVOILut` with kind `SIGMOID`. No step rounds: the exponent is 0,
the denominator 2 and `255 / 2` is a double. -/
theorem generateSigmoidVOILUT_center (exp : JSNumber K → JSNumber K)
    (hexp : exp (finite 0) = finite 1) (windowWidth windowCenter : K)
    (hw : 0 < windowWidth) :
    generateSigmoidVOILUT exp windowWidth windowCenter windowCenter = finite 127.5 ∧
    getVOILut exp windowWidth windowCenter none false (some "SIGMOID") windowCenter
      = finite 127.5 := by
  have h : generateSigmoidVOILUT exp windowWidth windowCenter windowCenter = finite 127.5 :=
    sigmoid_at_center exp hexp windowWidth windowCenter hw
  refine ⟨h, ?_⟩
  simp only [getVOILut, if_true]
  exact h

/-- Witness of C15 on the window of `getVOILut_test.js`, width 255 and center
127, with the correctly rounded real exponential. -/
theorem generateSigmoidVOILUT_center_witness :
    mathExp Real.exp (finite 0) = finite 1 ∧ (0 : ℝ) < 255 ∧
    generateSigmoidVOILUT (mathExp Real.exp) 255 127 127 = finite 127.5 :=
  ⟨mathExp_zero Real.exp Real.exp_zero, by norm_num,
    (generateSigmoidVOILUT_center (mathExp Real.exp) (mathExp_zero Real.exp Real.exp_zero)
      255 127 (by norm_num)).1⟩

end SigmoidClaims

/-! ## Claims about the table-driven mapping -/

section TableClaims

variable {K : Type} [LinearOrderedField K] [FloorRing K]

open JSNumber

/-- C16: for every table whose entries are non-negative integers below
`2 ^ 31`, every first value mapped and every input, with or without rounding,
the output of the table-driven VOI function is an integer in `0 .. 255`. -/
theorem generateNonLinearVOILUT_range (voiLUT : LUT)
    (hrange : ∀ e ∈ voiLUT.lut, 0 ≤ e ∧ e < 2 ^ 31)
    (roundModalityLUTValues : Bool) (v : K) :
    ∃ n : Int, 0 ≤ n ∧ n ≤ 255 ∧
      generateNonLinearVOILUT voiLUT roundModalityLUTValues v = (n : K) := by
  obtain ⟨o, ho, hval⟩ := generateNonLinearVOILUT_cases voiLUT roundModalityLUTValues v
  obtain ⟨h0, h255, -⟩ := jsShiftRight_entry_bounds voiLUT.lut (fun e he => (hrange e he).1)
    31 (by norm_num) (le_refl _) (fun e he => (hrange e he).2) o ho
  exact ⟨_, h0, h255, hval⟩

/-- Witness of C16 on the table `[0, 128, 255]`: the input 3/2 with rounding
gives 255 and the input 1/2 without rounding, not an index, gives 0. -/
theorem generateNonLinearVOILUT_range_witness :
    (∀ e ∈ testVoiLUT.lut, 0 ≤ e ∧ e < 2 ^ 31) ∧
    (∃ n : Int, 0 ≤ n ∧ n ≤ 255 ∧
      generateNonLinearVOILUT testVoiLUT true (3 / 2 : ℚ) = (n : ℚ)) ∧
    generateNonLinearVOILUT testVoiLUT true (3 / 2 : ℚ) = 255 ∧
    generateNonLinearVOILUT testVoiLUT false (1 / 2 : ℚ) = 0 := by
  have hrange : ∀ e ∈ testVoiLUT.lut, 0 ≤ e ∧ e < 2 ^ 31 := by decide
  refine ⟨hrange, generateNonLinearVOILUT_range testVoiLUT hrange true (3 / 2 : ℚ), ?_, ?_⟩
  · have hr : mathRound (3 / 2 : ℚ) = 2 := by
      norm_num [mathRound, Int.floor_eq_iff]
    simp [generateNonLinearVOILUT, hr, bitsPerEntry, mathMax, testVoiLUT, binaryStringLength,
      jsShiftRight, jsIndex, toInt32, Int.shiftRight_eq_div_pow]
    norm_num
  · have hf : ¬ (((⌊(1 / 2 : ℚ)⌋ : Int) : ℚ) = 1 / 2) := by
      have h0 : ⌊(1 / 2 : ℚ)⌋ = 0 := by norm_num [Int.floor_eq_iff]
      rw [h0]
      norm_num
    simp [generateNonLinearVOILUT, jsIndexNum, hf, bitsPerEntry, mathMax, testVoiLUT,
      binaryStringLength, jsShiftRight, toInt32]
    norm_num

/-- C17: the table-driven VOI function does not depend on the declared
`numBitsPerEntry`: two tables with the same entries and the same first value
mapped give the same shift and the same value at every input, with or without
rounding, also through `getVOILut`. -/
theorem generateNonLinearVOILUT_ignores_numBitsPerEntry (t1 t2 : LUT)
    (hlut : t1.lut = t2.lut) (hfirst : t1.firstValueMapped = t2.firstValueMapped)
    (roundModalityLUTValues : Bool) (v : K) :
    bitsPerEntry t1.lut = bitsPerEntry t2.lut ∧
    generateNonLinearVOILUT t1 roundModalityLUTValues v
      = generateNonLinearVOILUT t2 roundModalityLUTValues v ∧
    ∀ (exp : JSNumber K → JSNumber K) (windowWidth windowCenter : K)
        (voiLUTFunction : Option String),
      getVOILut exp windowWidth windowCenter (some t1) roundModalityLUTValues voiLUTFunction v
        = getVOILut exp windowWidth windowCenter (some t2) roundModalityLUTValues
            voiLUTFunction v := by
  have h : generateNonLinearVOILUT t1 roundModalityLUTValues v
      = generateNonLinearVOILUT t2 roundModalityLUTValues v := by
    simp only [generateNonLinearVOILUT, hlut, hfirst]
  refine ⟨by rw [hlut], h, ?_⟩
  intro exp windowWidth windowCenter voiLUTFunction
  unfold getVOILut
  split
  · rfl
  · show finite _ = finite _
    rw [h]

/-- Witness of C17: the table `[0, 128, 255]` declared with 8 bits and with 16
bits gives 128 at the input 1 both times. -/
theorem generateNonLinearVOILUT_ignores_numBitsPerEntry_witness :
    testVoiLUT.numBitsPerEntry ≠ testVoiLUT16.numBitsPerEntry ∧
    generateNonLinearVOILUT testVoiLUT false (1 : ℚ)
      = generateNonLinearVOILUT testVoiLUT16 false (1 : ℚ) ∧
    generateNonLinearVOILUT testVoiLUT16 false (1 : ℚ) = 128 := by
  refine ⟨by decide,
    (generateNonLinearVOILUT_ignores_numBitsPerEntry testVoiLUT testVoiLUT16 rfl rfl
      false (1 : ℚ)).2.1, ?_⟩
  simp [generateNonLinearVOILUT, jsIndexNum, bitsPerEntry, mathMax, testVoiLUT16,
    binaryStringLength, jsShiftRight, jsIndex, toInt32, Int.shiftRight_eq_div_pow]

/-- C19: with rounding requested, for every non-empty table and every input
`v`, the table-driven function reads the table at the index
`round v - firstValueMapped` clamped into `0 .. len - 1`: that index is in
bounds, the read is an entry of the table, and the entry, shifted, is the
result. On the lookup branch, reached when
`firstValueMapped ≤ v < firstValueMapped + len - 1`, the index is
`round v - firstValueMapped` itself, so the guards keep every read in bounds. -/
theorem generateNonLinearVOILUT_round_index (voiLUT : LUT) (hne : voiLUT.lut ≠ [])
    (v : K) :
    ∃ (i : Int) (e : Int),
      i = max 0 (min (mathRound v - voiLUT.firstValueMapped)
            ((voiLUT.lut.length : Int) - 1)) ∧
      0 ≤ i ∧ i ≤ (voiLUT.lut.length : Int) - 1 ∧
      jsIndex voiLUT.lut i = some e ∧ e ∈ voiLUT.lut ∧
      generateNonLinearVOILUT voiLUT true v
        = ((jsShiftRight (some e) ((bitsPerEntry voiLUT.lut : Int) - 8) : Int) : K) ∧
      ((voiLUT.firstValueMapped : K) ≤ v →
        v < ((voiLUT.firstValueMapped + (voiLUT.lut.length : Int) - 1 : Int) : K) →
        i = mathRound v - voiLUT.firstValueMapped) := by
  have hlen : 0 < voiLUT.lut.length := List.length_pos.mpr hne
  have hhalf0 : (0 : K) ≤ 1 / 2 := by norm_num
  have hhalf1 : (1 / 2 : K) < 1 := by norm_num
  by_cases h1 : v < (voiLUT.firstValueMapped : K)
  · have hr : mathRound v - voiLUT.firstValueMapped ≤ 0 := by
      have : mathRound v < voiLUT.firstValueMapped + 1 := by
        unfold mathRound
        rw [Int.floor_lt]
        push_cast
        linarith
      omega
    obtain ⟨e, hmem, hidx⟩ := jsIndex_of_bounds voiLUT.lut 0 (le_refl 0) (by omega)
    refine ⟨0, e, by omega, le_refl 0, by omega, hidx, hmem, ?_, ?_⟩
    · unfold generateNonLinearVOILUT
      simp only [if_pos h1, hidx]
    · intro hlow
      exact absurd h1 (not_lt.mpr hlow)
  · by_cases h2 : v ≥ ((voiLUT.firstValueMapped + (voiLUT.lut.length : Int) - 1 : Int) : K)
    · have hr : (voiLUT.lut.length : Int) - 1 ≤ mathRound v - voiLUT.firstValueMapped := by
        have : voiLUT.firstValueMapped + (voiLUT.lut.length : Int) - 1 ≤ mathRound v := by
          unfold mathRound
          rw [Int.le_floor]
          linarith
        omega
      obtain ⟨e, hmem, hidx⟩ := jsIndex_of_bounds voiLUT.lut ((voiLUT.lut.length : Int) - 1)
        (by omega) (by omega)
      refine ⟨(voiLUT.lut.length : Int) - 1, e, by omega, by omega, le_refl _, hidx, hmem,
        ?_, ?_⟩
      · unfold generateNonLinearVOILUT
        simp only [if_neg h1, if_pos h2, hidx]
      · intro _ hhigh
        exact absurd h2 (not_le.mpr hhigh)
    · have hlow : (voiLUT.firstValueMapped : K) ≤ v := not_lt.mp h1
      have hhigh : v < ((voiLUT.firstValueMapped + (voiLUT.lut.length : Int) - 1 : Int) : K) :=
        not_le.mp h2
      have hge : voiLUT.firstValueMapped ≤ mathRound v := by
        unfold mathRound
        rw [Int.le_floor]
        linarith
      have hlt : mathRound v < voiLUT.firstValueMapped + (voiLUT.lut.length : Int) := by
        unfold mathRound
        rw [Int.floor_lt]
        push_cast at hhigh ⊢
        linarith
      obtain ⟨e, hmem, hidx⟩ := jsIndex_of_bounds voiLUT.lut
        (mathRound v - voiLUT.firstValueMapped) (by omega) (by omega)
      refine ⟨mathRound v - voiLUT.firstValueMapped, e, by omega, by omega, by omega, hidx,
        hmem, ?_, fun _ _ => rfl⟩
      unfold generateNonLinearVOILUT
      simp only [if_neg h1, if_neg h2, if_true, hidx]

/-- Witness of C19 on the table `[0, 128, 255]`, first value mapped 0: at the
input 3/2, on the lookup branch, the read is in bounds. -/
theorem generateNonLinearVOILUT_round_index_witness :
    testVoiLUT.lut ≠ [] ∧
    ∃ (i : Int) (e : Int),
      i = max 0 (min (mathRound (3 / 2 : ℚ) - testVoiLUT.firstValueMapped)
            ((testVoiLUT.lut.length : Int) - 1)) ∧
      0 ≤ i ∧ i ≤ (testVoiLUT.lut.length : Int) - 1 ∧
      jsIndex testVoiLUT.lut i = some e ∧ e ∈ testVoiLUT.lut ∧
      generateNonLinearVOILUT testVoiLUT true (3 / 2 : ℚ)
        = ((jsShiftRight (some e) ((bitsPerEntry testVoiLUT.lut : Int) - 8) : Int) : ℚ) ∧
      ((testVoiLUT.firstValueMapped : ℚ) ≤ 3 / 2 →
        (3 / 2 : ℚ)
          < ((testVoiLUT.firstValueMapped + (testVoiLUT.lut.length : Int) - 1 : Int) : ℚ) →
        i = mathRound (3 / 2 : ℚ) - testVoiLUT.firstValueMapped) :=
  ⟨by simp [testVoiLUT],
    generateNonLinearVOILUT_round_index testVoiLUT (by simp [testVoiLUT]) (3 / 2 : ℚ)⟩

/-- C20: for every non-empty table of non-negative integers whose largest
entry is below 128, the shift `bitsPerEntry - 8` is negative and, the shift
count being taken modulo 32, the table-driven VOI function returns 0 at every
input, with or without rounding. -/
theorem generateNonLinearVOILUT_low_table (voiLUT : LUT) (hne : voiLUT.lut ≠ [])
    (hnonneg : ∀ e ∈ voiLUT.lut, 0 ≤ e) (hmax : ∀ e ∈ voiLUT.lut, e < 128)
    (roundModalityLUTValues : Bool) (v : K) :
    (bitsPerEntry voiLUT.lut : Int) - 8 < 0 ∧
    generateNonLinearVOILUT voiLUT roundModalityLUTValues v = 0 := by
  have hlt : ∀ e ∈ voiLUT.lut, e < 2 ^ 7 := fun e he => by
    have := hmax e he
    norm_num
    exact this
  have hbits := bitsPerEntry_le voiLUT.lut hne hnonneg 7 (by norm_num) hlt
  obtain ⟨o, ho, hval⟩ := generateNonLinearVOILUT_cases voiLUT roundModalityLUTValues v
  obtain ⟨-, -, hzero⟩ := jsShiftRight_entry_bounds voiLUT.lut hnonneg 7 (by norm_num)
    (by norm_num) hlt o ho
  refine ⟨by omega, ?_⟩
  rw [hval, hzero (by norm_num)]
  simp

/-- Witness of C20 on the table `[0, 64, 127]`: the entry at index 1 is 64, yet
the function returns 0 at the input 1. -/
theorem generateNonLinearVOILUT_low_table_witness :
    lowVoiLUT.lut ≠ [] ∧ (∀ e ∈ lowVoiLUT.lut, 0 ≤ e) ∧ (∀ e ∈ lowVoiLUT.lut, e < 128) ∧
    jsIndex lowVoiLUT.lut 1 = some 64 ∧
    generateNonLinearVOILUT lowVoiLUT false (1 : ℚ) = 0 :=
  ⟨by decide, by decide, by decide, by decide,
    (generateNonLinearVOILUT_low_table lowVoiLUT (by decide) (by decide) (by decide)
      false (1 : ℚ)).2⟩

/-- Counterexample to C21 as stated: the table `[1, 2 ^ 31]` is non-decreasing
with non-negative entries, the derived shift is 24, and the function gives 0 at
the input 0 and -128 at the input 1, the entry `2 ^ 31` being negative after
the conversion to 32 bits. -/
theorem generateNonLinearVOILUT_not_monotone_wide :
    List.Pairwise (fun a b => a ≤ b) wideVoiLUT.lut ∧
    (∀ e ∈ wideVoiLUT.lut, 0 ≤ e) ∧
    generateNonLinearVOILUT wideVoiLUT false (((0 : Int) : ℚ)) = 0 ∧
    generateNonLinearVOILUT wideVoiLUT false (((1 : Int) : ℚ)) = -128 ∧
    ¬ (generateNonLinearVOILUT wideVoiLUT false (((0 : Int) : ℚ))
        ≤ generateNonLinearVOILUT wideVoiLUT false (((1 : Int) : ℚ))) := by
  have hbits : bitsPerEntry wideVoiLUT.lut = 32 := bitsPerEntry_wideVoiLUT
  have h0 : generateNonLinearVOILUT wideVoiLUT false (((0 : Int) : ℚ)) = 0 := by
    rw [generateNonLinearVOILUT_intCast wideVoiLUT (by decide), hbits]
    simp [wideVoiLUT, jsIndex, jsShiftRight, toInt32, Int.shiftRight_eq_div_pow]
  have h1 : generateNonLinearVOILUT wideVoiLUT false (((1 : Int) : ℚ)) = -128 := by
    rw [generateNonLinearVOILUT_intCast wideVoiLUT (by decide), hbits]
    simp [wideVoiLUT, jsIndex, jsShiftRight, toInt32, Int.shiftRight_eq_div_pow]
  refine ⟨by decide, by decide, h0, h1, ?_⟩
  rw [h0, h1]
  norm_num

/-- C21, amended: if the table is non-decreasing and its entries are
non-negative integers below `2 ^ 31`, the table-driven VOI function is
non-decreasing over integer inputs, with or without rounding, the two clamp
boundaries included. -/
theorem generateNonLinearVOILUT_monotone (voiLUT : LUT)
    (hsorted : List.Pairwise (fun a b => a ≤ b) voiLUT.lut)
    (hrange : ∀ e ∈ voiLUT.lut, 0 ≤ e ∧ e < 2 ^ 31)
    (roundModalityLUTValues : Bool) (u v : Int) (huv : u ≤ v) :
    generateNonLinearVOILUT voiLUT roundModalityLUTValues (u : K)
      ≤ generateNonLinearVOILUT voiLUT roundModalityLUTValues (v : K) := by
  by_cases hne : voiLUT.lut = []
  · obtain ⟨o1, ho1, h1⟩ := generateNonLinearVOILUT_cases voiLUT roundModalityLUTValues (u : K)
    obtain ⟨o2, ho2, h2⟩ := generateNonLinearVOILUT_cases voiLUT roundModalityLUTValues (v : K)
    have hn1 : o1 = none := by
      cases o1 with
      | none => rfl
      | some e => exact absurd (ho1 e rfl) (by simp [hne])
    have hn2 : o2 = none := by
      cases o2 with
      | none => rfl
      | some e => exact absurd (ho2 e rfl) (by simp [hne])
    rw [h1, h2, hn1, hn2]
  · have hlen : 0 < voiLUT.lut.length := List.length_pos.mpr hne
    rw [generateNonLinearVOILUT_intCast voiLUT hne, generateNonLinearVOILUT_intCast voiLUT hne]
    obtain ⟨a, b, ha, hb, hia, hib, hab⟩ := jsIndex_mono_of_pairwise voiLUT.lut hsorted
      (max 0 (min (u - voiLUT.firstValueMapped) ((voiLUT.lut.length : Int) - 1)))
      (max 0 (min (v - voiLUT.firstValueMapped) ((voiLUT.lut.length : Int) - 1)))
      (le_max_left _ _) (by omega) (by omega)
    rw [hia, hib]
    exact Int.cast_le.mpr
      (jsShiftRight_mono a b _ (hrange a ha).1 hab (hrange b hb).2)

/-- Witness of the amended C21 on the table `[0, 128, 255]`: the values at the
inputs -1 and 256, on the two sides of both clamp boundaries, are ordered, as
are the values at 1 and 2. -/
theorem generateNonLinearVOILUT_monotone_witness :
    List.Pairwise (fun a b => a ≤ b) testVoiLUT.lut ∧
    (∀ e ∈ testVoiLUT.lut, 0 ≤ e ∧ e < 2 ^ 31) ∧
    generateNonLinearVOILUT testVoiLUT false (((-1 : Int) : ℚ))
      ≤ generateNonLinearVOILUT testVoiLUT false (((256 : Int) : ℚ)) ∧
    generateNonLinearVOILUT testVoiLUT true (((1 : Int) : ℚ))
      ≤ generateNonLinearVOILUT testVoiLUT true (((2 : Int) : ℚ)) :=
  ⟨by decide, by decide,
    generateNonLinearVOILUT_monotone testVoiLUT (by decide) (by decide) false (-1) 256
      (by decide),
    generateNonLinearVOILUT_monotone testVoiLUT (by decide) (by decide) true 1 2
      (by decide)⟩

end TableClaims

/-! ## Claims about the bounds of the sampler -/

section SamplerClaims

variable {K : Type} [LinearOrderedField K] [FloorRing K]

/-- C18: if the buffer holds `rows * columns` samples and `x`, `y`, `width`,
`height` are integers with `0 ≤ x`, `0 ≤ y`, `x + width ≤ columns` and
`y + height ≤ rows`, then every index `(row + y) * columns + (column + x)` that
`getStoredPixels` reads lies in `0 .. rows * columns - 1`, and no entry of the
result is absent. -/
theorem getStoredPixels_in_bounds (w : World K) (el : Element) (ee : EnabledElement K)
    (hee : w.enabledElements el = some ee) (options : Options) (rows x y : Int)
    (width height : Nat)
    (hlen : ((getPixelData w ee options.hqImageId).length : Int) = rows * ee.image.columns)
    (hx : 0 ≤ x) (hy : 0 ≤ y) (hxw : x + (width : Int) ≤ ee.image.columns)
    (hyh : y + (height : Int) ≤ rows) :
    (∀ row column : Nat, row < height → column < width →
      0 ≤ ((row : Int) + y) * ee.image.columns + ((column : Int) + x) ∧
      ((row : Int) + y) * ee.image.columns + ((column : Int) + x)
        < rows * ee.image.columns) ∧
    ∃ out : List (Option K),
      getStoredPixels w (some el) (x : K) (y : K) width height options = .ok out ∧
      out.length = width * height ∧
      (∀ o ∈ out, o ≠ none) ∧
      ∀ row column : Nat, row < height → column < width →
        ∃ sample : K, out[row * width + column]? = some (some sample) ∧
          jsIndex (getPixelData w ee options.hqImageId)
            (((row : Int) + y) * ee.image.columns + ((column : Int) + x)) = some sample := by
  have hidx : ∀ row column : Nat, row < height → column < width →
      0 ≤ ((row : Int) + y) * ee.image.columns + ((column : Int) + x) ∧
      ((row : Int) + y) * ee.image.columns + ((column : Int) + x)
        < rows * ee.image.columns := fun row column hrow hcol =>
    spIndex_in_bounds ee.image.columns rows x y width height row column hx hy hxw hyh
      hrow hcol
  have hsome : ∀ row column : Nat, row < height → column < width →
      ∃ sample : K, sampleAt (getPixelData w ee options.hqImageId) ee.image.columns x y
        row column = some sample := by
    intro row column hrow hcol
    obtain ⟨h0, h1⟩ := hidx row column hrow hcol
    obtain ⟨e, -, he⟩ := jsIndex_of_bounds (getPixelData w ee options.hqImageId) _ h0
      (by rw [hlen]; exact h1)
    exact ⟨e, he⟩
  refine ⟨hidx, regionSamples (getPixelData w ee options.hqImageId) ee.image.columns x y
    width height, ?_, regionSamples_length _ _ _ _ _ _, ?_, ?_⟩
  · rw [getStoredPixels_ok w el ee hee, mathRound_intCast, mathRound_intCast]
  · apply regionSamples_forall
    intro row column hrow hcol
    obtain ⟨sample, hs⟩ := hsome row column hrow hcol
    rw [hs]
    simp
  · intro row column hrow hcol
    obtain ⟨sample, hs⟩ := hsome row column hrow hcol
    refine ⟨sample, ?_, hs⟩
    rw [regionSamples_get _ _ _ _ _ _ row column hrow hcol, hs]

/-- Witness of C18 on the 3 by 3 fixture: the region `(1, 1, 2, 2)` lies inside
the buffer of 9 samples and the result `[5, 6, 8, 9]` has no absent entry. -/
theorem getStoredPixels_in_bounds_witness :
    (((getPixelData (testWorld ℚ) (testEnabledElement ℚ) defaultOptions.hqImageId).length
      : Int) = 3 * (testEnabledElement ℚ).image.columns) ∧
    (1 : Int) + ((2 : Nat) : Int) ≤ (testEnabledElement ℚ).image.columns ∧
    ∃ out : List (Option ℚ),
      getStoredPixels (testWorld ℚ) (some testElement) ((1 : Int) : ℚ) ((1 : Int) : ℚ) 2 2
        defaultOptions = .ok out ∧
      out.length = 2 * 2 ∧ ∀ o ∈ out, o ≠ none := by
  have hlen : ((getPixelData (testWorld ℚ) (testEnabledElement ℚ)
      defaultOptions.hqImageId).length : Int) = 3 * (testEnabledElement ℚ).image.columns := by
    simp [getPixelData, defaultOptions, testEnabledElement, testImage]
  have hxw : (1 : Int) + ((2 : Nat) : Int) ≤ (testEnabledElement ℚ).image.columns := by
    simp [testEnabledElement, testImage]
  obtain ⟨-, out, hout, hl, hall, -⟩ :=
    getStoredPixels_in_bounds (testWorld ℚ) testElement (testEnabledElement ℚ) rfl
      defaultOptions 3 1 1 2 2 hlen (by norm_num) (by norm_num) hxw (by norm_num)
  exact ⟨hlen, hxw, out, hout, hl, hall⟩

end SamplerClaims

end Cornerstone
